import Mathlib

/-!
# tinysdb: the wire protocol engine

A shallow embedding of `src/tinysdb.c`.

* Memory cells are natural numbers; an `unsigned` is a natural number below `2^32`
  and arithmetic that can wrap is taken modulo `2^32` (or `2^64` for `size_t`).
* `be` is the host byte order the program is built for (`true` when it is built
  with `HAVE_BIG_ENDIAN`).
* The socket and the file system are part of an explicit `World`: the results of
  the successive `recv` calls, the return value of every `send` call, the files
  that can be opened, and the trace of all system calls made so far.
* A function that can call `fatal`, wait for input that never comes, or leave
  the bounds of a buffer returns a `Res`.
-/

namespace TinySdb

/-! ## Constants -/

def MAX_PAYLOAD : Nat := 4096

def A_SYNC : Nat := 0x434e5953
def A_CNXN : Nat := 0x4e584e43
def A_OPEN : Nat := 0x4e45504f
def A_OKAY : Nat := 0x59414b4f
def A_CLSE : Nat := 0x45534c43
def A_WRTE : Nat := 0x45545257
def A_STAT : Nat := 0x54415453

def A_VERSION : Nat := 0x02000000

/-- The modulus of `unsigned`. -/
def U32 : Nat := 4294967296

/-- The modulus of `size_t` (LP64). -/
def SIZE_T : Nat := 18446744073709551616

/-- Conversion of an `int` to `unsigned`. -/
def toU32 (x : Int) : Nat := (x % 4294967296).toNat

/-- Conversion of an `unsigned` to `int` (two's complement). -/
def toInt32 (x : Nat) : Int :=
  if x % U32 < 2147483648 then ((x % U32 : Nat) : Int) else ((x % U32 : Nat) : Int) - 4294967296

/-! ## Byte order -/

def swap_uint32 (x : Nat) : Nat :=
  ((x &&& 0xFF000000) >>> 24)
    ||| ((x &&& 0x00FF0000) >>> 8)
    ||| ((x &&& 0x0000FF00) <<< 8)
    ||| ((x &&& 0x000000FF) <<< 24)

def htoll (be : Bool) (x : Nat) : Nat := if be then swap_uint32 x else x

def ltohl (be : Bool) (x : Nat) : Nat := if be then swap_uint32 x else x

def MKID (be : Bool) (a b c d : Char) : Nat :=
  if be then d.toNat ||| (c.toNat <<< 8) ||| (b.toNat <<< 16) ||| (a.toNat <<< 24)
  else a.toNat ||| (b.toNat <<< 8) ||| (c.toNat <<< 16) ||| (d.toNat <<< 24)

def ID_SEND (be : Bool) : Nat := MKID be 'S' 'E' 'N' 'D'
def ID_DONE (be : Bool) : Nat := MKID be 'D' 'O' 'N' 'E'
def ID_DATA (be : Bool) : Nat := MKID be 'D' 'A' 'T' 'A'
def ID_OKAY (be : Bool) : Nat := MKID be 'O' 'K' 'A' 'Y'
def ID_FAIL (be : Bool) : Nat := MKID be 'F' 'A' 'I' 'L'
def ID_QUIT (be : Bool) : Nat := MKID be 'Q' 'U' 'I' 'T'

/-- The four memory cells of an `unsigned` on a host of byte order `be`. -/
def storeU32 (be : Bool) (x : Nat) : List Nat :=
  if be then [x / 16777216 % 256, x / 65536 % 256, x / 256 % 256, x % 256]
  else [x % 256, x / 256 % 256, x / 65536 % 256, x / 16777216 % 256]

/-- The `unsigned` a host of byte order `be` reads from the four cells at `off`. -/
def loadU32 (be : Bool) (m : List Nat) (off : Nat) : Nat :=
  let b0 := m.getD off 0 % 256
  let b1 := m.getD (off + 1) 0 % 256
  let b2 := m.getD (off + 2) 0 % 256
  let b3 := m.getD (off + 3) 0 % 256
  if be then b0 * 16777216 + b1 * 65536 + b2 * 256 + b3
  else b0 + b1 * 256 + b2 * 65536 + b3 * 16777216

/-- The 32-bit little-endian encoding of a number, the byte order of the wire. -/
def le32 (x : Nat) : List Nat :=
  [x % 256, x / 256 % 256, x / 65536 % 256, x / 16777216 % 256]

/-! ## Data model -/

structure amessage where
  command : Nat
  arg0 : Nat
  arg1 : Nat
  data_length : Nat
  data_check : Nat
  magic : Nat
  deriving DecidableEq, Repr

structure apacket where
  msg : amessage
  data : List Nat
  deriving DecidableEq, Repr

/-- The memory image of `syncmsg.req` (`id`, `namelen`), 8 bytes. -/
def syncmsg_req (be : Bool) (id namelen : Nat) : List Nat :=
  storeU32 be id ++ storeU32 be namelen

/-- The memory image of `syncmsg.data` (`id`, `size`), 8 bytes. -/
def syncmsg_data (be : Bool) (id size : Nat) : List Nat :=
  storeU32 be id ++ storeU32 be size

/-- The memory image of an `amessage`, 24 bytes: what `send(socket, &p->msg, ...)` writes. -/
def amessage.bytes (be : Bool) (m : amessage) : List Nat :=
  storeU32 be m.command ++ storeU32 be m.arg0 ++ storeU32 be m.arg1
    ++ storeU32 be m.data_length ++ storeU32 be m.data_check ++ storeU32 be m.magic

/-- The `amessage` a host reads from the 24 bytes a header `recv` left in `p->msg`. -/
def amessage.load (be : Bool) (bs : List Nat) : amessage :=
  { command := loadU32 be bs 0, arg0 := loadU32 be bs 4, arg1 := loadU32 be bs 8,
    data_length := loadU32 be bs 12, data_check := loadU32 be bs 16, magic := loadU32 be bs 20 }

/-- `memcpy(dst + off, src, src.length)`; `none` when it leaves the buffer `dst`. -/
def memcpy (dst : List Nat) (off : Nat) (src : List Nat) : Option (List Nat) :=
  if off + src.length ≤ dst.length then
    some (dst.take off ++ src ++ dst.drop (off + src.length))
  else none

/-- The idiom `memcpy(p->data + p->msg.data_length, src, n); p->msg.data_length += n;`. -/
def append_payload (p : apacket) (src : List Nat) : Option apacket :=
  match memcpy p.data p.msg.data_length src with
  | none => none
  | some d =>
    some { p with data := d, msg := { p.msg with data_length := p.msg.data_length + src.length } }

/-! ## The world -/

/-- What one `recv` call finds: an error (it returns `-1`) or bytes, of which the
call takes at most as many as it asked for. -/
inductive RecvResult
  | error
  | data (bytes : List Nat)
  deriving DecidableEq, Repr

/-- One system call, or one line printed. -/
inductive Event
  | sendHdr (msg : amessage) (ret : Int)
  | sendData (bytes : List Nat) (ret : Int)
  | recvHdr (r : RecvResult)
  | recvData (n : Nat) (r : RecvResult)
  | printPush (lpath rpath : List Nat)
  | printCmd (cmd : List Nat)
  | printData (text : List Nat)
  | printConnect (command arg0 arg1 : Nat) (text : List Nat)
  deriving DecidableEq, Repr

structure World where
  /-- What the successive `recv` calls on the socket find. -/
  rx : List RecvResult
  /-- The value `send` returns: `sendRet i n` for call number `i` asked to write `n` bytes. -/
  sendRet : Nat → Nat → Int
  /-- The number of `send` calls made so far. -/
  nsend : Nat
  /-- The files `fopen` can open, with their contents. -/
  fs : List Nat → Option (List Nat)
  /-- The system calls made and lines printed so far, oldest first. -/
  trace : List Event

/-- How a function ends: it returns, it calls `fatal` (the process exits), it waits
in `recv` for input that never comes, or it leaves a buffer (undefined behaviour). -/
inductive Res (α : Type)
  | ok (a : α) (w : World)
  | fatal (w : World)
  | blocked (w : World)
  | undef (w : World)

def Res.bind {α β : Type} (r : Res α) (k : α → World → Res β) : Res β :=
  match r with
  | .ok a w => k a w
  | .fatal w => .fatal w
  | .blocked w => .blocked w
  | .undef w => .undef w

def Res.world {α : Type} : Res α → World
  | .ok _ w => w
  | .fatal w => w
  | .blocked w => w
  | .undef w => w

/-- `printf` to standard output. -/
def print (e : Event) (w : World) : World :=
  { w with trace := w.trace ++ [e] }

/-- The characters `printf("%.*s", n, s)` prints: at most `n`, up to the first NUL. -/
def printf_chars (n : Nat) (s : List Nat) : List Nat :=
  (s.take n).takeWhile (fun c => c % 256 != 0)

/-! ## Packets -/

def get_apacket : apacket :=
  { msg := { command := 0, arg0 := 0, arg1 := 0, data_length := 0, data_check := 0, magic := 0 },
    data := List.replicate MAX_PAYLOAD 0 }

/-- The value `recv` returns when it is asked for `n` bytes and finds `r`. -/
def recv_ret (n : Nat) : RecvResult → Int
  | .error => -1
  | .data bytes => ((bytes.take n).length : Int)

/-- The bytes `recv` stores when it is asked for `n` bytes and finds `r`. -/
def recv_bytes (n : Nat) : RecvResult → List Nat
  | .error => []
  | .data bytes => bytes.take n

/-- The payload loop of `recv_packet`; `w.rx` is the list it recurses on. -/
def recv_loop (len : Nat) : List RecvResult → Int → apacket → World → Res apacket
  | [], bytes_read, p, w =>
    if toU32 bytes_read < len then .blocked w else .ok p w
  | r :: rest, bytes_read, p, w =>
    if toU32 bytes_read < len then
      let bytes_remaining := toInt32 ((len + U32 - toU32 bytes_read) % U32)
      let n := bytes_remaining.toNat
      let w1 := { w with rx := rest, trace := w.trace ++ [Event.recvData n r] }
      let current_read := recv_ret n r
      match memcpy p.data bytes_read.toNat (recv_bytes n r) with
      | none => .undef w1
      | some d => recv_loop len rest (bytes_read + current_read) { p with data := d } w1
    else .ok p w

def recv_packet (be : Bool) (p : apacket) (w : World) : Res apacket :=
  match w.rx with
  | [] => .blocked w
  | r :: rest =>
    let w1 := { w with rx := rest, trace := w.trace ++ [Event.recvHdr r] }
    let p1 := { p with msg := amessage.load be (recv_bytes 24 r) }
    if recv_ret 24 r ≠ 24 ∨ p1.msg.data_length > MAX_PAYLOAD then .fatal w1
    else recv_loop p1.msg.data_length rest 0 p1 w1

/-- The checksum loop of `send_packet` over the bytes `x` points at. -/
def sum_loop : List Nat → Nat → Nat
  | [], sum => sum
  | b :: x, sum => sum_loop x ((sum + b % 256) % U32)

/-- One `send` call for the header. -/
def send_hdr (msg : amessage) (w : World) : Int × World :=
  let r := w.sendRet w.nsend 24
  (r, { w with nsend := w.nsend + 1, trace := w.trace ++ [Event.sendHdr msg r] })

/-- One `send` call for the payload. -/
def send_data (bytes : List Nat) (w : World) : Int × World :=
  let r := w.sendRet w.nsend bytes.length
  (r, { w with nsend := w.nsend + 1, trace := w.trace ++ [Event.sendData bytes r] })

def send_packet (p : apacket) (w : World) : Res apacket :=
  let magic := p.msg.command ^^^ 0xffffffff
  let count := p.msg.data_length
  if p.data.length < count then .undef w
  else
    let sum := sum_loop (p.data.take count) 0
    let p1 := { p with msg := { p.msg with magic := magic, data_check := sum } }
    let s1 := send_hdr p1.msg w
    if s1.1 ≠ 24 then .fatal s1.2
    else
      let s2 := send_data (p1.data.take p1.msg.data_length) s1.2
      if s2.1 ≠ (p1.msg.data_length : Int) then .fatal s2.2
      else .ok p1 s2.2

def cmd2str (cmd : Nat) : String :=
  if cmd = A_CNXN then "CNXN"
  else if cmd = A_OKAY then "OKAY"
  else if cmd = A_CLSE then "CLSE"
  else if cmd = A_WRTE then "WRTE"
  else if cmd = A_OPEN then "OPEN"
  else "UNKN"

/-! ## Stream operations

A C string is the list of its characters, without the terminating NUL. -/

def send_open (destination : List Nat) (local_id : Int) (w : World) : Res Unit :=
  let p := get_apacket
  let len := destination.length + 1
  if len > MAX_PAYLOAD - 1 then .fatal w
  else
    let p := { p with msg := { p.msg with command := A_OPEN, arg0 := toU32 local_id,
                                          data_length := len } }
    match memcpy p.data 0 (destination ++ [0]) with
    | none => .undef w
    | some d => (send_packet { p with data := d } w).bind fun _ w => .ok () w

def send_cmd (cmd : Nat) (local_id remote_id : Int) (w : World) : Res Unit :=
  let p := get_apacket
  let p := { p with msg := { p.msg with command := cmd, arg0 := toU32 local_id,
                                        arg1 := toU32 remote_id } }
  (send_packet p w).bind fun _ w => .ok () w

/-! ## The sync sub-protocol -/

/-- The byte count `MAX_PAYLOAD - p->msg.data_length - sizeof(msg.data)` that `send_file`
asks `fread` for: an `unsigned` difference, then a `size_t` difference. -/
def fread_count (data_length : Nat) : Nat :=
  ((MAX_PAYLOAD + U32 - data_length % U32) % U32 + SIZE_T - 8) % SIZE_T

/-- The `while` loop of `send_file`. `fp` is the part of the file not read yet and the
first argument counts its bytes: with none left `fread` returns 0 and the loop ends. -/
def send_file_loop (be : Bool) : Nat → List Nat → apacket → apacket → World →
    Res (apacket × apacket)
  | 0, _, p, rp, w => .ok (p, rp) w
  | left + 1, fp, p, rp, w =>
    let buf := fp.take (fread_count p.msg.data_length)
    let rb := buf.length
    if rb > MAX_PAYLOAD then .undef w
    else if rb > 0 then
      let msg_data := syncmsg_data be (ID_DATA be) (htoll be rb)
      match (append_payload p msg_data).bind (fun p1 => append_payload p1 buf) with
      | none => .undef w
      | some p2 =>
        (send_packet p2 w).bind fun p3 w =>
        (recv_packet be rp w).bind fun rp w =>
          if rp.msg.command ≠ A_OKAY then .fatal w
          else
            send_file_loop be left (fp.drop rb)
              { p3 with msg := { p3.msg with data_length := 0 } } rp w
    else .ok (p, rp) w

def send_file (be : Bool) (p : apacket) (lpath : List Nat) (w : World) : Res apacket :=
  match w.fs lpath with
  | none => .fatal w
  | some fp =>
    let rp := get_apacket
    (send_file_loop be fp.length fp p rp w).bind fun s w =>
      let p := s.1
      let rp := s.2
      let msg_data := syncmsg_data be (ID_DONE be) 0
      match memcpy p.data 0 msg_data with
      | none => .undef w
      | some d =>
        let p := { p with data := d, msg := { p.msg with data_length := 8 } }
        (send_packet p w).bind fun p w =>
        (recv_packet be rp w).bind fun rp w =>
          if rp.msg.command ≠ A_OKAY then .fatal w
          else .ok p w

/-- The packet `sync_send` and `sync_quit` start from: a WRTE frame whose payload is the
request `id` with the length of `rpath`, followed by `rpath`. -/
def sync_request (be : Bool) (id : Nat) (rpath : List Nat) (local_id remote_id : Int) :
    Option apacket :=
  let p := get_apacket
  let p := { p with msg := { p.msg with command := A_WRTE, arg0 := toU32 local_id,
                                        arg1 := toU32 remote_id } }
  let len := rpath.length
  let msg_req := syncmsg_req be id (htoll be (len % U32))
  (append_payload p msg_req).bind (fun p => append_payload p rpath)

def sync_send (be : Bool) (lpath rpath : List Nat) (local_id remote_id : Int) (w : World) :
    Res Unit :=
  match sync_request be (ID_SEND be) rpath local_id remote_id with
  | none => .undef w
  | some p =>
    (send_file be p lpath w).bind fun p w =>
    (recv_packet be p w).bind fun p w =>
      if p.msg.command = A_WRTE then
        let w := print (Event.printData (printf_chars p.msg.data_length p.data)) w
        send_cmd A_OKAY local_id remote_id w
      else .ok () w

def sync_quit (be : Bool) (rpath : List Nat) (local_id remote_id : Int) (w : World) :
    Res Unit :=
  match sync_request be (ID_QUIT be) rpath local_id remote_id with
  | none => .undef w
  | some p =>
    (send_packet p w).bind fun p w =>
    (recv_packet be p w).bind fun _ w => .ok () w

/-- The closing `while(1)` loop of `do_sync_push`. The first argument counts the results
the socket still holds: with none left `recv_packet` waits. -/
def do_sync_push_loop (be : Bool) (local_id remote_id : Int) : Nat → apacket → World → Res Unit
  | 0, _, w => .blocked w
  | n + 1, p, w =>
    (recv_packet be p w).bind fun p w =>
      if p.msg.command = A_WRTE then
        let w := print (Event.printData (printf_chars p.msg.data_length p.data)) w
        (send_cmd A_OKAY local_id remote_id w).bind fun _ w =>
          do_sync_push_loop be local_id remote_id n p w
      else if p.msg.command = A_CLSE then .ok () w
      else do_sync_push_loop be local_id remote_id n p w

/-- The string "sync:". -/
def sync_service : List Nat := "sync:".toList.map Char.toNat

/-- The packet released with `put_apacket` stays in use in the closing loop, as in the
source. -/
def do_sync_push (be : Bool) (lpath rpath : List Nat) (local_id : Int) (w : World) : Res Unit :=
  let w := print (Event.printPush lpath rpath) w
  (send_open sync_service local_id w).bind fun _ w =>
  let p := get_apacket
  (recv_packet be p w).bind fun p w =>
    if p.msg.command ≠ A_OKAY then .fatal w
    else
      let remote_id := toInt32 p.msg.arg0
      (sync_send be lpath rpath local_id remote_id w).bind fun _ w =>
      (sync_quit be rpath local_id remote_id w).bind fun _ w =>
      (send_cmd A_CLSE local_id remote_id w).bind fun _ w =>
        do_sync_push_loop be local_id remote_id w.rx.length p w

/-- The `while` loop of `do_appcmd`; the first argument as in `do_sync_push_loop`. -/
def do_appcmd_loop (be : Bool) (local_id remote_id : Int) : Nat → apacket → World → Res Unit
  | 0, p, w => if p.msg.command ≠ A_CLSE then .blocked w else .ok () w
  | n + 1, p, w =>
    if p.msg.command ≠ A_CLSE then
      (recv_packet be p w).bind fun p w =>
        if p.msg.command = A_WRTE then
          let w := print (Event.printData (printf_chars p.msg.data_length p.data)) w
          (send_cmd A_OKAY local_id remote_id w).bind fun _ w =>
            do_appcmd_loop be local_id remote_id n p w
        else do_appcmd_loop be local_id remote_id n p w
    else .ok () w

def do_appcmd (be : Bool) (cmd : List Nat) (local_id : Int) (w : World) : Res Unit :=
  let w := print (Event.printCmd cmd) w
  (send_open cmd local_id w).bind fun _ w =>
  let p := get_apacket
  (recv_packet be p w).bind fun p w =>
    if p.msg.command ≠ A_OKAY then .fatal w
    else
      let remote_id := toInt32 p.msg.arg0
      do_appcmd_loop be local_id remote_id w.rx.length p w

def do_connect (be : Bool) (device_name : List Nat) (w : World) : Res Unit :=
  let cp := get_apacket
  let cp := { cp with msg := { cp.msg with command := A_CNXN, arg0 := A_VERSION,
                                           arg1 := MAX_PAYLOAD } }
  match memcpy cp.data 0 (device_name ++ [0]) with
  | none => .undef w
  | some d =>
    let cp := { cp with data := d, msg := { cp.msg with data_length := device_name.length + 1 } }
    (send_packet cp w).bind fun _ w =>
    let p := get_apacket
    (recv_packet be p w).bind fun p w =>
      if p.data.all (fun c => c % 256 != 0) then .undef w
      else
        .ok () (print (Event.printConnect p.msg.command p.msg.arg0 p.msg.arg1
                  (p.data.takeWhile (fun c => c % 256 != 0))) w)

/-! ## Observations and sample inputs -/

/-- The header `send_packet` passes to `send`. -/
def sent_header (p : apacket) : amessage :=
  { p.msg with magic := p.msg.command ^^^ 0xffffffff,
               data_check := sum_loop (p.data.take p.msg.data_length) 0 }

/-- The world after the header `send` of `send_packet`. -/
def after_hdr (p : apacket) (w : World) : World :=
  { w with nsend := w.nsend + 1,
           trace := w.trace ++ [Event.sendHdr (sent_header p) (w.sendRet w.nsend 24)] }

/-- The world after both `send` calls of `send_packet`. -/
def after_packet (p : apacket) (w : World) : World :=
  { w with nsend := w.nsend + 2,
           trace := w.trace ++ [Event.sendHdr (sent_header p) (w.sendRet w.nsend 24),
             Event.sendData (p.data.take p.msg.data_length)
               (w.sendRet (w.nsend + 1) p.msg.data_length)] }

/-- A world whose socket accepts every write in full. -/
def World.init (rx : List RecvResult) (fs : List Nat → Option (List Nat)) : World :=
  { rx := rx, sendRet := fun _ n => (n : Int), nsend := 0, fs := fs, trace := [] }

/-- A frame of three payload bytes in a buffer of four. -/
def frame3 : apacket :=
  { msg := { command := A_WRTE, arg0 := 2, arg1 := 99, data_length := 3, data_check := 7,
             magic := 5 },
    data := [1, 2, 255, 9] }

/-- A packet from `get_apacket`, with its buffer of 4096 bytes, whose header announces 4097
payload bytes. -/
def oversize_packet : apacket :=
  { get_apacket with msg := ⟨A_WRTE, 2, 99, 4097, 0, 0⟩ }

/-- A header read that finds the complete header of a frame announcing `n` payload bytes. -/
def header_of_length (n : Nat) : RecvResult :=
  RecvResult.data (amessage.bytes false ⟨A_OKAY, 0, 0, n, 0, 0⟩)

/-- The events that are `send` calls on the socket. -/
def Event.isSend : Event → Bool
  | .sendHdr _ _ => true
  | .sendData _ _ => true
  | _ => false

/-- Every event a call adds to the trace of `w` satisfies `P`, and the value it returns, if
it returns, satisfies `Q`. -/
def Emits {α : Type} (P : Event → Prop) (Q : α → Prop) (w : World) (r : Res α) : Prop :=
  (∃ evs, r.world.trace = w.trace ++ evs ∧ ∀ e ∈ evs, P e) ∧ ∀ a w', r = Res.ok a w' → Q a

/-- A header event carries the stream identifiers `a0` and `a1`. -/
def carries_ids (a0 a1 : Nat) (e : Event) : Prop :=
  ∀ m ret, e = Event.sendHdr m ret → m.arg0 = a0 ∧ m.arg1 = a1

/-- The complete header of a frame without payload, as a header read finds it. -/
def bare_header (be : Bool) (command arg0 : Nat) : RecvResult :=
  RecvResult.data (amessage.bytes be ⟨command, arg0, 0, 0, 0, 0⟩)

/-- The packet `send_open` builds for `destination`. -/
def open_packet (destination : List Nat) (local_id : Int) : apacket :=
  { msg := { command := A_OPEN, arg0 := toU32 local_id, arg1 := 0,
             data_length := destination.length + 1, data_check := 0, magic := 0 },
    data := destination ++ [0] ++ get_apacket.data.drop (destination.length + 1) }

/-- The world after a header read that consumed the first result the socket holds. -/
def after_recv_hdr (w : World) : World :=
  { w with rx := w.rx.tail, trace := w.trace ++ (w.rx.head?.map Event.recvHdr).toList }

/-- A peer that answers the OPEN with a CLSE frame. -/
def rejecting_world : World :=
  World.init [bare_header false A_CLSE 7] (fun _ => none)

/-- A peer that answers the OPEN of stream 2 with OKAY and the identifier 99, then writes
once and closes. -/
def accepting_world : World :=
  World.init [bare_header false A_OKAY 99, bare_header false A_WRTE 0,
    bare_header false A_CLSE 0] (fun _ => none)

/-- The world `w0` after the receptions that took a world from an empty trace to `wa`. -/
def rebase (w0 wa : World) : World :=
  { w0 with rx := wa.rx, trace := w0.trace ++ wa.trace }

def Res.rebase {α : Type} (w0 : World) : Res α → Res α
  | .ok a w => .ok a (TinySdb.rebase w0 w)
  | .fatal w => .fatal (TinySdb.rebase w0 w)
  | .blocked w => .blocked (TinySdb.rebase w0 w)
  | .undef w => .undef (TinySdb.rebase w0 w)

/-- The next `n` frames that `recv_packet` takes from the results `rx` into the packet `rp`
are complete and carry the command OKAY; `rp'` is the packet and `rx'` are the results still
pending after them. -/
def okay_replies (be : Bool) :
    Nat → apacket → List RecvResult → apacket → List RecvResult → Prop
  | 0, rp, rx, rp', rx' => rp' = rp ∧ rx' = rx
  | n + 1, rp, rx, rp', rx' =>
    ∃ rp1 w1, recv_packet be rp (World.init rx fun _ => none) = Res.ok rp1 w1
      ∧ rp1.msg.command = A_OKAY ∧ okay_replies be n rp1 w1.rx rp' rx'

/-- The two `send` calls of a frame that the socket accepts in full. -/
def frame_events (command arg0 arg1 : Nat) (payload : List Nat) : List Event :=
  [Event.sendHdr ⟨command, arg0, arg1, payload.length, sum_loop payload 0,
      command ^^^ 0xffffffff⟩ 24,
   Event.sendData payload payload.length]

/-- The slices of a file that successive DATA chunks carry: the first of at most `first`
bytes, the room the first frame has left, every later one of at most 4088 bytes. The first
argument bounds the number of bytes of the file. -/
def file_chunks : Nat → Nat → List Nat → List (List Nat)
  | 0, _, _ => []
  | n + 1, first, file =>
    if first = 0 ∨ file = [] then []
    else file.take first :: file_chunks n 4088 (file.drop first)

/-- A DATA sub-header followed by the bytes `c`. -/
def data_chunk (be : Bool) (c : List Nat) : List Nat :=
  syncmsg_data be (ID_DATA be) (htoll be c.length) ++ c

/-- The `send` calls of the frames that carry the chunks `cs`, the first one after the
bytes `pre` already in the payload. -/
def data_frames (be : Bool) (command arg0 arg1 : Nat) : List Nat → List (List Nat) → List Event
  | _, [] => []
  | pre, c :: cs =>
    frame_events command arg0 arg1 (pre ++ data_chunk be c)
      ++ data_frames be command arg0 arg1 [] cs

/-- The DONE marker: the characters `DONE` and a 32-bit zero. -/
def done_marker : List Nat := ['D'.toNat, 'O'.toNat, 'N'.toNat, 'E'.toNat, 0, 0, 0, 0]

/-- An empty WRTE packet of stream (2, 99), as `sync_send` starts from. -/
def wrte_packet : apacket :=
  { get_apacket with msg := ⟨A_WRTE, 2, 99, 0, 0, 0⟩ }

/-- A file of three bytes and a peer that answers two frames with OKAY. -/
def small_push_world : World :=
  World.init [bare_header false A_OKAY 0, bare_header false A_OKAY 0]
    (fun _ => some [1, 2, 3])

/-- A file of 4088 bytes and a peer that answers three frames with OKAY. -/
def push_4088_world : World :=
  World.init [bare_header false A_OKAY 0, bare_header false A_OKAY 0,
    bare_header false A_OKAY 0] (fun _ => some (List.replicate 4088 0))

/-- An empty file and a peer that answers one frame with OKAY. -/
def empty_file_world : World :=
  World.init [bare_header false A_OKAY 0] (fun _ => some [])

/-- A header read that returns a complete header with the command OKAY. -/
def okay_header (be : Bool) (r : RecvResult) : Bool :=
  decide (recv_ret 24 r = 24) && decide ((amessage.load be (recv_bytes 24 r)).command = A_OKAY)

/-- Where the flow control of `send_file` stands: no frame sent yet; a frame sent and no
response read since; one response header read since, complete and with the command OKAY; a
response read that is not one. -/
inductive Flow
  | idle
  | sent
  | acked
  | stopped
  deriving DecidableEq, Repr

/-- One step of the flow control monitor; `none` is a violation. A header may be sent at the
start or after an OKAY response, never right after another frame or after a response that is
not OKAY; a payload is sent only as part of a frame; a header is read only after a frame,
and only one. -/
def Flow.step (be : Bool) : Flow → Event → Option Flow
  | .idle, .sendHdr _ _ => some .sent
  | .acked, .sendHdr _ _ => some .sent
  | .sent, .sendData _ _ => some .sent
  | .sent, .recvHdr r => if okay_header be r then some .acked else some .stopped
  | .acked, .recvData _ _ => some .acked
  | .stopped, .recvData _ _ => some .stopped
  | s, .printPush _ _ => some s
  | s, .printCmd _ => some s
  | s, .printData _ => some s
  | s, .printConnect _ _ _ _ => some s
  | _, _ => none

/-- The monitor run over a list of events. -/
def Flow.run (be : Bool) : Flow → List Event → Option Flow
  | s, [] => some s
  | s, e :: es => (Flow.step be s e).bind fun s' => Flow.run be s' es

/-- The call that ended as `r` from the world `w` added events that take the monitor from
`s` to `s'`. -/
def Tracks {α : Type} (be : Bool) (s : Flow) (w : World) (r : Res α) (s' : Flow) : Prop :=
  ∃ evs, r.world.trace = w.trace ++ evs ∧ Flow.run be s evs = some s'

/-- The run ended in a call of `fatal`, or waiting for the rest of a frame that never
arrives. -/
def Res.fatal_or_starved {α : Type} : Res α → Prop
  | .fatal _ => True
  | .blocked w => w.rx = []
  | _ => False

/-- What holds when a part of `send_file` ends as `r` with the monitor in `s'`: if it
returned, a frame may be sent next and the value returned satisfies `Q`; if the monitor saw a
response that is not an OKAY, the run is over. -/
def FlowPost {β : Type} (Q : β → Prop) (r : Res β) (s' : Flow) : Prop :=
  (∀ b w', r = Res.ok b w' → (s' = Flow.idle ∨ s' = Flow.acked) ∧ Q b)
  ∧ (s' = Flow.stopped → r.fatal_or_starved)

/-- The events that start a frame: the `send` call for a header. -/
def Event.isSendHdr : Event → Bool
  | .sendHdr _ _ => true
  | _ => false

/-- The events that are the read of a complete header with the command OKAY. -/
def Event.isOkayHdr (be : Bool) : Event → Bool
  | .recvHdr r => okay_header be r
  | _ => false

/-- The number of frames the monitor lets through before the next OKAY response. -/
def Flow.credit : Flow → Nat
  | .idle => 1
  | .acked => 1
  | .sent => 0
  | .stopped => 0

/-- The payload reads of `recv_packet` that find the chunks `cs` while `missing` bytes of
the payload are missing: each read asks for all the bytes still missing. -/
def payload_reads : Nat → List (List Nat) → List Event
  | _, [] => []
  | missing, c :: cs =>
    Event.recvData missing (RecvResult.data c) :: payload_reads (missing - c.length) cs

/-- The packet `do_connect` builds for the identity string `device_name`. -/
def connect_packet (device_name : List Nat) : apacket :=
  { msg := { command := A_CNXN, arg0 := A_VERSION, arg1 := MAX_PAYLOAD,
             data_length := device_name.length + 1, data_check := 0, magic := 0 },
    data := device_name ++ [0] ++ get_apacket.data.drop (device_name.length + 1) }

/-- The characters of a byte string up to its first zero byte, what `printf("%s")` shows. -/
def c_string (s : List Nat) : List Nat := s.takeWhile (fun c => c % 256 != 0)

/-- The identity string `host::` that `main` passes to `do_connect`. -/
def host_identity : List Nat := "host::".toList.map Char.toNat

/-- A peer that answers with a frame of three payload bytes, `d`, `e` and a zero byte, that
arrive in two parts. -/
def connect_world : World :=
  World.init [header_of_length 3, RecvResult.data [100], RecvResult.data [101, 0]]
    (fun _ => none)

/-- A peer that answers with a frame of 4096 payload bytes, none of them zero. -/
def overread_world : World :=
  World.init [header_of_length 4096, RecvResult.data (List.replicate 4096 65)]
    (fun _ => none)

/-- Successive `recv_packet` calls, the first one with the packet `p` and the pending results
`rx`, return the frames `fs` one after another, each with the reads it has taken, and leave
the results `rx'` pending. A frame is the packet `recv_packet` returns: its header and the
buffer that holds its payload. -/
def receives (be : Bool) :
    List (apacket × List Event) → apacket → List RecvResult → List RecvResult → Prop
  | [], _, rx, rx' => rx' = rx
  | f :: fs, p, rx, rx' =>
    ∃ w1, recv_packet be p (World.init rx fun _ => none) = Res.ok f.1 w1 ∧ w1.trace = f.2
      ∧ receives be fs f.1 w1.rx rx'

/-- What follows the reception of a frame in `do_appcmd`: for a WRTE frame the payload is
printed and one OKAY frame without payload is sent; for any other frame, nothing. -/
def appcmd_reaction (local_id remote_id : Nat) (f : apacket) : List Event :=
  if f.msg.command = A_WRTE then
    Event.printData (printf_chars f.msg.data_length f.data)
      :: frame_events A_OKAY local_id remote_id []
  else []

/-- The header of a WRTE frame with two payload bytes. -/
def wrte_header_hi : amessage := ⟨A_WRTE, 99, 2, 2, 0, 0⟩

/-- A peer that accepts the OPEN with the identifier 99, writes the two bytes `hi`, sends an
OKAY frame and closes; one more result is pending after the CLSE frame. -/
def appcmd_world : World :=
  World.init [bare_header false A_OKAY 99,
    RecvResult.data (amessage.bytes false wrte_header_hi), RecvResult.data [104, 105],
    bare_header false A_OKAY 0, bare_header false A_CLSE 0, RecvResult.data [7]]
    (fun _ => none)

/-- The frame that accepts the OPEN in `appcmd_world`, with the read it takes. -/
def appcmd_accept : apacket × List Event :=
  ({ get_apacket with msg := ⟨A_OKAY, 99, 0, 0, 0, 0⟩ },
   [Event.recvHdr (bare_header false A_OKAY 99)])

/-- The WRTE frame of `appcmd_world`, with the reads it takes. -/
def appcmd_wrte : apacket × List Event :=
  (⟨wrte_header_hi, [104, 105] ++ get_apacket.data.drop 2⟩,
   [Event.recvHdr (RecvResult.data (amessage.bytes false wrte_header_hi)),
    Event.recvData 2 (RecvResult.data [104, 105])])

/-- The OKAY frame the peer of `appcmd_world` sends after its WRTE frame. -/
def appcmd_other : apacket × List Event :=
  (⟨⟨A_OKAY, 0, 0, 0, 0, 0⟩, [104, 105] ++ get_apacket.data.drop 2⟩,
   [Event.recvHdr (bare_header false A_OKAY 0)])

/-- The CLSE frame of `appcmd_world`. -/
def appcmd_close : apacket × List Event :=
  (⟨⟨A_CLSE, 0, 0, 0, 0, 0⟩, [104, 105] ++ get_apacket.data.drop 2⟩,
   [Event.recvHdr (bare_header false A_CLSE 0)])

/-- The header of a WRTE frame with three payload bytes. -/
def wrte_header_nul : amessage := ⟨A_WRTE, 99, 2, 3, 0, 0⟩

/-- A peer that accepts the OPEN with the identifier 99, writes the three bytes `h`, zero,
`i`, and closes. -/
def appcmd_nul_world : World :=
  World.init [bare_header false A_OKAY 99,
    RecvResult.data (amessage.bytes false wrte_header_nul), RecvResult.data [104, 0, 105],
    bare_header false A_CLSE 0]
    (fun _ => none)

/-- The WRTE frame of `appcmd_nul_world`, with the reads it takes. -/
def appcmd_nul_wrte : apacket × List Event :=
  (⟨wrte_header_nul, [104, 0, 105] ++ get_apacket.data.drop 3⟩,
   [Event.recvHdr (RecvResult.data (amessage.bytes false wrte_header_nul)),
    Event.recvData 3 (RecvResult.data [104, 0, 105])])

/-- The CLSE frame of `appcmd_nul_world`. -/
def appcmd_nul_close : apacket × List Event :=
  (⟨⟨A_CLSE, 0, 0, 0, 0, 0⟩, [104, 0, 105] ++ get_apacket.data.drop 3⟩,
   [Event.recvHdr (bare_header false A_CLSE 0)])

/-- The 24 bytes of a header in the byte order of the wire: the six fields in order, each
as a 32-bit little-endian integer. -/
def wire_header (m : amessage) : List Nat :=
  le32 m.command ++ le32 m.arg0 ++ le32 m.arg1 ++ le32 m.data_length ++ le32 m.data_check
    ++ le32 m.magic

/-- The 32-bit big-endian encoding of a number. -/
def be32 (x : Nat) : List Nat :=
  [x / 16777216 % 256, x / 65536 % 256, x / 256 % 256, x % 256]

/-- A DATA chunk as it goes over the wire: the characters `DATA`, the number of content
bytes as a 32-bit little-endian integer, and the content bytes. -/
def wire_chunk (c : List Nat) : List Nat :=
  ['D'.toNat, 'A'.toNat, 'T'.toNat, 'A'.toNat] ++ le32 c.length ++ c

/-- The SEND request as it goes over the wire: the characters `SEND`, the length of the
path as a 32-bit little-endian integer, and the path. -/
def wire_request (rpath : List Nat) : List Nat :=
  ['S'.toNat, 'E'.toNat, 'N'.toNat, 'D'.toNat] ++ le32 rpath.length ++ rpath

/-- The `send` calls of the frames that carry the chunks `cs` in wire format, one chunk to
a frame, the first one after the bytes `pre`. -/
def chunk_frames (command arg0 arg1 : Nat) : List Nat → List (List Nat) → List Event
  | _, [] => []
  | pre, c :: cs =>
    frame_events command arg0 arg1 (pre ++ wire_chunk c)
      ++ chunk_frames command arg0 arg1 [] cs

/-- A remote path of 4081 bytes. -/
def long_path : List Nat := List.replicate 4081 97

/-- A file of one byte, and a peer that sends nothing. -/
def one_byte_world : World := World.init [] (fun _ => some [1])

/-! # Theorems -/

/-! ## Integers and bytes -/

theorem loadU32_lt (be : Bool) (m : List Nat) (off : Nat) : loadU32 be m off < U32 := by
  unfold loadU32 U32
  have h0 := Nat.mod_lt (m.getD off 0) (show 256 > 0 by decide)
  have h1 := Nat.mod_lt (m.getD (off + 1) 0) (show 256 > 0 by decide)
  have h2 := Nat.mod_lt (m.getD (off + 2) 0) (show 256 > 0 by decide)
  have h3 := Nat.mod_lt (m.getD (off + 3) 0) (show 256 > 0 by decide)
  cases be <;> simp only [if_true, if_false, Bool.false_eq_true] <;> omega

theorem toU32_toInt32 (x : Nat) (h : x < U32) : toU32 (toInt32 x) = x := by
  unfold toU32 toInt32
  unfold U32 at h ⊢
  rw [Nat.mod_eq_of_lt h]
  split_ifs <;> omega

/-! ## send_packet -/

theorem sum_loop_eq (x : List Nat) : ∀ sum : Nat, sum < U32 →
    sum_loop x sum = (sum + (x.map (fun b => b % 256)).sum) % U32 := by
  induction x with
  | nil => intro sum h; simp [sum_loop, Nat.mod_eq_of_lt h]
  | cons b x ih =>
    intro sum _
    have hlt : (sum + b % 256) % U32 < U32 := Nat.mod_lt _ (by decide)
    rw [sum_loop, ih _ hlt]
    simp only [List.map_cons, List.sum_cons]
    rw [Nat.add_mod, Nat.mod_mod, ← Nat.add_mod, Nat.add_assoc]

theorem send_packet_eq (p : apacket) (w : World) (h : p.msg.data_length ≤ p.data.length) :
    send_packet p w =
      if w.sendRet w.nsend 24 ≠ 24 then Res.fatal (after_hdr p w)
      else if w.sendRet (w.nsend + 1) p.msg.data_length ≠ (p.msg.data_length : Int) then
        Res.fatal (after_packet p w)
      else Res.ok { p with msg := sent_header p } (after_packet p w) := by
  have hlen : (p.data.take p.msg.data_length).length = p.msg.data_length := by
    simp [List.length_take, h]
  simp only [send_packet, send_hdr, send_data, sent_header, not_lt.mpr h, if_false, hlen,
    after_hdr, after_packet]
  simp [List.append_assoc]

theorem send_packet_first_event (p : apacket) (w : World)
    (h : p.msg.data_length ≤ p.data.length) :
    ∃ rest, (send_packet p w).world.trace
      = w.trace ++ Event.sendHdr (sent_header p) (w.sendRet w.nsend 24) :: rest := by
  rw [send_packet_eq p w h]
  split_ifs
  · exact ⟨[], rfl⟩
  · exact ⟨_, rfl⟩
  · exact ⟨_, rfl⟩

/-- C5: the header `send_packet` transmits carries in `data_check` the sum of the payload
bytes (the first `data_length` bytes of the buffer, each an unsigned value 0..255) modulo
2^32, which is 0 for an empty payload. -/
theorem send_packet_data_check (p : apacket) (w : World)
    (h : p.msg.data_length ≤ p.data.length) :
    ∃ m ret rest, (send_packet p w).world.trace = w.trace ++ Event.sendHdr m ret :: rest
      ∧ m.data_check
          = ((p.data.take p.msg.data_length).map (fun b => b % 256)).sum % 4294967296
      ∧ (p.msg.data_length = 0 → m.data_check = 0) := by
  obtain ⟨rest, hr⟩ := send_packet_first_event p w h
  refine ⟨_, _, rest, hr, ?_, ?_⟩
  · simp [sent_header, sum_loop_eq _ 0 (by decide), U32]
  · intro h0
    simp [sent_header, h0, sum_loop]

theorem send_packet_data_check_witness :
    frame3.msg.data_length ≤ frame3.data.length
    ∧ ∃ m ret rest, (send_packet frame3 (World.init [] fun _ => none)).world.trace
          = (World.init [] fun _ => none).trace ++ Event.sendHdr m ret :: rest
      ∧ m.data_check
          = ((frame3.data.take frame3.msg.data_length).map (fun b => b % 256)).sum % 4294967296
      ∧ (frame3.msg.data_length = 0 → m.data_check = 0) :=
  ⟨by decide, send_packet_data_check frame3 (World.init [] fun _ => none) (by decide)⟩

/-- C6: the header `send_packet` transmits has `magic = command XOR 0xFFFFFFFF`, whatever
`magic` held before, and the `command`, `arg0`, `arg1` and `data_length` of the caller. -/
theorem send_packet_magic (p : apacket) (w : World)
    (h : p.msg.data_length ≤ p.data.length) :
    ∃ m ret rest, (send_packet p w).world.trace = w.trace ++ Event.sendHdr m ret :: rest
      ∧ m.magic = p.msg.command ^^^ 0xFFFFFFFF
      ∧ m.command = p.msg.command ∧ m.arg0 = p.msg.arg0 ∧ m.arg1 = p.msg.arg1
      ∧ m.data_length = p.msg.data_length :=
  (send_packet_first_event p w h).elim fun rest hr => ⟨_, _, rest, hr, rfl, rfl, rfl, rfl, rfl⟩

theorem send_packet_magic_witness :
    frame3.msg.data_length ≤ frame3.data.length
    ∧ ∃ m ret rest, (send_packet frame3 (World.init [] fun _ => none)).world.trace
          = (World.init [] fun _ => none).trace ++ Event.sendHdr m ret :: rest
      ∧ m.magic = frame3.msg.command ^^^ 0xFFFFFFFF
      ∧ m.command = frame3.msg.command ∧ m.arg0 = frame3.msg.arg0 ∧ m.arg1 = frame3.msg.arg1
      ∧ m.data_length = frame3.msg.data_length :=
  ⟨by decide, send_packet_magic frame3 (World.init [] fun _ => none) (by decide)⟩

/-- C7: `send_packet` makes no check of `data_length` against 4096 and does not terminate
fatally on a frame that is too long. For a packet with the buffer of 4096 bytes that
`get_apacket` allocates and a `data_length` above 4096, the checksum loop reads
`data_length` bytes from the buffer, past its end: the behaviour is undefined, where the
length rule asks for a fatal error. -/
theorem send_packet_oversize_unchecked (p : apacket) (w : World)
    (hbuf : p.data.length = 4096) (hlen : 4096 < p.msg.data_length) :
    send_packet p w = Res.undef w ∧ ∀ w', send_packet p w ≠ Res.fatal w' := by
  have h : send_packet p w = Res.undef w := by
    unfold send_packet
    simp only
    rw [if_pos (by omega)]
  exact ⟨h, fun w' hw => by rw [h] at hw; exact Res.noConfusion hw⟩

theorem send_packet_oversize_unchecked_witness :
    send_packet oversize_packet (World.init [] fun _ => none)
        = Res.undef (World.init [] fun _ => none)
    ∧ ∀ w', send_packet oversize_packet (World.init [] fun _ => none) ≠ Res.fatal w' :=
  send_packet_oversize_unchecked oversize_packet _
    (by show (List.replicate 4096 0).length = 4096; rw [List.length_replicate]) (by decide)

/-! ## recv_packet -/

theorem recv_loop_ne_fatal (len : Nat) (rx : List RecvResult) :
    ∀ (bytes_read : Int) (p : apacket) (w w' : World),
      recv_loop len rx bytes_read p w ≠ Res.fatal w' := by
  induction rx with
  | nil =>
    intro br p w w'
    unfold recv_loop
    split_ifs <;> simp
  | cons r rest ih =>
    intro br p w w'
    rw [recv_loop]
    split_ifs
    · simp only
      split
      · simp
      · exact ih _ _ _ _
    · simp

/-- C8: `recv_packet` terminates fatally, having made the header read only, when that read
returns a count other than 24 or the header announces more than 4096 payload bytes; a header
read in full that announces at most 4096 bytes never makes it terminate fatally. -/
theorem recv_packet_header_check (be : Bool) (p : apacket) (w : World) (r : RecvResult)
    (rest : List RecvResult) (hrx : w.rx = r :: rest) :
    ((recv_ret 24 r ≠ 24 ∨ (amessage.load be (recv_bytes 24 r)).data_length > 4096) →
        recv_packet be p w
          = Res.fatal { w with rx := rest, trace := w.trace ++ [Event.recvHdr r] })
    ∧ (recv_ret 24 r = 24 → (amessage.load be (recv_bytes 24 r)).data_length ≤ 4096 →
        ∀ w', recv_packet be p w ≠ Res.fatal w') := by
  constructor
  · intro h
    simp only [recv_packet, hrx, MAX_PAYLOAD]
    rw [if_pos h]
  · intro h1 h2 w'
    simp only [recv_packet, hrx, MAX_PAYLOAD]
    rw [if_neg (by simp only [h1, ne_eq, not_true_eq_false, false_or, not_lt]; exact h2)]
    exact recv_loop_ne_fatal _ _ _ _ _ _

theorem recv_packet_header_check_witness :
    (World.init [header_of_length 4097, RecvResult.data [1]] fun _ => none).rx
        = header_of_length 4097 :: [RecvResult.data [1]]
    ∧ (World.init [header_of_length 4096] fun _ => none).rx = header_of_length 4096 :: []
    ∧ recv_packet false get_apacket
          (World.init [header_of_length 4097, RecvResult.data [1]] fun _ => none)
        = Res.fatal { (World.init [header_of_length 4097, RecvResult.data [1]] fun _ => none) with
            rx := [RecvResult.data [1]], trace := [Event.recvHdr (header_of_length 4097)] }
    ∧ ∀ w', recv_packet false get_apacket (World.init [header_of_length 4096] fun _ => none)
        ≠ Res.fatal w' :=
  ⟨rfl, rfl,
   (recv_packet_header_check false get_apacket _ (header_of_length 4097) [RecvResult.data [1]]
      rfl).1 (Or.inr (by decide)),
   (recv_packet_header_check false get_apacket _ (header_of_length 4096) [] rfl).2
      (by decide) (by decide)⟩

/-! ## Traces -/

theorem Emits.bind {α β : Type} {P : Event → Prop} {Q : α → Prop} {Q' : β → Prop} {w : World}
    {r : Res α} {k : α → World → Res β} (h : Emits P Q w r)
    (hk : ∀ a w', r = Res.ok a w' → Q a → Emits P Q' w' (k a w')) :
    Emits P Q' w (r.bind k) := by
  obtain ⟨⟨evs, he, hp⟩, hq⟩ := h
  cases r with
  | ok a w' =>
    obtain ⟨⟨evs2, he2, hp2⟩, hq2⟩ := hk a w' rfl (hq a w' rfl)
    refine ⟨⟨evs ++ evs2, ?_, ?_⟩, hq2⟩
    · simp only [Res.bind, he2]
      simp only [Res.world] at he
      rw [he, List.append_assoc]
    · intro e he'
      rcases List.mem_append.mp he' with h1 | h1
      · exact hp e h1
      · exact hp2 e h1
  | fatal w' => exact ⟨⟨evs, he, hp⟩, fun a w' h => Res.noConfusion h⟩
  | blocked w' => exact ⟨⟨evs, he, hp⟩, fun a w' h => Res.noConfusion h⟩
  | undef w' => exact ⟨⟨evs, he, hp⟩, fun a w' h => Res.noConfusion h⟩

theorem Emits.stop {α : Type} {P : Event → Prop} {Q : α → Prop} {w : World} {r : Res α}
    (h : r.world = w) (hq : ∀ a w', r = Res.ok a w' → Q a) : Emits P Q w r :=
  ⟨⟨[], by simp [h], by simp⟩, hq⟩

theorem Emits.step {α : Type} {P : Event → Prop} {Q : α → Prop} {w w1 : World} {e : Event}
    {r : Res α} (he : P e) (hw : w1.trace = w.trace ++ [e]) (h : Emits P Q w1 r) :
    Emits P Q w r := by
  obtain ⟨⟨evs, h1, h2⟩, hq⟩ := h
  refine ⟨⟨e :: evs, ?_, ?_⟩, hq⟩
  · rw [h1, hw, List.append_assoc]; rfl
  · intro x hx
    rcases List.mem_cons.mp hx with h3 | h3
    · exact h3 ▸ he
    · exact h2 x h3

theorem Emits.imp {α : Type} {P : Event → Prop} {Q Q' : α → Prop} {w : World} {r : Res α}
    (h : Emits P Q w r) (hq : ∀ a, Q a → Q' a) : Emits P Q' w r :=
  ⟨h.1, fun a w' e => hq a (h.2 a w' e)⟩

theorem Emits.filter_isSend {α : Type} {Q : α → Prop} {w : World} {r : Res α}
    (h : Emits (fun e => e.isSend = false) Q w r) :
    r.world.trace.filter Event.isSend = w.trace.filter Event.isSend := by
  obtain ⟨⟨evs, h1, h2⟩, _⟩ := h
  rw [h1, List.filter_append]
  have : evs.filter Event.isSend = [] := by
    rw [List.filter_eq_nil_iff]
    intro e he
    simp [h2 e he]
  rw [this, List.append_nil]

theorem recv_loop_emits (P : Event → Prop) (hP : ∀ n r, P (Event.recvData n r)) (len : Nat)
    (rx : List RecvResult) :
    ∀ (bytes_read : Int) (p : apacket) (w : World),
      Emits P (fun p' => p'.msg = p.msg) w (recv_loop len rx bytes_read p w) := by
  induction rx with
  | nil =>
    intro br p w
    unfold recv_loop
    split_ifs
    · exact Emits.stop rfl (fun a w' h => Res.noConfusion h)
    · exact Emits.stop rfl (fun a w' h => by injection h with h1 h2; rw [← h1])
  | cons r rest ih =>
    intro br p w
    rw [recv_loop]
    split_ifs
    · simp only
      split
      · exact Emits.step (hP _ _) rfl (Emits.stop rfl (fun a w' h => Res.noConfusion h))
      · exact Emits.step (hP _ _) rfl (ih _ _ _)
    · exact Emits.stop rfl (fun a w' h => by injection h with h1 h2; rw [← h1])

theorem recv_packet_emits (P : Event → Prop) (hH : ∀ r, P (Event.recvHdr r))
    (hP : ∀ n r, P (Event.recvData n r)) (be : Bool) (p : apacket) (w : World) :
    Emits P (fun p' => p'.msg.command < U32 ∧ p'.msg.arg0 < U32) w (recv_packet be p w) := by
  unfold recv_packet
  split
  · exact Emits.stop rfl (fun a w' h => Res.noConfusion h)
  · rename_i r rest hrx
    simp only
    split_ifs
    · exact Emits.step (hH _) rfl (Emits.stop rfl (fun a w' h => Res.noConfusion h))
    · refine Emits.step (hH _) rfl ((recv_loop_emits P hP _ _ _ _ _).imp ?_)
      intro a ha
      rw [ha]
      exact ⟨loadU32_lt _ _ _, loadU32_lt _ _ _⟩

theorem send_packet_emits (P : Event → Prop) (p : apacket) (w : World)
    (hH : ∀ ret, P (Event.sendHdr (sent_header p) ret))
    (hD : ∀ bytes ret, P (Event.sendData bytes ret)) :
    Emits P (fun p' => p' = { p with msg := sent_header p }) w (send_packet p w) := by
  unfold send_packet
  simp only [send_hdr, send_data]
  split_ifs
  · exact Emits.stop rfl (fun a w' h => Res.noConfusion h)
  · exact Emits.step (hH _) rfl (Emits.stop rfl (fun a w' h => Res.noConfusion h))
  · refine ⟨⟨[_, _], List.append_assoc _ _ _, ?_⟩, fun a w' h => Res.noConfusion h⟩
    intro e he
    simp only [List.mem_cons, List.mem_singleton, List.not_mem_nil, or_false] at he
    rcases he with h | h
    · exact h ▸ hH _
    · exact h ▸ hD _ _
  · refine ⟨⟨[_, _], List.append_assoc _ _ _, ?_⟩, fun a w' h => ?_⟩
    · intro e he
      simp only [List.mem_cons, List.mem_singleton, List.not_mem_nil, or_false] at he
      rcases he with h | h
      · exact h ▸ hH _
      · exact h ▸ hD _ _
    · injection h with h1 h2
      rw [← h1]
      rfl

/-! ## Buffers -/

theorem append_payload_some (p : apacket) (src : List Nat) (p' : apacket)
    (h : append_payload p src = some p') :
    p.msg.data_length + src.length ≤ p.data.length
    ∧ p' = { p with
        data := p.data.take p.msg.data_length ++ src
                  ++ p.data.drop (p.msg.data_length + src.length),
        msg := { p.msg with data_length := p.msg.data_length + src.length } } := by
  unfold append_payload memcpy at h
  split_ifs at h with hle
  · simp only [Option.some.injEq] at h
    exact ⟨hle, h.symm⟩

theorem append_payload_msg (p : apacket) (src : List Nat) (p' : apacket)
    (h : append_payload p src = some p') :
    p'.msg.command = p.msg.command ∧ p'.msg.arg0 = p.msg.arg0 ∧ p'.msg.arg1 = p.msg.arg1 := by
  obtain ⟨_, rfl⟩ := append_payload_some p src p' h
  exact ⟨rfl, rfl, rfl⟩

/-! ## Stream identifiers -/

theorem carries_ids_of_not_hdr {a0 a1 : Nat} {e : Event}
    (h : ∀ m ret, e ≠ Event.sendHdr m ret) : carries_ids a0 a1 e :=
  fun m ret he => absurd he (h m ret)

theorem ids_recv_packet (a0 a1 : Nat) (be : Bool) (p : apacket) (w : World) :
    Emits (carries_ids a0 a1) (fun p' => p'.msg.command < U32 ∧ p'.msg.arg0 < U32) w
      (recv_packet be p w) :=
  recv_packet_emits _ (fun _ => carries_ids_of_not_hdr (fun _ _ h => Event.noConfusion h))
    (fun _ _ => carries_ids_of_not_hdr (fun _ _ h => Event.noConfusion h)) be p w

theorem ids_send_packet (a0 a1 : Nat) (p : apacket) (w : World) (h0 : p.msg.arg0 = a0)
    (h1 : p.msg.arg1 = a1) :
    Emits (carries_ids a0 a1) (fun p' => p' = { p with msg := sent_header p }) w
      (send_packet p w) := by
  refine send_packet_emits _ p w ?_ ?_
  · intro ret m ret' he
    injection he with hm _
    rw [← hm]
    exact ⟨h0, h1⟩
  · exact fun _ _ => carries_ids_of_not_hdr (fun _ _ h => Event.noConfusion h)

theorem ids_send_cmd (cmd : Nat) (local_id remote_id : Int) (w : World) :
    Emits (carries_ids (toU32 local_id) (toU32 remote_id)) (fun _ => True) w
      (send_cmd cmd local_id remote_id w) := by
  unfold send_cmd
  exact (ids_send_packet _ _ _ w rfl rfl).bind
    (fun _ _ _ _ => Emits.stop rfl (fun _ _ _ => trivial))

theorem ids_send_file_loop (a0 a1 : Nat) (be : Bool) (left : Nat) :
    ∀ (fp : List Nat) (p rp : apacket) (w : World), p.msg.arg0 = a0 → p.msg.arg1 = a1 →
      Emits (carries_ids a0 a1) (fun s => s.1.msg.arg0 = a0 ∧ s.1.msg.arg1 = a1) w
        (send_file_loop be left fp p rp w) := by
  induction left with
  | zero =>
    intro fp p rp w h0 h1
    exact Emits.stop rfl (fun a w' h => by injection h with h2 _; rw [← h2]; exact ⟨h0, h1⟩)
  | succ left ih =>
    intro fp p rp w h0 h1
    rw [send_file_loop]
    simp only
    split_ifs
    · exact Emits.stop rfl (fun a w' h => Res.noConfusion h)
    · split
      · exact Emits.stop rfl (fun a w' h => Res.noConfusion h)
      · rename_i p2 hp2
        obtain ⟨p1, hp1, hp2⟩ := Option.bind_eq_some.mp hp2
        have e1 := append_payload_msg _ _ _ hp1
        have e2 := append_payload_msg _ _ _ hp2
        have g0 : p2.msg.arg0 = a0 := e2.2.1.trans (e1.2.1.trans h0)
        have g1 : p2.msg.arg1 = a1 := e2.2.2.trans (e1.2.2.trans h1)
        refine (ids_send_packet a0 a1 _ w g0 g1).bind ?_
        intro p3 w3 _ hp3
        refine (ids_recv_packet a0 a1 be rp w3).bind ?_
        intro rp' w4 _ _
        split_ifs
        · exact Emits.stop rfl (fun a w' h => Res.noConfusion h)
        · refine ih _ _ _ _ ?_ ?_
          · rw [hp3]; exact g0
          · rw [hp3]; exact g1
    · exact Emits.stop rfl (fun a w' h => by injection h with h2 _; rw [← h2]; exact ⟨h0, h1⟩)

theorem ids_send_file (a0 a1 : Nat) (be : Bool) (p : apacket) (lpath : List Nat) (w : World)
    (h0 : p.msg.arg0 = a0) (h1 : p.msg.arg1 = a1) :
    Emits (carries_ids a0 a1) (fun _ => True) w (send_file be p lpath w) := by
  unfold send_file
  split
  · exact Emits.stop rfl (fun a w' h => Res.noConfusion h)
  · refine (ids_send_file_loop a0 a1 be _ _ p _ w h0 h1).bind ?_
    intro s w1 _ hs
    simp only
    split
    · exact Emits.stop rfl (fun a w' h => Res.noConfusion h)
    · refine (ids_send_packet a0 a1 _ w1 (by exact hs.1) (by exact hs.2)).bind ?_
      intro p2 w2 _ _
      refine (ids_recv_packet a0 a1 be _ w2).bind ?_
      intro rp w3 _ _
      split_ifs
      · exact Emits.stop rfl (fun a w' h => Res.noConfusion h)
      · exact Emits.stop rfl (fun _ _ _ => trivial)

theorem sync_request_ids (be : Bool) (id : Nat) (rpath : List Nat) (local_id remote_id : Int)
    (p : apacket) (h : sync_request be id rpath local_id remote_id = some p) :
    p.msg.arg0 = toU32 local_id ∧ p.msg.arg1 = toU32 remote_id := by
  unfold sync_request at h
  obtain ⟨p1, hp1, hp2⟩ := Option.bind_eq_some.mp h
  have e1 := append_payload_msg _ _ _ hp1
  have e2 := append_payload_msg _ _ _ hp2
  exact ⟨e2.2.1.trans e1.2.1, e2.2.2.trans e1.2.2⟩

theorem ids_sync_send (be : Bool) (lpath rpath : List Nat) (local_id remote_id : Int)
    (w : World) :
    Emits (carries_ids (toU32 local_id) (toU32 remote_id)) (fun _ => True) w
      (sync_send be lpath rpath local_id remote_id w) := by
  unfold sync_send
  split
  · exact Emits.stop rfl (fun a w' h => Res.noConfusion h)
  · rename_i p hp
    obtain ⟨h0, h1⟩ := sync_request_ids _ _ _ _ _ _ hp
    refine (ids_send_file _ _ be p lpath w h0 h1).bind ?_
    intro p1 w1 _ _
    refine (ids_recv_packet _ _ be _ w1).bind ?_
    intro p2 w2 _ _
    split_ifs
    · exact Emits.step (carries_ids_of_not_hdr (fun _ _ h => Event.noConfusion h)) rfl
        (ids_send_cmd _ _ _ _)
    · exact Emits.stop rfl (fun _ _ _ => trivial)

theorem ids_sync_quit (be : Bool) (rpath : List Nat) (local_id remote_id : Int) (w : World) :
    Emits (carries_ids (toU32 local_id) (toU32 remote_id)) (fun _ => True) w
      (sync_quit be rpath local_id remote_id w) := by
  unfold sync_quit
  split
  · exact Emits.stop rfl (fun a w' h => Res.noConfusion h)
  · rename_i p hp
    obtain ⟨h0, h1⟩ := sync_request_ids _ _ _ _ _ _ hp
    refine (ids_send_packet _ _ p w h0 h1).bind ?_
    intro p1 w1 _ _
    refine (ids_recv_packet _ _ be _ w1).bind ?_
    intro p2 w2 _ _
    exact Emits.stop rfl (fun _ _ _ => trivial)

theorem ids_do_sync_push_loop (be : Bool) (local_id remote_id : Int) (n : Nat) :
    ∀ (p : apacket) (w : World),
      Emits (carries_ids (toU32 local_id) (toU32 remote_id)) (fun _ => True) w
        (do_sync_push_loop be local_id remote_id n p w) := by
  induction n with
  | zero => exact fun p w => Emits.stop rfl (fun _ _ _ => trivial)
  | succ n ih =>
    intro p w
    rw [do_sync_push_loop]
    refine (ids_recv_packet _ _ be p w).bind ?_
    intro p1 w1 _ _
    split_ifs
    · exact Emits.step (carries_ids_of_not_hdr (fun _ _ h => Event.noConfusion h)) rfl
        ((ids_send_cmd _ _ _ _).bind (fun _ _ _ _ => ih _ _))
    · exact Emits.stop rfl (fun _ _ _ => trivial)
    · exact ih _ _

theorem ids_do_appcmd_loop (be : Bool) (local_id remote_id : Int) (n : Nat) :
    ∀ (p : apacket) (w : World),
      Emits (carries_ids (toU32 local_id) (toU32 remote_id)) (fun _ => True) w
        (do_appcmd_loop be local_id remote_id n p w) := by
  induction n with
  | zero =>
    intro p w
    rw [do_appcmd_loop]
    split_ifs <;> exact Emits.stop rfl (fun _ _ _ => trivial)
  | succ n ih =>
    intro p w
    rw [do_appcmd_loop]
    split_ifs
    · refine (ids_recv_packet _ _ be p w).bind ?_
      intro p1 w1 _ _
      split_ifs
      · exact Emits.step (carries_ids_of_not_hdr (fun _ _ h => Event.noConfusion h)) rfl
          ((ids_send_cmd _ _ _ _).bind (fun _ _ _ _ => ih _ _))
      · exact ih _ _
    · exact Emits.stop rfl (fun _ _ _ => trivial)

/-! ## Concrete runs -/

theorem storeU32_length (be : Bool) (x : Nat) : (storeU32 be x).length = 4 := by
  cases be <;> rfl

theorem amessage_bytes_length (be : Bool) (m : amessage) : (m.bytes be).length = 24 := by
  simp [amessage.bytes, storeU32_length]

theorem getD_append_at (pre l : List Nat) (k : Nat) :
    (pre ++ l).getD (pre.length + k) 0 = l.getD k 0 := by
  rw [List.getD_append_right _ _ _ _ (Nat.le_add_right _ _), Nat.add_sub_cancel_left]

theorem loadU32_storeU32 (be : Bool) (x : Nat) (h : x < U32) (pre post : List Nat) :
    loadU32 be (pre ++ storeU32 be x ++ post) pre.length = x := by
  unfold U32 at h
  have k0 := getD_append_at pre (storeU32 be x ++ post) 0
  have k1 := getD_append_at pre (storeU32 be x ++ post) 1
  have k2 := getD_append_at pre (storeU32 be x ++ post) 2
  have k3 := getD_append_at pre (storeU32 be x ++ post) 3
  rw [Nat.add_zero] at k0
  unfold loadU32
  rw [List.append_assoc, k0, k1, k2, k3]
  cases be
  · simp only [storeU32, Bool.false_eq_true, if_false, List.cons_append, List.getD_cons_zero,
      List.getD_cons_succ]
    omega
  · simp only [storeU32, if_true, List.cons_append, List.getD_cons_zero, List.getD_cons_succ]
    omega

theorem amessage_load_bytes (be : Bool) (m : amessage) (h0 : m.command < U32)
    (h1 : m.arg0 < U32) (h2 : m.arg1 < U32) (h3 : m.data_length < U32)
    (h4 : m.data_check < U32) (h5 : m.magic < U32) :
    amessage.load be (m.bytes be) = m := by
  have e0 := loadU32_storeU32 be m.command h0 []
    (storeU32 be m.arg0 ++ storeU32 be m.arg1 ++ storeU32 be m.data_length
      ++ storeU32 be m.data_check ++ storeU32 be m.magic)
  have e1 := loadU32_storeU32 be m.arg0 h1 (storeU32 be m.command)
    (storeU32 be m.arg1 ++ storeU32 be m.data_length
      ++ storeU32 be m.data_check ++ storeU32 be m.magic)
  have e2 := loadU32_storeU32 be m.arg1 h2 (storeU32 be m.command ++ storeU32 be m.arg0)
    (storeU32 be m.data_length ++ storeU32 be m.data_check ++ storeU32 be m.magic)
  have e3 := loadU32_storeU32 be m.data_length h3
    (storeU32 be m.command ++ storeU32 be m.arg0 ++ storeU32 be m.arg1)
    (storeU32 be m.data_check ++ storeU32 be m.magic)
  have e4 := loadU32_storeU32 be m.data_check h4
    (storeU32 be m.command ++ storeU32 be m.arg0 ++ storeU32 be m.arg1
      ++ storeU32 be m.data_length)
    (storeU32 be m.magic)
  have e5 := loadU32_storeU32 be m.magic h5
    (storeU32 be m.command ++ storeU32 be m.arg0 ++ storeU32 be m.arg1
      ++ storeU32 be m.data_length ++ storeU32 be m.data_check) []
  simp only [List.length_append, storeU32_length, List.length_nil, List.append_assoc,
    List.nil_append, List.append_nil] at e0 e1 e2 e3 e4 e5
  simp only [amessage.load, amessage.bytes, List.append_assoc]
  rw [e0, e1, e2, e3, e4, e5]

theorem recv_loop_zero (rx : List RecvResult) (p : apacket) (w : World) :
    recv_loop 0 rx 0 p w = Res.ok p w := by
  cases rx <;> simp [recv_loop, toU32]

theorem recv_packet_bare (be : Bool) (p : apacket) (w : World) (command arg0 : Nat)
    (rest : List RecvResult) (hrx : w.rx = bare_header be command arg0 :: rest)
    (hc : command < U32) (ha : arg0 < U32) :
    recv_packet be p w
      = Res.ok { p with msg := ⟨command, arg0, 0, 0, 0, 0⟩ } (after_recv_hdr w) := by
  have hlen := amessage_bytes_length be ⟨command, arg0, 0, 0, 0, 0⟩
  have hz : (0 : Nat) < U32 := by decide
  have hload := amessage_load_bytes be ⟨command, arg0, 0, 0, 0, 0⟩ hc ha hz hz hz hz
  have htake : List.take 24 (amessage.bytes be ⟨command, arg0, 0, 0, 0, 0⟩)
      = amessage.bytes be ⟨command, arg0, 0, 0, 0, 0⟩ :=
    List.take_of_length_le (by rw [hlen])
  simp only [recv_packet, hrx, bare_header, recv_ret, recv_bytes, htake, hlen, hload,
    MAX_PAYLOAD]
  simp only [ne_eq, not_true_eq_false, gt_iff_lt, false_or, Nat.not_lt_zero, if_false,
    Nat.cast_ofNat, recv_loop_zero, after_recv_hdr, hrx, bare_header, List.tail_cons,
    List.head?_cons, Option.map_some', Option.toList_some]

theorem get_apacket_length : get_apacket.data.length = 4096 := by
  show (List.replicate 4096 0).length = 4096
  rw [List.length_replicate]

theorem send_open_eq (destination : List Nat) (local_id : Int) (w : World)
    (hlen : destination.length + 1 ≤ 4095) (hs : ∀ i n, w.sendRet i n = (n : Int)) :
    send_open destination local_id w
      = Res.ok () (after_packet (open_packet destination local_id) w) := by
  have hm : memcpy get_apacket.data 0 (destination ++ [0])
      = some (open_packet destination local_id).data := by
    unfold memcpy
    rw [if_pos (by rw [get_apacket_length]; simp; omega)]
    simp [open_packet]
  have hfit : (open_packet destination local_id).msg.data_length
      ≤ (open_packet destination local_id).data.length := by
    simp only [open_packet, List.length_append, List.length_drop, get_apacket_length,
      List.length_singleton]
    omega
  have hsp := send_packet_eq (open_packet destination local_id) w hfit
  rw [if_neg (by rw [hs]; simp), if_neg (by rw [hs]; simp)] at hsp
  unfold send_open
  rw [if_neg (by simp only [MAX_PAYLOAD]; omega)]
  simp only [hm]
  have hp : ({ msg := { command := A_OPEN, arg0 := toU32 local_id, arg1 := get_apacket.msg.arg1,
                        data_length := destination.length + 1,
                        data_check := get_apacket.msg.data_check,
                        magic := get_apacket.msg.magic },
               data := (open_packet destination local_id).data } : apacket)
      = open_packet destination local_id := rfl
  rw [hp, hsp]
  rfl

/-! ## Opening a stream -/

theorem do_appcmd_open (be : Bool) (cmd : List Nat) (local_id : Int) (w w1 w2 : World)
    (p : apacket)
    (h1 : send_open cmd local_id (print (Event.printCmd cmd) w) = Res.ok () w1)
    (h2 : recv_packet be get_apacket w1 = Res.ok p w2) :
    do_appcmd be cmd local_id w
      = if p.msg.command ≠ A_OKAY then Res.fatal w2
        else do_appcmd_loop be local_id (toInt32 p.msg.arg0) w2.rx.length p w2 := by
  unfold do_appcmd
  simp only [h1, Res.bind, h2]

theorem do_sync_push_open (be : Bool) (lpath rpath : List Nat) (local_id : Int)
    (w w1 w2 : World) (p : apacket)
    (h1 : send_open sync_service local_id (print (Event.printPush lpath rpath) w)
            = Res.ok () w1)
    (h2 : recv_packet be get_apacket w1 = Res.ok p w2) :
    do_sync_push be lpath rpath local_id w
      = if p.msg.command ≠ A_OKAY then Res.fatal w2
        else
          (sync_send be lpath rpath local_id (toInt32 p.msg.arg0) w2).bind fun _ w =>
          (sync_quit be rpath local_id (toInt32 p.msg.arg0) w).bind fun _ w =>
          (send_cmd A_CLSE local_id (toInt32 p.msg.arg0) w).bind fun _ w =>
            do_sync_push_loop be local_id (toInt32 p.msg.arg0) w.rx.length p w := by
  unfold do_sync_push
  simp only [h1, Res.bind, h2]

theorem recv_packet_no_send (be : Bool) (p : apacket) (w : World) :
    (recv_packet be p w).world.trace.filter Event.isSend = w.trace.filter Event.isSend :=
  (recv_packet_emits (fun e => e.isSend = false) (fun _ => rfl) (fun _ _ => rfl) be p w
    ).filter_isSend

theorem send_open_trace (destination : List Nat) (local_id : Int) (w w1 : World)
    (h : send_open destination local_id w = Res.ok () w1) :
    ∃ m, w1.trace = w.trace ++ [Event.sendHdr m 24,
        Event.sendData (destination ++ [0]) (destination.length + 1)]
      ∧ m.command = A_OPEN ∧ m.arg0 = toU32 local_id ∧ m.arg1 = 0
      ∧ m.data_length = destination.length + 1 := by
  unfold send_open at h
  simp only [MAX_PAYLOAD] at h
  split_ifs at h with hlen
  simp only [gt_iff_lt, not_lt] at hlen
  have hm : memcpy get_apacket.data 0 (destination ++ [0])
      = some (open_packet destination local_id).data := by
    unfold memcpy
    rw [if_pos (by rw [get_apacket_length]; simp; omega)]
    simp [open_packet]
  have hfit : (open_packet destination local_id).msg.data_length
      ≤ (open_packet destination local_id).data.length := by
    simp only [open_packet, List.length_append, List.length_drop, get_apacket_length,
      List.length_singleton]
    omega
  have hp : ({ msg := { command := A_OPEN, arg0 := toU32 local_id, arg1 := get_apacket.msg.arg1,
                        data_length := destination.length + 1,
                        data_check := get_apacket.msg.data_check,
                        magic := get_apacket.msg.magic },
               data := (open_packet destination local_id).data } : apacket)
      = open_packet destination local_id := rfl
  simp only [hm] at h
  rw [hp, send_packet_eq _ w hfit] at h
  have htake : List.take (destination.length + 1) (open_packet destination local_id).data
      = destination ++ [0] := by
    show List.take (destination.length + 1)
        (destination ++ [0] ++ List.drop (destination.length + 1) get_apacket.data) = _
    exact List.take_left' (by simp)
  by_cases g1 : w.sendRet w.nsend 24 = 24
  swap
  · rw [if_pos g1] at h
    exact Res.noConfusion h
  by_cases g2 : w.sendRet (w.nsend + 1) (open_packet destination local_id).msg.data_length
      = ((open_packet destination local_id).msg.data_length : Int)
  swap
  · rw [if_neg (not_not.mpr g1), if_pos g2] at h
    exact Res.noConfusion h
  rw [if_neg (not_not.mpr g1), if_neg (not_not.mpr g2)] at h
  simp only [Res.bind, Res.ok.injEq, true_and] at h
  refine ⟨sent_header (open_packet destination local_id), ?_, rfl, rfl, rfl, rfl⟩
  rw [← h]
  simp only [after_packet, g1, g2]
  rw [show (open_packet destination local_id).msg.data_length = destination.length + 1 from rfl,
    htake]
  simp

theorem filter_isSend_open_frame (t : List Event) (e : Event) (he : e.isSend = false)
    (m : amessage) (bytes : List Nat) (n : Int) :
    (t ++ [e] ++ [Event.sendHdr m 24, Event.sendData bytes n]).filter Event.isSend
      = t.filter Event.isSend ++ [Event.sendHdr m 24, Event.sendData bytes n] := by
  have h1 : [e].filter Event.isSend = [] := by simp [he]
  have h2 : [Event.sendHdr m 24, Event.sendData bytes n].filter Event.isSend
      = [Event.sendHdr m 24, Event.sendData bytes n] := rfl
  rw [List.filter_append, List.filter_append, h1, h2, List.append_nil]

/-- C4: when the frame received in response to the OPEN frame has a command other than OKAY,
`do_appcmd` and `do_sync_push` terminate fatally right after that reception, and the two
`send` calls of the OPEN frame are the only ones they have made. -/
theorem open_rejected_is_fatal (be : Bool) (cmd lpath rpath : List Nat) (local_id : Int)
    (w w1 w2 v v1 v2 : World) (p q : apacket)
    (h1 : send_open cmd local_id (print (Event.printCmd cmd) w) = Res.ok () w1)
    (h2 : recv_packet be get_apacket w1 = Res.ok p w2)
    (h3 : p.msg.command ≠ A_OKAY)
    (g1 : send_open sync_service local_id (print (Event.printPush lpath rpath) v)
            = Res.ok () v1)
    (g2 : recv_packet be get_apacket v1 = Res.ok q v2)
    (g3 : q.msg.command ≠ A_OKAY) :
    (do_appcmd be cmd local_id w = Res.fatal w2
      ∧ ∃ m, m.command = A_OPEN
          ∧ w2.trace.filter Event.isSend = w.trace.filter Event.isSend
              ++ [Event.sendHdr m 24, Event.sendData (cmd ++ [0]) (cmd.length + 1)])
    ∧ (do_sync_push be lpath rpath local_id v = Res.fatal v2
      ∧ ∃ m, m.command = A_OPEN
          ∧ v2.trace.filter Event.isSend = v.trace.filter Event.isSend
              ++ [Event.sendHdr m 24,
                  Event.sendData (sync_service ++ [0]) (sync_service.length + 1)]) := by
  constructor
  · refine ⟨by rw [do_appcmd_open be cmd local_id w w1 w2 p h1 h2, if_pos h3], ?_⟩
    obtain ⟨m, ht, hm, _⟩ := send_open_trace _ _ _ _ h1
    have hr := recv_packet_no_send be get_apacket w1
    rw [h2] at hr
    simp only [Res.world] at hr
    refine ⟨m, hm, ?_⟩
    rw [hr, ht]
    exact filter_isSend_open_frame w.trace (Event.printCmd cmd) rfl m _ _
  · refine ⟨by rw [do_sync_push_open be lpath rpath local_id v v1 v2 q g1 g2, if_pos g3], ?_⟩
    obtain ⟨m, ht, hm, _⟩ := send_open_trace _ _ _ _ g1
    have hr := recv_packet_no_send be get_apacket v1
    rw [g2] at hr
    simp only [Res.world] at hr
    refine ⟨m, hm, ?_⟩
    rw [hr, ht]
    exact filter_isSend_open_frame v.trace (Event.printPush lpath rpath) rfl m _ _

theorem open_rejected_is_fatal_witness :
    (do_appcmd false [97] 1 rejecting_world
        = Res.fatal (after_recv_hdr (after_packet (open_packet [97] 1)
            (print (Event.printCmd [97]) rejecting_world)))
      ∧ ∃ m, m.command = A_OPEN
          ∧ (after_recv_hdr (after_packet (open_packet [97] 1)
                (print (Event.printCmd [97]) rejecting_world))).trace.filter Event.isSend
            = rejecting_world.trace.filter Event.isSend
              ++ [Event.sendHdr m 24, Event.sendData ([97] ++ [0]) (([97] : List Nat).length + 1)])
    ∧ (do_sync_push false [108] [114] 1 rejecting_world
        = Res.fatal (after_recv_hdr (after_packet (open_packet sync_service 1)
            (print (Event.printPush [108] [114]) rejecting_world)))
      ∧ ∃ m, m.command = A_OPEN
          ∧ (after_recv_hdr (after_packet (open_packet sync_service 1)
                (print (Event.printPush [108] [114]) rejecting_world))).trace.filter Event.isSend
            = rejecting_world.trace.filter Event.isSend
              ++ [Event.sendHdr m 24,
                  Event.sendData (sync_service ++ [0]) (sync_service.length + 1)]) :=
  open_rejected_is_fatal false [97] [108] [114] 1 rejecting_world _ _ rejecting_world _ _
    { get_apacket with msg := ⟨A_CLSE, 7, 0, 0, 0, 0⟩ }
    { get_apacket with msg := ⟨A_CLSE, 7, 0, 0, 0, 0⟩ }
    (send_open_eq [97] 1 _ (by decide) (fun _ _ => rfl))
    (recv_packet_bare false get_apacket _ A_CLSE 7 [] rfl (by decide) (by decide))
    (by decide)
    (send_open_eq sync_service 1 _ (by decide) (fun _ _ => rfl))
    (recv_packet_bare false get_apacket _ A_CLSE 7 [] rfl (by decide) (by decide))
    (by decide)

/-- C3: when the response to the OPEN frame has command OKAY and `arg0 = r`, every header
that `do_appcmd` and `do_sync_push` pass to `send` afterwards carries `arg0 = local_id` (as
an `unsigned`) and `arg1 = r`. -/
theorem stream_ids_after_open (be : Bool) (cmd lpath rpath : List Nat) (local_id : Int)
    (r : Nat) (w w1 w2 v v1 v2 : World) (p q : apacket)
    (h1 : send_open cmd local_id (print (Event.printCmd cmd) w) = Res.ok () w1)
    (h2 : recv_packet be get_apacket w1 = Res.ok p w2)
    (h3 : p.msg.command = A_OKAY) (h4 : p.msg.arg0 = r)
    (g1 : send_open sync_service local_id (print (Event.printPush lpath rpath) v)
            = Res.ok () v1)
    (g2 : recv_packet be get_apacket v1 = Res.ok q v2)
    (g3 : q.msg.command = A_OKAY) (g4 : q.msg.arg0 = r) :
    (∃ evs, (do_appcmd be cmd local_id w).world.trace = w2.trace ++ evs
      ∧ ∀ m ret, Event.sendHdr m ret ∈ evs → m.arg0 = toU32 local_id ∧ m.arg1 = r)
    ∧ (∃ evs, (do_sync_push be lpath rpath local_id v).world.trace = v2.trace ++ evs
      ∧ ∀ m ret, Event.sendHdr m ret ∈ evs → m.arg0 = toU32 local_id ∧ m.arg1 = r)
    ∧ (0 ≤ local_id → local_id < 4294967296 → ((toU32 local_id : Nat) : Int) = local_id) := by
  have hr : ∀ (p : apacket) (w1 w2 : World), recv_packet be get_apacket w1 = Res.ok p w2 →
      p.msg.arg0 = r → toU32 (toInt32 p.msg.arg0) = r := by
    intro p w1 w2 h2 h4
    have := (recv_packet_emits (fun _ => True) (fun _ => trivial) (fun _ _ => trivial) be
      get_apacket w1).2 p w2 h2
    rw [toU32_toInt32 _ this.2, h4]
  refine ⟨?_, ?_, ?_⟩
  · rw [do_appcmd_open be cmd local_id w w1 w2 p h1 h2, if_neg (not_not.mpr h3)]
    obtain ⟨⟨evs, he, hp⟩, _⟩ := ids_do_appcmd_loop be local_id (toInt32 p.msg.arg0)
      w2.rx.length p w2
    rw [hr p w1 w2 h2 h4] at hp
    exact ⟨evs, he, fun m ret hm => hp _ hm m ret rfl⟩
  · rw [do_sync_push_open be lpath rpath local_id v v1 v2 q g1 g2, if_neg (not_not.mpr g3)]
    have hall : Emits (carries_ids (toU32 local_id) (toU32 (toInt32 q.msg.arg0)))
        (fun _ => True) v2
        ((sync_send be lpath rpath local_id (toInt32 q.msg.arg0) v2).bind fun _ w =>
          (sync_quit be rpath local_id (toInt32 q.msg.arg0) w).bind fun _ w =>
          (send_cmd A_CLSE local_id (toInt32 q.msg.arg0) w).bind fun _ w =>
            do_sync_push_loop be local_id (toInt32 q.msg.arg0) w.rx.length q w) :=
      (ids_sync_send be lpath rpath local_id _ v2).bind fun _ _ _ _ =>
        (ids_sync_quit be rpath local_id _ _).bind fun _ _ _ _ =>
          (ids_send_cmd A_CLSE local_id _ _).bind fun _ _ _ _ =>
            ids_do_sync_push_loop be local_id _ _ _ _
    obtain ⟨⟨evs, he, hp⟩, _⟩ := hall
    rw [hr q v1 v2 g2 g4] at hp
    exact ⟨evs, he, fun m ret hm => hp _ hm m ret rfl⟩
  · intro h0 h1
    unfold toU32
    rw [Int.emod_eq_of_lt h0 h1]
    exact Int.toNat_of_nonneg h0

theorem stream_ids_after_open_witness :
    (∃ evs, (do_appcmd false [97] 2 accepting_world).world.trace
        = (after_recv_hdr (after_packet (open_packet [97] 2)
            (print (Event.printCmd [97]) accepting_world))).trace ++ evs
      ∧ ∀ m ret, Event.sendHdr m ret ∈ evs → m.arg0 = toU32 2 ∧ m.arg1 = 99)
    ∧ (∃ evs, (do_sync_push false [108] [114] 2 accepting_world).world.trace
        = (after_recv_hdr (after_packet (open_packet sync_service 2)
            (print (Event.printPush [108] [114]) accepting_world))).trace ++ evs
      ∧ ∀ m ret, Event.sendHdr m ret ∈ evs → m.arg0 = toU32 2 ∧ m.arg1 = 99)
    ∧ ((0 : Int) ≤ 2 → (2 : Int) < 4294967296 → ((toU32 2 : Nat) : Int) = 2) :=
  stream_ids_after_open false [97] [108] [114] 2 99 accepting_world _ _ accepting_world _ _
    { get_apacket with msg := ⟨A_OKAY, 99, 0, 0, 0, 0⟩ }
    { get_apacket with msg := ⟨A_OKAY, 99, 0, 0, 0, 0⟩ }
    (send_open_eq [97] 2 _ (by decide) (fun _ _ => rfl))
    (recv_packet_bare false get_apacket _ A_OKAY 99 _ rfl (by decide) (by decide))
    rfl rfl
    (send_open_eq sync_service 2 _ (by decide) (fun _ _ => rfl))
    (recv_packet_bare false get_apacket _ A_OKAY 99 _ rfl (by decide) (by decide))
    rfl rfl

/-! ## Receiving does not depend on what was sent -/

theorem recv_loop_rebase (w0 : World) (len : Nat) (rx : List RecvResult) :
    ∀ (bytes_read : Int) (p : apacket) (wa : World),
      recv_loop len rx bytes_read p (rebase w0 wa)
        = (recv_loop len rx bytes_read p wa).rebase w0 := by
  induction rx with
  | nil =>
    intro br p wa
    unfold recv_loop
    split_ifs <;> rfl
  | cons r rest ih =>
    intro br p wa
    rw [recv_loop, recv_loop]
    split_ifs
    · simp only
      split
      · simp only [Res.rebase, rebase, List.append_assoc]
      · rw [← ih]
        simp only [rebase, List.append_assoc]
    · rfl

theorem recv_packet_rebase (be : Bool) (p : apacket) (w0 wa : World) :
    recv_packet be p (rebase w0 wa) = (recv_packet be p wa).rebase w0 := by
  unfold recv_packet
  cases h : wa.rx with
  | nil => simp only [rebase, h, Res.rebase]
  | cons r rest =>
    simp only [rebase, h]
    split_ifs
    · simp only [Res.rebase, rebase, List.append_assoc]
    · have := recv_loop_rebase w0 (amessage.load be (recv_bytes 24 r)).data_length rest 0
        { p with msg := amessage.load be (recv_bytes 24 r) }
        { wa with rx := rest, trace := wa.trace ++ [Event.recvHdr r] }
      rw [← this]
      simp only [rebase, List.append_assoc]

theorem rebase_init (w : World) (fs : List Nat → Option (List Nat)) :
    rebase w (World.init w.rx fs) = w := by
  cases w
  simp [rebase, World.init]

theorem recv_packet_of_init (be : Bool) (p p' : apacket) (w w1 : World)
    (h : recv_packet be p (World.init w.rx fun _ => none) = Res.ok p' w1) :
    recv_packet be p w = Res.ok p' (rebase w w1) := by
  have := recv_packet_rebase be p w (World.init w.rx fun _ => none)
  rw [rebase_init, h] at this
  exact this

/-! ## A push that is acknowledged -/

theorem fread_count_eq (d : Nat) (h : d ≤ 4088) : fread_count d = 4088 - d := by
  simp only [fread_count, MAX_PAYLOAD, U32, SIZE_T]
  omega

theorem syncmsg_data_length (be : Bool) (id size : Nat) :
    (syncmsg_data be id size).length = 8 := by
  simp [syncmsg_data, storeU32_length]

theorem syncmsg_req_length (be : Bool) (id size : Nat) :
    (syncmsg_req be id size).length = 8 := by
  simp [syncmsg_req, storeU32_length]

theorem append_payload_ok (p : apacket) (src : List Nat)
    (h : p.msg.data_length + src.length ≤ p.data.length) :
    ∃ p', append_payload p src = some p'
      ∧ p'.msg.command = p.msg.command ∧ p'.msg.arg0 = p.msg.arg0 ∧ p'.msg.arg1 = p.msg.arg1
      ∧ p'.msg.data_length = p.msg.data_length + src.length
      ∧ p'.data.length = p.data.length
      ∧ p'.data.take p'.msg.data_length = p.data.take p.msg.data_length ++ src := by
  have hp : append_payload p src = some { p with
      data := p.data.take p.msg.data_length ++ src
                ++ p.data.drop (p.msg.data_length + src.length),
      msg := { p.msg with data_length := p.msg.data_length + src.length } } := by
    simp only [append_payload, memcpy, if_pos h]
  refine ⟨_, hp, rfl, rfl, rfl, rfl, ?_, ?_⟩
  · simp only [List.length_append, List.length_take, List.length_drop]
    omega
  · exact List.take_left' (by simp only [List.length_append, List.length_take]; omega)

theorem after_packet_sends (p : apacket) (w : World) (payload : List Nat)
    (hs : ∀ i n, w.sendRet i n = (n : Int)) (hp : p.data.take p.msg.data_length = payload)
    (hl : payload.length = p.msg.data_length) :
    (after_packet p w).trace.filter Event.isSend
      = w.trace.filter Event.isSend
          ++ frame_events p.msg.command p.msg.arg0 p.msg.arg1 payload := by
  simp only [after_packet, hs, hp, List.filter_append, frame_events, sent_header, hl]
  rfl

theorem send_packet_accepted (p : apacket) (w : World)
    (h : p.msg.data_length ≤ p.data.length) (hs : ∀ i n, w.sendRet i n = (n : Int)) :
    send_packet p w = Res.ok { p with msg := sent_header p } (after_packet p w) := by
  rw [send_packet_eq p w h, if_neg (by rw [hs]; simp), if_neg (by rw [hs]; simp)]

theorem recv_init_no_send (be : Bool) (p p' : apacket) (rx : List RecvResult) (w1 : World)
    (h : recv_packet be p (World.init rx fun _ => none) = Res.ok p' w1) :
    w1.trace.filter Event.isSend = [] := by
  have := recv_packet_no_send be p (World.init rx fun _ => none)
  rw [h] at this
  exact this

theorem drop_take_length (c : Nat) (fp : List Nat) :
    fp.drop (fp.take c).length = fp.drop c := by
  rw [List.length_take]
  by_cases h : c ≤ fp.length
  · rw [Nat.min_eq_left h]
  · rw [Nat.min_eq_right (by omega), List.drop_of_length_le (le_refl _),
      List.drop_of_length_le (by omega)]

theorem send_file_loop_stop (be : Bool) (left : Nat) (fp : List Nat) (p rp : apacket)
    (w : World) (hd : p.msg.data_length ≤ 4088)
    (h : (fp.take (4088 - p.msg.data_length)).length = 0) :
    send_file_loop be left fp p rp w = Res.ok (p, rp) w := by
  cases left with
  | zero => rfl
  | succ left =>
    rw [send_file_loop]
    simp only [fread_count_eq _ hd, h, MAX_PAYLOAD]
    rfl

theorem send_file_loop_step (be : Bool) (left : Nat) (fp : List Nat) (p rp p2 : apacket)
    (w : World) (hd : p.msg.data_length ≤ 4088)
    (h : 0 < (fp.take (4088 - p.msg.data_length)).length)
    (h2 : (append_payload p (syncmsg_data be (ID_DATA be)
              (htoll be (fp.take (4088 - p.msg.data_length)).length))).bind
            (fun p1 => append_payload p1 (fp.take (4088 - p.msg.data_length))) = some p2) :
    send_file_loop be (left + 1) fp p rp w
      = (send_packet p2 w).bind fun p3 w =>
          (recv_packet be rp w).bind fun rp w =>
            if rp.msg.command ≠ A_OKAY then Res.fatal w
            else
              send_file_loop be left (fp.drop (4088 - p.msg.data_length))
                { p3 with msg := { p3.msg with data_length := 0 } } rp w := by
  have hle : ¬ (fp.take (4088 - p.msg.data_length)).length > MAX_PAYLOAD := by
    have := List.length_take_le (4088 - p.msg.data_length) fp
    simp only [MAX_PAYLOAD]
    omega
  rw [send_file_loop]
  simp only [fread_count_eq _ hd, drop_take_length]
  rw [if_neg hle, if_pos h]
  simp only [h2]

theorem file_chunks_cons (left first : Nat) (file : List Nat) (h1 : first ≠ 0)
    (h2 : file ≠ []) :
    file_chunks (left + 1) first file
      = file.take first :: file_chunks left 4088 (file.drop first) := by
  rw [file_chunks, if_neg (by simp [h1, h2])]

theorem file_chunks_nil (left first : Nat) (file : List Nat)
    (h : (file.take first).length = 0) : file_chunks left first file = [] := by
  cases left with
  | zero => rfl
  | succ left =>
    rw [file_chunks, if_pos]
    rw [List.length_take] at h
    rcases Nat.eq_zero_or_pos first with h0 | h0
    · exact Or.inl h0
    · right
      apply List.eq_nil_of_length_eq_zero
      omega

theorem send_file_loop_acked (be : Bool) (left : Nat) :
    ∀ (fp : List Nat) (p rp rp' : apacket) (w : World) (rx' : List RecvResult),
      fp.length ≤ left → p.data.length = 4096 → p.msg.data_length ≤ 4088 →
      (∀ i n, w.sendRet i n = (n : Int)) →
      okay_replies be (file_chunks left (4088 - p.msg.data_length) fp).length rp w.rx rp' rx' →
      ∃ p' w', send_file_loop be left fp p rp w = Res.ok (p', rp') w'
        ∧ w'.rx = rx' ∧ w'.sendRet = w.sendRet ∧ w'.fs = w.fs
        ∧ p'.data.length = 4096
        ∧ p'.msg.command = p.msg.command ∧ p'.msg.arg0 = p.msg.arg0
        ∧ p'.msg.arg1 = p.msg.arg1
        ∧ w'.trace.filter Event.isSend = w.trace.filter Event.isSend
            ++ data_frames be p.msg.command p.msg.arg0 p.msg.arg1
                (p.data.take p.msg.data_length)
                (file_chunks left (4088 - p.msg.data_length) fp) := by
  induction left with
  | zero =>
    intro fp p rp rp' w rx' _ hlen _ _ hok
    simp only [file_chunks, List.length_nil, okay_replies] at hok
    refine ⟨p, w, ?_, hok.2.symm, rfl, rfl, hlen, rfl, rfl, rfl, ?_⟩
    · rw [hok.1]; rfl
    · simp [file_chunks, data_frames]
  | succ left ih =>
    intro fp p rp rp' w rx' hfp hlen hd hs hok
    by_cases hz : (fp.take (4088 - p.msg.data_length)).length = 0
    · rw [file_chunks_nil _ _ _ hz] at hok ⊢
      simp only [List.length_nil, okay_replies] at hok
      refine ⟨p, w, ?_, hok.2.symm, rfl, rfl, hlen, rfl, rfl, rfl, ?_⟩
      · rw [hok.1]; exact send_file_loop_stop be _ fp p rp w hd hz
      · simp [data_frames]
    · have hpos : 0 < (fp.take (4088 - p.msg.data_length)).length := Nat.pos_of_ne_zero hz
      have hle := List.length_take_le (4088 - p.msg.data_length) fp
      have hne : fp ≠ [] := by
        intro h; rw [h] at hpos; simp at hpos
      have hc : 4088 - p.msg.data_length ≠ 0 := by
        intro h; rw [h] at hpos; simp at hpos
      rw [file_chunks_cons _ _ _ hc hne] at hok ⊢
      obtain ⟨rp1, w1, hrecv, hcmd, hrest⟩ := hok
      obtain ⟨p1, hp1, c1, a1, b1, l1, n1, t1⟩ := append_payload_ok p
        (syncmsg_data be (ID_DATA be) (htoll be (fp.take (4088 - p.msg.data_length)).length))
        (by rw [syncmsg_data_length]; omega)
      obtain ⟨p2, hp2, c2, a2, b2, l2, n2, t2⟩ := append_payload_ok p1
        (fp.take (4088 - p.msg.data_length))
        (by rw [l1, syncmsg_data_length, n1]; omega)
      have hbind : (append_payload p (syncmsg_data be (ID_DATA be)
              (htoll be (fp.take (4088 - p.msg.data_length)).length))).bind
            (fun p1 => append_payload p1 (fp.take (4088 - p.msg.data_length))) = some p2 := by
        rw [hp1]; exact hp2
      have hfit : p2.msg.data_length ≤ p2.data.length := by
        rw [l2, l1, syncmsg_data_length, n2, n1]; omega
      have hsend := send_packet_accepted p2 w hfit hs
      have hrecv' := recv_packet_of_init be rp rp1 (after_packet p2 w) w1 hrecv
      have hdrop : (fp.drop (4088 - p.msg.data_length)).length ≤ left := by
        rw [List.length_drop]; omega
      obtain ⟨p', w', hloop, hrx, hsr, hfs, hl', hc', ha', hb', htr⟩ :=
        ih (fp.drop (4088 - p.msg.data_length))
          { p2 with msg := { sent_header p2 with data_length := 0 } } rp1 rp'
          (rebase (after_packet p2 w) w1) rx' hdrop
          (by show p2.data.length = 4096; rw [n2, n1]; exact hlen) (Nat.zero_le _) hs hrest
      refine ⟨p', w', ?_, hrx, hsr, hfs, hl', ?_, ?_, ?_, ?_⟩
      · rw [send_file_loop_step be left fp p rp p2 w hd hpos hbind, hsend]
        simp only [Res.bind, hrecv', hcmd, ne_eq, not_true_eq_false, if_false]
        exact hloop
      · rw [hc']; exact c2.trans c1
      · rw [ha']; exact a2.trans a1
      · rw [hb']; exact b2.trans b1
      · rw [htr]
        have h1 : (rebase (after_packet p2 w) w1).trace.filter Event.isSend
            = w.trace.filter Event.isSend
              ++ frame_events p2.msg.command p2.msg.arg0 p2.msg.arg1
                  (p2.data.take p2.msg.data_length) := by
          simp only [rebase, List.filter_append, recv_init_no_send be rp rp1 _ w1 hrecv,
            List.append_nil]
          exact after_packet_sends p2 w _ hs rfl (by
            rw [List.length_take, Nat.min_eq_left hfit])
        rw [h1, t2, t1, c2, c1, a2, a1, b2, b1]
        simp only [data_frames, data_chunk, List.append_assoc, sent_header, List.take_zero,
          Nat.sub_zero]
        rw [c2, c1, a2, a1, b2, b1]

theorem syncmsg_done (be : Bool) : syncmsg_data be (ID_DONE be) 0 = done_marker := by
  cases be <;> decide

theorem get_apacket_take_zero : get_apacket.data.take get_apacket.msg.data_length = [] := by
  show get_apacket.data.take 0 = []
  exact List.take_zero _

theorem sync_request_ok (be : Bool) (id : Nat) (rpath : List Nat) (local_id remote_id : Int)
    (h : rpath.length ≤ 4088) :
    ∃ p, sync_request be id rpath local_id remote_id = some p
      ∧ p.msg.command = A_WRTE ∧ p.msg.arg0 = toU32 local_id ∧ p.msg.arg1 = toU32 remote_id
      ∧ p.msg.data_length = 8 + rpath.length
      ∧ p.data.length = 4096
      ∧ p.data.take p.msg.data_length
          = syncmsg_req be id (htoll be (rpath.length % U32)) ++ rpath := by
  obtain ⟨p1, hp1, c1, a1, b1, l1, n1, t1⟩ := append_payload_ok
    { get_apacket with
      msg := { get_apacket.msg with
        command := A_WRTE, arg0 := toU32 local_id, arg1 := toU32 remote_id } }
    (syncmsg_req be id (htoll be (rpath.length % U32)))
    (by rw [syncmsg_req_length]
        show 0 + 8 ≤ get_apacket.data.length
        rw [get_apacket_length]; omega)
  have l1' : p1.msg.data_length = 8 := by
    rw [l1, syncmsg_req_length]; exact Nat.zero_add 8
  have n1' : p1.data.length = 4096 := n1.trans get_apacket_length
  obtain ⟨p2, hp2, c2, a2, b2, l2, n2, t2⟩ := append_payload_ok p1 rpath
    (by rw [l1', n1']; omega)
  refine ⟨p2, ?_, c2.trans c1, a2.trans a1, b2.trans b1, by rw [l2, l1'], n2.trans n1', ?_⟩
  · unfold sync_request
    simp only [hp1, Option.bind]
    exact hp2
  · rw [t2, t1]
    have : List.take get_apacket.msg.data_length get_apacket.data = [] := get_apacket_take_zero
    simp only [this, List.nil_append]

theorem send_file_acked (be : Bool) (p : apacket) (lpath : List Nat) (w : World)
    (file : List Nat) (rp' : apacket) (rx' : List RecvResult)
    (hf : w.fs lpath = some file) (hlen : p.data.length = 4096)
    (hd : p.msg.data_length ≤ 4088) (hs : ∀ i n, w.sendRet i n = (n : Int))
    (hok : okay_replies be
      (file_chunks file.length (4088 - p.msg.data_length) file).length get_apacket w.rx
      rp' rx') :
    ∃ pD w1, w1.rx = rx' ∧ w1.sendRet = w.sendRet ∧ w1.fs = w.fs
      ∧ pD.msg.command = p.msg.command ∧ pD.msg.arg0 = p.msg.arg0
      ∧ pD.msg.arg1 = p.msg.arg1 ∧ pD.data.length = 4096
      ∧ w1.trace.filter Event.isSend = w.trace.filter Event.isSend
          ++ data_frames be p.msg.command p.msg.arg0 p.msg.arg1
              (p.data.take p.msg.data_length)
              (file_chunks file.length (4088 - p.msg.data_length) file)
          ++ frame_events p.msg.command p.msg.arg0 p.msg.arg1 done_marker
      ∧ send_file be p lpath w
          = (recv_packet be rp' w1).bind fun rp w =>
              if rp.msg.command ≠ A_OKAY then Res.fatal w else Res.ok pD w := by
  obtain ⟨p', w', hloop, hrx, hsr, hfs, hl', hc', ha', hb', htr⟩ :=
    send_file_loop_acked be file.length file p get_apacket rp' w rx' (le_refl _) hlen hd hs hok
  have hm : memcpy p'.data 0 (syncmsg_data be (ID_DONE be) 0)
      = some (done_marker ++ p'.data.drop 8) := by
    unfold memcpy
    rw [syncmsg_done, if_pos (by rw [hl']; decide)]
    rfl
  have hs' : ∀ i n, w'.sendRet i n = (n : Int) := by rw [hsr]; exact hs
  have hfit : (8 : Nat) ≤ (done_marker ++ p'.data.drop 8).length := by
    rw [List.length_append]; exact Nat.le_add_right 8 _
  have htake : List.take 8 (done_marker ++ p'.data.drop 8) = done_marker :=
    List.take_left' rfl
  obtain ⟨pD, hpD⟩ : ∃ pD : apacket, pD = { p' with
      data := done_marker ++ p'.data.drop 8, msg := { p'.msg with data_length := 8 } } :=
    ⟨_, rfl⟩
  have e1 : pD.msg.data_length = 8 := by rw [hpD]
  have e2 : pD.data = done_marker ++ p'.data.drop 8 := by rw [hpD]
  have e3 : pD.msg.command = p'.msg.command := by rw [hpD]
  have e4 : pD.msg.arg0 = p'.msg.arg0 := by rw [hpD]
  have e5 : pD.msg.arg1 = p'.msg.arg1 := by rw [hpD]
  have hsend := send_packet_accepted pD w' (by rw [e1, e2]; exact hfit) hs'
  refine ⟨{ pD with msg := sent_header pD }, after_packet pD w', hrx, hsr, hfs,
    e3.trans hc', e4.trans ha', e5.trans hb', ?_, ?_, ?_⟩
  · show pD.data.length = 4096
    rw [e2, List.length_append, List.length_drop, hl']
    rfl
  · rw [after_packet_sends pD w' done_marker hs' (by rw [e1, e2]; exact htake)
      (by rw [e1]; rfl), htr, e3, e4, e5, hc', ha', hb']
  · unfold send_file
    simp only [hf, hloop, Res.bind, hm, ← hpD, hsend]

/-- C10: in a push whose DATA chunks were all acknowledged with OKAY, the last frame
`send_file` transmits is a WRITE frame whose payload is exactly the 8 bytes `DONE` and a
32-bit zero; `send_file` then makes one more `recv_packet` call and nothing else: it returns
when the frame received has the command OKAY, terminates fatally when it has another
command, and returns in no other case. The packet `p` holds at most 4088 payload bytes in a
buffer of 4096, as the one `sync_send` passes for a path of at most 4080 bytes. -/
theorem send_file_done_marker (be : Bool) (p : apacket) (lpath : List Nat) (w : World)
    (file : List Nat) (rp' : apacket) (rx' : List RecvResult)
    (hf : w.fs lpath = some file) (hlen : p.data.length = 4096)
    (hd : p.msg.data_length ≤ 4088) (hs : ∀ i n, w.sendRet i n = (n : Int))
    (hok : okay_replies be
      (file_chunks file.length (4088 - p.msg.data_length) file).length get_apacket w.rx
      rp' rx') :
    ∃ pD w1, w1.rx = rx'
      ∧ w1.trace.filter Event.isSend = w.trace.filter Event.isSend
          ++ data_frames be p.msg.command p.msg.arg0 p.msg.arg1
              (p.data.take p.msg.data_length)
              (file_chunks file.length (4088 - p.msg.data_length) file)
          ++ [Event.sendHdr ⟨p.msg.command, p.msg.arg0, p.msg.arg1, 8,
                sum_loop ['D'.toNat, 'O'.toNat, 'N'.toNat, 'E'.toNat, 0, 0, 0, 0] 0,
                p.msg.command ^^^ 0xffffffff⟩ 24,
              Event.sendData ['D'.toNat, 'O'.toNat, 'N'.toNat, 'E'.toNat, 0, 0, 0, 0] 8]
      ∧ (∀ rp2 w2, recv_packet be rp' w1 = Res.ok rp2 w2 →
          w2.trace.filter Event.isSend = w1.trace.filter Event.isSend
          ∧ (rp2.msg.command = A_OKAY → send_file be p lpath w = Res.ok pD w2)
          ∧ (rp2.msg.command ≠ A_OKAY → send_file be p lpath w = Res.fatal w2))
      ∧ (∀ p2 w2, send_file be p lpath w = Res.ok p2 w2 →
          ∃ rp2, recv_packet be rp' w1 = Res.ok rp2 w2 ∧ rp2.msg.command = A_OKAY) := by
  obtain ⟨pD, w1, hrx, _, _, _, _, _, _, htr, hsf⟩ :=
    send_file_acked be p lpath w file rp' rx' hf hlen hd hs hok
  refine ⟨pD, w1, hrx, htr, ?_, ?_⟩
  · intro rp2 w2 hr
    have hns := recv_packet_no_send be rp' w1
    rw [hr] at hns
    refine ⟨hns, ?_, ?_⟩
    · intro hc
      rw [hsf, hr]
      simp only [Res.bind, hc, ne_eq, not_true_eq_false, if_false]
    · intro hc
      rw [hsf, hr]
      simp only [Res.bind, ne_eq, hc, not_false_eq_true, if_true]
  · intro p2 w2 h
    rw [hsf] at h
    cases hr : recv_packet be rp' w1 with
    | ok rp2 w3 =>
      rw [hr] at h
      simp only [Res.bind] at h
      split_ifs at h with hc
      injection h with _ hw
      exact ⟨rp2, by rw [hw], not_not.mp hc⟩
    | fatal w3 => rw [hr] at h; exact Res.noConfusion h
    | blocked w3 => rw [hr] at h; exact Res.noConfusion h
    | undef w3 => rw [hr] at h; exact Res.noConfusion h

theorem small_push_replies :
    okay_replies false
      (file_chunks ([1, 2, 3] : List Nat).length (4088 - wrte_packet.msg.data_length)
        [1, 2, 3]).length
      get_apacket small_push_world.rx { get_apacket with msg := ⟨A_OKAY, 0, 0, 0, 0, 0⟩ }
      [bare_header false A_OKAY 0] := by
  show okay_replies false 1 get_apacket
    [bare_header false A_OKAY 0, bare_header false A_OKAY 0] _ _
  exact ⟨_, _, recv_packet_bare false get_apacket _ A_OKAY 0 [bare_header false A_OKAY 0] rfl
    (by decide) (by decide), rfl, rfl, rfl⟩

theorem send_file_done_marker_witness :
    ∃ pD w1, w1.rx = [bare_header false A_OKAY 0]
      ∧ w1.trace.filter Event.isSend = small_push_world.trace.filter Event.isSend
          ++ data_frames false wrte_packet.msg.command wrte_packet.msg.arg0
              wrte_packet.msg.arg1 (wrte_packet.data.take wrte_packet.msg.data_length)
              (file_chunks ([1, 2, 3] : List Nat).length
                (4088 - wrte_packet.msg.data_length) [1, 2, 3])
          ++ [Event.sendHdr ⟨wrte_packet.msg.command, wrte_packet.msg.arg0,
                wrte_packet.msg.arg1, 8,
                sum_loop ['D'.toNat, 'O'.toNat, 'N'.toNat, 'E'.toNat, 0, 0, 0, 0] 0,
                wrte_packet.msg.command ^^^ 0xffffffff⟩ 24,
              Event.sendData ['D'.toNat, 'O'.toNat, 'N'.toNat, 'E'.toNat, 0, 0, 0, 0] 8]
      ∧ (∀ rp2 w2,
          recv_packet false { get_apacket with msg := ⟨A_OKAY, 0, 0, 0, 0, 0⟩ } w1
            = Res.ok rp2 w2 →
          w2.trace.filter Event.isSend = w1.trace.filter Event.isSend
          ∧ (rp2.msg.command = A_OKAY →
              send_file false wrte_packet [108] small_push_world = Res.ok pD w2)
          ∧ (rp2.msg.command ≠ A_OKAY →
              send_file false wrte_packet [108] small_push_world = Res.fatal w2))
      ∧ (∀ p2 w2, send_file false wrte_packet [108] small_push_world = Res.ok p2 w2 →
          ∃ rp2, recv_packet false { get_apacket with msg := ⟨A_OKAY, 0, 0, 0, 0, 0⟩ } w1
              = Res.ok rp2 w2 ∧ rp2.msg.command = A_OKAY) :=
  send_file_done_marker false wrte_packet [108] small_push_world [1, 2, 3]
    { get_apacket with msg := ⟨A_OKAY, 0, 0, 0, 0, 0⟩ } [bare_header false A_OKAY 0]
    rfl get_apacket_length (Nat.zero_le _) (fun _ _ => rfl) small_push_replies

theorem okay_replies_last (be : Bool) (n : Nat) :
    ∀ (rp : apacket) (rx : List RecvResult) (rp' : apacket) (rx' : List RecvResult),
      okay_replies be (n + 1) rp rx rp' rx' →
      ∃ rpm rxm, okay_replies be n rp rx rpm rxm
        ∧ ∃ w1, recv_packet be rpm (World.init rxm fun _ => none) = Res.ok rp' w1
          ∧ rp'.msg.command = A_OKAY ∧ w1.rx = rx' := by
  induction n with
  | zero =>
    intro rp rx rp' rx' h
    obtain ⟨rp1, w1, hr, hc, h1, h2⟩ := h
    exact ⟨rp, rx, ⟨rfl, rfl⟩, w1, by rw [h1]; exact hr, by rw [h1]; exact hc, h2.symm⟩
  | succ n ih =>
    intro rp rx rp' rx' h
    obtain ⟨rp1, w1, hr, hc, hrest⟩ := h
    obtain ⟨rpm, rxm, hn, hlast⟩ := ih rp1 w1.rx rp' rx' hrest
    exact ⟨rpm, rxm, ⟨rp1, w1, hr, hc, hn⟩, hlast⟩

theorem okay_command_emits (be : Bool) (p : apacket) (local_id remote_id : Int) (w : World) :
    Emits (fun e => ∀ m ret, e = Event.sendHdr m ret → m.command = A_OKAY) (fun _ => True) w
      ((recv_packet be p w).bind fun p w =>
        if p.msg.command = A_WRTE then
          send_cmd A_OKAY local_id remote_id
            (print (Event.printData (printf_chars p.msg.data_length p.data)) w)
        else Res.ok () w) := by
  have hcmd : ∀ w : World,
      Emits (fun e => ∀ m ret, e = Event.sendHdr m ret → m.command = A_OKAY) (fun _ => True) w
        (send_cmd A_OKAY local_id remote_id w) := by
    intro w
    unfold send_cmd
    refine (send_packet_emits _ _ _ ?_ (fun _ _ _ _ h => Event.noConfusion h)).bind
      (fun _ _ _ _ => Emits.stop rfl (fun _ _ _ => trivial))
    intro ret m ret' h
    injection h with h1 _
    rw [← h1]
    rfl
  refine (recv_packet_emits _ (fun _ _ _ h => Event.noConfusion h)
    (fun _ _ _ _ h => Event.noConfusion h) be p w).bind ?_
  intro p1 w1 _ _
  split_ifs
  · exact Emits.step (fun _ _ h => Event.noConfusion h) rfl (hcmd _)
  · exact Emits.stop rfl (fun _ _ _ => trivial)

theorem sync_send_acked (be : Bool) (lpath rpath : List Nat) (local_id remote_id : Int)
    (w : World) (file : List Nat) (rp' : apacket) (rx' : List RecvResult)
    (hf : w.fs lpath = some file) (hlen : rpath.length ≤ 4080)
    (hs : ∀ i n, w.sendRet i n = (n : Int))
    (hok : okay_replies be
      ((file_chunks file.length (4080 - rpath.length) file).length + 1) get_apacket w.rx
      rp' rx') :
    ∃ tail, (sync_send be lpath rpath local_id remote_id w).world.trace.filter Event.isSend
        = w.trace.filter Event.isSend
          ++ data_frames be A_WRTE (toU32 local_id) (toU32 remote_id)
              (syncmsg_req be (ID_SEND be) (htoll be (rpath.length % U32)) ++ rpath)
              (file_chunks file.length (4080 - rpath.length) file)
          ++ frame_events A_WRTE (toU32 local_id) (toU32 remote_id) done_marker
          ++ tail
      ∧ (∀ m ret, Event.sendHdr m ret ∈ tail → m.command = A_OKAY)
      ∧ (rx' = [] → tail = []) := by
  obtain ⟨p, hp, hc, ha, hb, hl, hn, ht⟩ :=
    sync_request_ok be (ID_SEND be) rpath local_id remote_id (by omega)
  have hroom : 4088 - p.msg.data_length = 4080 - rpath.length := by rw [hl]; omega
  obtain ⟨rpm, rxm, hk, wl, hlast, hcmd, hwl⟩ := okay_replies_last be _ _ _ _ _ hok
  rw [← hroom] at hk
  obtain ⟨pD, w1, hrx, _, _, _, _, _, _, htr, hsf⟩ :=
    send_file_acked be p lpath w file rpm rxm hf hn (by rw [hl]; omega) hs hk
  rw [← hrx] at hlast
  have hrecv := recv_packet_of_init be rpm rp' w1 wl hlast
  have hsf2 : send_file be p lpath w = Res.ok pD (rebase w1 wl) := by
    rw [hsf, hrecv]
    simp only [Res.bind, hcmd, ne_eq, not_true_eq_false, if_false]
  have h2 : (rebase w1 wl).trace.filter Event.isSend = w1.trace.filter Event.isSend := by
    simp only [rebase, List.filter_append, recv_init_no_send be rpm rp' _ wl hlast,
      List.append_nil]
  by_cases hnil : rx' = []
  · refine ⟨[], ?_, fun _ _ h => absurd h (List.not_mem_nil _), fun _ => rfl⟩
    have hb' : recv_packet be pD (rebase w1 wl) = Res.blocked (rebase w1 wl) := by
      unfold recv_packet
      rw [show (rebase w1 wl).rx = [] from hwl.trans hnil]
    unfold sync_send
    simp only [hp, hsf2, Res.bind, hb', Res.world]
    rw [h2, htr, hroom, hc, ha, hb, ht, List.append_nil]
  · obtain ⟨⟨evs, he, hev⟩, _⟩ := okay_command_emits be pD local_id remote_id (rebase w1 wl)
    refine ⟨evs.filter Event.isSend, ?_, ?_, fun h => absurd h hnil⟩
    · unfold sync_send
      simp only [hp, hsf2, Res.bind]
      simp only [Res.bind] at he
      rw [he, List.filter_append, h2, htr, hroom, hc, ha, hb, ht]
    · intro m ret hm
      exact hev _ (List.mem_filter.mp hm).1 m ret rfl

/-! ## The number of chunks -/

theorem file_chunks_rest_length (n : Nat) :
    ∀ file : List Nat, file.length ≤ n →
      (file_chunks n 4088 file).length = (file.length + 4087) / 4088 := by
  induction n with
  | zero =>
    intro file h
    have : file.length = 0 := by omega
    rw [this]
    rfl
  | succ n ih =>
    intro file h
    by_cases hf : file = []
    · rw [hf]
      rfl
    · have hpos : 0 < file.length := List.length_pos.mpr hf
      rw [file_chunks_cons _ _ _ (by decide) hf, List.length_cons,
        ih _ (by rw [List.length_drop]; omega), List.length_drop]
      omega

theorem file_chunks_length (n first : Nat) (file : List Nat) (h : file.length ≤ n) :
    (file_chunks n first file).length
      = if first = 0 ∨ file.length = 0 then 0
        else 1 + (file.length - min first file.length + 4087) / 4088 := by
  cases n with
  | zero =>
    have : file.length = 0 := by omega
    simp [file_chunks, this]
  | succ n =>
    by_cases hc : first = 0 ∨ file = []
    · rw [file_chunks, if_pos hc, if_pos]
      · rfl
      · rcases hc with h1 | h1
        · exact Or.inl h1
        · exact Or.inr (by rw [h1]; rfl)
    · have h1 : first ≠ 0 := fun e => hc (Or.inl e)
      have h2 : file ≠ [] := fun e => hc (Or.inr e)
      have hpos : 0 < file.length := List.length_pos.mpr h2
      rw [file_chunks_cons _ _ _ h1 h2, List.length_cons,
        file_chunks_rest_length _ _ (by rw [List.length_drop]; omega), List.length_drop,
        if_neg (by omega)]
      have : file.length - min first file.length = file.length - first := by omega
      rw [this]
      omega

theorem file_chunks_sizes (n : Nat) :
    ∀ (first : Nat) (file : List Nat), first ≤ 4088 →
      ∀ c ∈ file_chunks n first file, 0 < c.length ∧ c.length ≤ 4088 := by
  induction n with
  | zero => intro first file _ c hc; simp [file_chunks] at hc
  | succ n ih =>
    intro first file hfirst c hc
    by_cases hz : first = 0 ∨ file = []
    · rw [file_chunks, if_pos hz] at hc
      simp at hc
    · have h1 : first ≠ 0 := fun e => hz (Or.inl e)
      have h2 : file ≠ [] := fun e => hz (Or.inr e)
      have hpos : 0 < file.length := List.length_pos.mpr h2
      rw [file_chunks_cons _ _ _ h1 h2] at hc
      rcases List.mem_cons.mp hc with h | h
      · rw [h, List.length_take]
        omega
      · exact ih 4088 _ (le_refl _) c h

theorem file_chunks_head (n first : Nat) (file c : List Nat)
    (h : (file_chunks n first file).head? = some c) : c.length ≤ first := by
  cases n with
  | zero => simp [file_chunks] at h
  | succ n =>
    by_cases hz : first = 0 ∨ file = []
    · rw [file_chunks, if_pos hz] at h
      simp at h
    · rw [file_chunks, if_neg hz, List.head?_cons] at h
      injection h with h
      rw [← h, List.length_take]
      omega

/-! ## Properties of the push -/

/-- C1, amended: for a remote path of at most 4079 bytes, a peer that answers every frame
with OKAY and a socket that accepts every write, the WRITE frames of a push are the frames
of `k` DATA chunks followed by one frame that holds the DONE marker, and nothing but OKAY
frames follows; `k = 0` for an empty file and `k = 1 + ceil((N - min(N, 4080 - len)) / 4088)`
otherwise, where the first chunk, which shares its frame with the SEND sub-header and the
path, carries at most `4080 - len` bytes and every chunk between 1 and 4088 bytes. For
`N = 4096 * 3 + 10` and a path of at most 4046 bytes, `k = ceil(N / 4088)`. -/
theorem push_chunk_count (be : Bool) (lpath rpath : List Nat) (local_id remote_id : Int)
    (w : World) (file : List Nat) (rp' : apacket) (rx' : List RecvResult)
    (hf : w.fs lpath = some file) (hlen : rpath.length ≤ 4079)
    (hs : ∀ i n, w.sendRet i n = (n : Int))
    (hok : okay_replies be
      ((file_chunks file.length (4080 - rpath.length) file).length + 1) get_apacket w.rx
      rp' rx') :
    (∃ tail, (sync_send be lpath rpath local_id remote_id w).world.trace.filter Event.isSend
        = w.trace.filter Event.isSend
          ++ data_frames be A_WRTE (toU32 local_id) (toU32 remote_id)
              (syncmsg_req be (ID_SEND be) (htoll be (rpath.length % U32)) ++ rpath)
              (file_chunks file.length (4080 - rpath.length) file)
          ++ frame_events A_WRTE (toU32 local_id) (toU32 remote_id) done_marker
          ++ tail
      ∧ ∀ m ret, Event.sendHdr m ret ∈ tail → m.command = A_OKAY)
    ∧ (file_chunks file.length (4080 - rpath.length) file).length
        = (if file.length = 0 then 0
           else 1 + (file.length - min (4080 - rpath.length) file.length + 4087) / 4088)
    ∧ (∀ c ∈ file_chunks file.length (4080 - rpath.length) file,
        0 < c.length ∧ c.length ≤ 4088)
    ∧ (∀ c, (file_chunks file.length (4080 - rpath.length) file).head? = some c →
        c.length ≤ 4080 - rpath.length)
    ∧ (file.length = 4096 * 3 + 10 → rpath.length ≤ 4046 →
        (file_chunks file.length (4080 - rpath.length) file).length
          = (4096 * 3 + 10 + 4087) / 4088) := by
  have hcount := file_chunks_length file.length (4080 - rpath.length) file (le_refl _)
  have hcount' : (file_chunks file.length (4080 - rpath.length) file).length
      = (if file.length = 0 then 0
         else 1 + (file.length - min (4080 - rpath.length) file.length + 4087) / 4088) := by
    rw [hcount]
    by_cases h0 : file.length = 0
    · rw [if_pos (Or.inr h0), if_pos h0]
    · rw [if_neg (by omega), if_neg h0]
  obtain ⟨tail, ht, hokay, _⟩ := sync_send_acked be lpath rpath local_id remote_id w file
    rp' rx' hf (by omega) hs hok
  refine ⟨⟨tail, ht, hokay⟩, hcount', ?_, ?_, ?_⟩
  · exact file_chunks_sizes _ _ _ (by omega)
  · exact fun c hc => file_chunks_head _ _ _ c hc
  · intro hN hp
    rw [hcount', hN]
    simp only [show ¬ (4096 * 3 + 10 = 0) by decide, if_false]
    omega

theorem bare_okay_replies_1 (rest : List RecvResult) :
    okay_replies false 1 get_apacket (bare_header false A_OKAY 0 :: rest)
      { get_apacket with msg := ⟨A_OKAY, 0, 0, 0, 0, 0⟩ } rest :=
  ⟨_, _, recv_packet_bare false get_apacket _ A_OKAY 0 rest rfl (by decide) (by decide),
    rfl, rfl, rfl⟩

theorem bare_okay_replies_2 (rest : List RecvResult) :
    okay_replies false 2 get_apacket
      (bare_header false A_OKAY 0 :: bare_header false A_OKAY 0 :: rest)
      { get_apacket with msg := ⟨A_OKAY, 0, 0, 0, 0, 0⟩ } rest :=
  ⟨_, _, recv_packet_bare false get_apacket _ A_OKAY 0 _ rfl (by decide) (by decide), rfl,
    _, _, recv_packet_bare false _ _ A_OKAY 0 rest rfl (by decide) (by decide), rfl, rfl, rfl⟩

theorem bare_okay_replies_3 (rest : List RecvResult) :
    okay_replies false 3 get_apacket
      (bare_header false A_OKAY 0 :: bare_header false A_OKAY 0
        :: bare_header false A_OKAY 0 :: rest)
      { get_apacket with msg := ⟨A_OKAY, 0, 0, 0, 0, 0⟩ } rest :=
  ⟨_, _, recv_packet_bare false get_apacket _ A_OKAY 0 _ rfl (by decide) (by decide), rfl,
    _, _, recv_packet_bare false _ _ A_OKAY 0 _ rfl (by decide) (by decide), rfl,
    _, _, recv_packet_bare false _ _ A_OKAY 0 rest rfl (by decide) (by decide), rfl, rfl, rfl⟩

theorem file_chunks_small :
    file_chunks ([1, 2, 3] : List Nat).length (4080 - ([97] : List Nat).length) [1, 2, 3]
      = [[1, 2, 3]] := by
  decide

theorem file_chunks_4088 :
    file_chunks (List.replicate 4088 0).length (4080 - ([97] : List Nat).length)
        (List.replicate 4088 0)
      = [List.replicate 4079 0, List.replicate 9 0] := by
  have hne : ∀ n : Nat, 0 < n → List.replicate n 0 ≠ [] := by
    intro n hn h
    have := congrArg List.length h
    rw [List.length_replicate] at this
    simp at this
    omega
  rw [List.length_replicate]
  show file_chunks (4087 + 1) 4079 (List.replicate 4088 0) = _
  rw [file_chunks_cons _ _ _ (by decide) (hne _ (by decide)), List.take_replicate,
    List.drop_replicate]
  show List.replicate 4079 0 :: file_chunks (4086 + 1) 4088 (List.replicate 9 0) = _
  rw [file_chunks_cons _ _ _ (by decide) (hne _ (by decide)), List.take_replicate,
    List.drop_replicate]
  show [List.replicate 4079 0, List.replicate 9 0] ++ file_chunks 4086 4088 [] = _
  rw [file_chunks_nil 4086 4088 [] rfl]
  rfl

theorem push_chunk_count_witness :
    (∃ tail, (sync_send false [108] [97] 2 99 small_push_world).world.trace.filter Event.isSend
        = small_push_world.trace.filter Event.isSend
          ++ data_frames false A_WRTE (toU32 2) (toU32 99)
              (syncmsg_req false (ID_SEND false)
                (htoll false (([97] : List Nat).length % U32)) ++ [97])
              (file_chunks ([1, 2, 3] : List Nat).length (4080 - ([97] : List Nat).length)
                [1, 2, 3])
          ++ frame_events A_WRTE (toU32 2) (toU32 99) done_marker
          ++ tail
      ∧ ∀ m ret, Event.sendHdr m ret ∈ tail → m.command = A_OKAY)
    ∧ (file_chunks ([1, 2, 3] : List Nat).length (4080 - ([97] : List Nat).length)
          [1, 2, 3]).length
        = (if ([1, 2, 3] : List Nat).length = 0 then 0
           else 1 + (([1, 2, 3] : List Nat).length
              - min (4080 - ([97] : List Nat).length) ([1, 2, 3] : List Nat).length + 4087)
                / 4088)
    ∧ (∀ c ∈ file_chunks ([1, 2, 3] : List Nat).length (4080 - ([97] : List Nat).length)
          [1, 2, 3],
        0 < c.length ∧ c.length ≤ 4088)
    ∧ (∀ c, (file_chunks ([1, 2, 3] : List Nat).length (4080 - ([97] : List Nat).length)
          [1, 2, 3]).head? = some c →
        c.length ≤ 4080 - ([97] : List Nat).length)
    ∧ (([1, 2, 3] : List Nat).length = 4096 * 3 + 10 → ([97] : List Nat).length ≤ 4046 →
        (file_chunks ([1, 2, 3] : List Nat).length (4080 - ([97] : List Nat).length)
          [1, 2, 3]).length
          = (4096 * 3 + 10 + 4087) / 4088) :=
  push_chunk_count false [108] [97] 2 99 small_push_world [1, 2, 3]
    { get_apacket with msg := ⟨A_OKAY, 0, 0, 0, 0, 0⟩ } [] rfl (by decide) (fun _ _ => rfl)
    (by rw [file_chunks_small]; exact bare_okay_replies_2 [])

/-- C1, as stated, fails: a file of 4088 bytes pushed to the path `a` goes out in two DATA
chunks, of 4079 and 9 bytes, where `ceil(4088 / (4096 - 8))` is 1. -/
theorem push_4088_sends_two_chunks :
    (sync_send false [108] [97] 2 99 push_4088_world).world.trace.filter Event.isSend
        = data_frames false A_WRTE 2 99 (syncmsg_req false (ID_SEND false) 1 ++ [97])
            [List.replicate 4079 0, List.replicate 9 0]
          ++ frame_events A_WRTE 2 99 done_marker
    ∧ ([List.replicate 4079 0, List.replicate 9 0] : List (List Nat)).length = 2
    ∧ (4088 + (4096 - 8 - 1)) / (4096 - 8) = 1 := by
  refine ⟨?_, rfl, by decide⟩
  obtain ⟨tail, ht, _, hnil⟩ := sync_send_acked false [108] [97] 2 99 push_4088_world
    (List.replicate 4088 0) { get_apacket with msg := ⟨A_OKAY, 0, 0, 0, 0, 0⟩ } [] rfl
    (by decide) (fun _ _ => rfl) (by rw [file_chunks_4088]; exact bare_okay_replies_3 [])
  rw [ht, hnil rfl, file_chunks_4088, List.append_nil]
  rfl

/-- C9 at its failing input: pushing an empty file to `/a`, `sync_send` makes two `send`
calls only, for one WRITE frame whose payload is the DONE marker. The SEND sub-header and the
path that `sync_send` had put in the packet are overwritten and never sent. -/
theorem sync_send_empty_file_sends_only_done :
    (sync_send false [108] [47, 97] 2 99 empty_file_world).world.trace.filter Event.isSend
      = [Event.sendHdr ⟨A_WRTE, 2, 99, 8, 294, 0xBAABADA8⟩ 24,
         Event.sendData ['D'.toNat, 'O'.toNat, 'N'.toNat, 'E'.toNat, 0, 0, 0, 0] 8] := by
  obtain ⟨tail, ht, _, hnil⟩ := sync_send_acked false [108] [47, 97] 2 99 empty_file_world
    [] { get_apacket with msg := ⟨A_OKAY, 0, 0, 0, 0, 0⟩ } [] rfl
    (by decide) (fun _ _ => rfl) (bare_okay_replies_1 [])
  rw [ht, hnil rfl, List.append_nil]
  decide

/-! ## Flow control -/

theorem Flow.run_append (be : Bool) (es1 es2 : List Event) :
    ∀ s : Flow, Flow.run be s (es1 ++ es2)
      = (Flow.run be s es1).bind fun s' => Flow.run be s' es2 := by
  induction es1 with
  | nil => intro s; rfl
  | cons e es ih =>
    intro s
    simp only [List.cons_append, Flow.run]
    cases Flow.step be s e with
    | none => rfl
    | some s1 => exact ih s1

theorem Tracks.nil {α : Type} (be : Bool) (s : Flow) (w : World) (r : Res α)
    (h : r.world = w) : Tracks be s w r s :=
  ⟨[], by rw [h, List.append_nil], rfl⟩

theorem Tracks.bind_ok {α β : Type} {be : Bool} {s s1 s2 : Flow} {w w1 : World} {r : Res α}
    {a : α} {k : α → World → Res β} (h : Tracks be s w r s1) (hr : r = Res.ok a w1)
    (hk : Tracks be s1 w1 (k a w1) s2) : Tracks be s w (r.bind k) s2 := by
  obtain ⟨e1, h1, g1⟩ := h
  obtain ⟨e2, h2, g2⟩ := hk
  subst hr
  refine ⟨e1 ++ e2, ?_, ?_⟩
  · simp only [Res.bind, h2]
    simp only [Res.world] at h1
    rw [h1, List.append_assoc]
  · rw [Flow.run_append, g1]
    exact g2

theorem Tracks.event {α : Type} {be : Bool} {s s1 s2 : Flow} {w w1 : World} {r : Res α}
    {e : Event} (hw : w1.trace = w.trace ++ [e]) (he : Flow.step be s e = some s1)
    (h : Tracks be s1 w1 r s2) : Tracks be s w r s2 := by
  obtain ⟨evs, h1, g1⟩ := h
  refine ⟨e :: evs, ?_, ?_⟩
  · rw [h1, hw, List.append_assoc]; rfl
  · simp only [Flow.run, he, Option.bind]
    exact g1

theorem remaining_eq (len : Nat) (br : Int) (h0 : -1 ≤ br) (h1 : br ≤ len) (h2 : len ≤ 4096)
    (hc : toU32 br < len) :
    0 ≤ br ∧ br < len
      ∧ (toInt32 ((len + U32 - toU32 br) % U32)).toNat = len - br.toNat := by
  unfold toU32 at hc ⊢
  unfold toInt32 U32
  have hb : 0 ≤ br := by omega
  have e : (br % 4294967296).toNat = br.toNat := by omega
  rw [e] at hc ⊢
  have hlt : br < len := by omega
  refine ⟨hb, hlt, ?_⟩
  have e2 : (len + 4294967296 - br.toNat) % 4294967296 = len - br.toNat := by omega
  rw [e2, Nat.mod_eq_of_lt (by omega), if_pos (by omega)]
  omega

theorem recv_ret_bytes (n : Nat) (r : RecvResult) :
    (recv_ret n r = -1 ∧ recv_bytes n r = [])
      ∨ (recv_ret n r = ((recv_bytes n r).length : Int) ∧ (recv_bytes n r).length ≤ n) := by
  cases r with
  | error => exact Or.inl ⟨rfl, rfl⟩
  | data bytes => exact Or.inr ⟨rfl, List.length_take_le n bytes⟩

theorem memcpy_length (dst : List Nat) (off : Nat) (src d : List Nat)
    (h : memcpy dst off src = some d) : d.length = dst.length := by
  unfold memcpy at h
  split_ifs at h with hle
  injection h with h
  rw [← h]
  simp only [List.length_append, List.length_take, List.length_drop]
  omega

theorem recv_loop_flow (be : Bool) (s : Flow) (hs : s = Flow.acked ∨ s = Flow.stopped)
    (len : Nat) (hlen : len ≤ 4096) (rx : List RecvResult) :
    ∀ (br : Int) (p : apacket) (w : World), w.rx = rx → len ≤ p.data.length → -1 ≤ br →
      br ≤ len →
      Tracks be s w (recv_loop len rx br p w) s
      ∧ (∀ a w', recv_loop len rx br p w = Res.ok a w' →
          a.msg = p.msg ∧ a.data.length = p.data.length)
      ∧ (∀ w', recv_loop len rx br p w = Res.blocked w' → w'.rx = [])
      ∧ (∀ w', recv_loop len rx br p w ≠ Res.undef w') := by
  induction rx with
  | nil =>
    intro br p w hrx _ _ _
    unfold recv_loop
    split_ifs
    · exact ⟨Tracks.nil be s w _ rfl, fun _ _ h => by simp at h,
        fun w' h => by injection h with h; rw [← h]; exact hrx,
        fun _ h => by simp at h⟩
    · exact ⟨Tracks.nil be s w _ rfl,
        fun a w' h => by injection h with h1 _; rw [← h1]; exact ⟨rfl, rfl⟩,
        fun _ h => by simp at h, fun _ h => by simp at h⟩
  | cons r rest ih =>
    intro br p w hrx hfit hlo hhi
    rw [recv_loop]
    split_ifs with hc
    · obtain ⟨hb, hlt, hn⟩ := remaining_eq len br hlo hhi hlen hc
      have hstep : Flow.step be s
          (Event.recvData (toInt32 ((len + U32 - toU32 br) % U32)).toNat r) = some s := by
        rcases hs with h | h <;> rw [h] <;> rfl
      have hbytes := recv_ret_bytes (toInt32 ((len + U32 - toU32 br) % U32)).toNat r
      rw [hn] at hbytes
      simp only
      split
      · rename_i hm
        exfalso
        unfold memcpy at hm
        rw [hn] at hm
        split_ifs at hm with hle
        apply hle
        rcases hbytes with ⟨_, h2⟩ | ⟨_, h2⟩
        · rw [h2]; simp only [List.length_nil]; omega
        · omega
      · rename_i d hm
        have hd := memcpy_length _ _ _ _ hm
        have hnew : -1 ≤ br + recv_ret (toInt32 ((len + U32 - toU32 br) % U32)).toNat r
            ∧ br + recv_ret (toInt32 ((len + U32 - toU32 br) % U32)).toNat r ≤ len := by
          rw [hn]
          rcases hbytes with ⟨h1, _⟩ | ⟨h1, h2⟩
          · rw [h1]; omega
          · rw [h1]; omega
        obtain ⟨t, h1, h2, h3⟩ := ih
          (br + recv_ret (toInt32 ((len + U32 - toU32 br) % U32)).toNat r)
          { p with data := d }
          { w with rx := rest,
                   trace := w.trace ++
                     [Event.recvData (toInt32 ((len + U32 - toU32 br) % U32)).toNat r] }
          rfl (by show len ≤ d.length; rw [hd]; exact hfit) hnew.1 hnew.2
        refine ⟨Tracks.event rfl hstep t, ?_, h2, h3⟩
        intro a w' h
        obtain ⟨g1, g2⟩ := h1 a w' h
        exact ⟨g1, g2.trans hd⟩
    · exact ⟨Tracks.nil be s w _ rfl,
        fun a w' h => by injection h with h1 _; rw [← h1]; exact ⟨rfl, rfl⟩,
        fun _ h => by simp at h, fun _ h => by simp at h⟩

theorem recv_packet_flow (be : Bool) (rp : apacket) (w : World)
    (hfit : rp.data.length = 4096) :
    ∃ s', Tracks be Flow.sent w (recv_packet be rp w) s'
      ∧ (∀ a w', recv_packet be rp w = Res.ok a w' →
          a.data.length = 4096
          ∧ ((s' = Flow.acked ∧ a.msg.command = A_OKAY)
            ∨ (s' = Flow.stopped ∧ a.msg.command ≠ A_OKAY)))
      ∧ (s' = Flow.stopped →
          (recv_packet be rp w).fatal_or_starved ∨ ∃ a w', recv_packet be rp w = Res.ok a w')
      ∧ (s' = Flow.sent ∨ s' = Flow.acked ∨ s' = Flow.stopped) := by
  unfold recv_packet
  cases hrx : w.rx with
  | nil =>
    exact ⟨Flow.sent, Tracks.nil be _ w _ rfl, fun _ _ h => by simp at h,
      fun h => by simp at h, Or.inl rfl⟩
  | cons r rest =>
    simp only
    have hstep : ∃ s1, Flow.step be Flow.sent (Event.recvHdr r) = some s1
        ∧ ((s1 = Flow.acked ∧ okay_header be r = true)
          ∨ (s1 = Flow.stopped ∧ okay_header be r = false)) := by
      cases ho : okay_header be r
      · exact ⟨Flow.stopped, by simp only [Flow.step, ho]; rfl, Or.inr ⟨rfl, rfl⟩⟩
      · exact ⟨Flow.acked, by simp only [Flow.step, ho]; rfl, Or.inl ⟨rfl, rfl⟩⟩
    obtain ⟨s1, hs1, hcase⟩ := hstep
    have hs1' : s1 = Flow.acked ∨ s1 = Flow.stopped := by
      rcases hcase with h | h
      · exact Or.inl h.1
      · exact Or.inr h.1
    split_ifs with hbad
    · exact ⟨s1, Tracks.event rfl hs1 (Tracks.nil be _ _ _ rfl), fun _ _ h => by simp at h,
        fun _ => Or.inl trivial, Or.inr hs1'⟩
    · have hret : recv_ret 24 r = 24 := by
        by_contra h
        exact hbad (Or.inl h)
      have hlen : (amessage.load be (recv_bytes 24 r)).data_length ≤ 4096 := by
        by_contra h
        exact hbad (Or.inr (by simp only [MAX_PAYLOAD]; omega))
      obtain ⟨t, h1, h2, h3⟩ := recv_loop_flow be s1 hs1'
        (amessage.load be (recv_bytes 24 r)).data_length hlen rest 0
        { rp with msg := amessage.load be (recv_bytes 24 r) }
        { w with rx := rest, trace := w.trace ++ [Event.recvHdr r] } rfl
        (by show _ ≤ rp.data.length; rw [hfit]; exact hlen) (by decide)
        (Int.ofNat_nonneg _)
      refine ⟨s1, Tracks.event rfl hs1 t, ?_, ?_, Or.inr hs1'⟩
      · intro a w' h
        obtain ⟨g1, g2⟩ := h1 a w' h
        refine ⟨g2.trans hfit, ?_⟩
        have hcmd : a.msg.command = (amessage.load be (recv_bytes 24 r)).command := by
          rw [g1]
        rcases hcase with ⟨e1, e2⟩ | ⟨e1, e2⟩
        · left
          refine ⟨e1, ?_⟩
          simp only [okay_header, Bool.and_eq_true, decide_eq_true_eq] at e2
          rw [hcmd]; exact e2.2
        · right
          refine ⟨e1, ?_⟩
          intro hc
          simp only [okay_header, hret, decide_True, Bool.true_and, decide_eq_false_iff_not]
            at e2
          exact e2 (hcmd ▸ hc)
      · intro _
        cases hres : recv_loop (amessage.load be (recv_bytes 24 r)).data_length rest 0
            { rp with msg := amessage.load be (recv_bytes 24 r) }
            { w with rx := rest, trace := w.trace ++ [Event.recvHdr r] } with
        | ok a w' => exact Or.inr ⟨a, w', rfl⟩
        | fatal w' => exact Or.inl trivial
        | blocked w' => exact Or.inl (h2 w' hres)
        | undef w' => exact absurd hres (h3 w')

theorem send_packet_flow (be : Bool) (s : Flow) (hs : s = Flow.idle ∨ s = Flow.acked)
    (p : apacket) (w : World) :
    (Tracks be s w (send_packet p w) s ∧ ∃ w', send_packet p w = Res.undef w')
    ∨ (Tracks be s w (send_packet p w) Flow.sent
        ∧ ((∃ w', send_packet p w = Res.fatal w') ∨ ∃ a w', send_packet p w = Res.ok a w')) := by
  have h1 : ∀ m ret, Flow.step be s (Event.sendHdr m ret) = some Flow.sent := by
    intro m ret
    rcases hs with h | h <;> rw [h] <;> rfl
  unfold send_packet
  simp only [send_hdr, send_data]
  split_ifs
  · exact Or.inl ⟨Tracks.nil be s w _ rfl, _, rfl⟩
  · exact Or.inr ⟨Tracks.event rfl (h1 _ _) (Tracks.nil be _ _ _ rfl), Or.inl ⟨_, rfl⟩⟩
  · refine Or.inr ⟨⟨[_, _], List.append_assoc _ _ _, ?_⟩, Or.inl ⟨_, rfl⟩⟩
    simp only [Flow.run, h1, Option.bind]
    rfl
  · refine Or.inr ⟨⟨[_, _], List.append_assoc _ _ _, ?_⟩, Or.inr ⟨_, _, rfl⟩⟩
    simp only [Flow.run, h1, Option.bind]
    rfl

theorem FlowPost.of_not_ok {β : Type} (Q : β → Prop) (r : Res β) (s' : Flow)
    (h1 : ∀ b w', r ≠ Res.ok b w') (h2 : s' = Flow.stopped → r.fatal_or_starved) :
    FlowPost Q r s' :=
  ⟨fun b w' h => absurd h (h1 b w'), h2⟩

/-- One exchange of `send_file`: a frame is sent, one frame is received, and the run goes on
with `k` only when that frame has the command OKAY. -/
theorem exchange_flow {β : Type} (be : Bool) (Q : β → Prop) (s : Flow)
    (hs : s = Flow.idle ∨ s = Flow.acked) (p2 rp : apacket) (w : World)
    (hrp : rp.data.length = 4096) (k : apacket → apacket → World → Res β)
    (hk : ∀ p3 rp' w', rp'.data.length = 4096 →
      ∃ s', Tracks be Flow.acked w' (k p3 rp' w') s' ∧ FlowPost Q (k p3 rp' w') s') :
    ∃ s', Tracks be s w
        ((send_packet p2 w).bind fun p3 w =>
          (recv_packet be rp w).bind fun rp w =>
            if rp.msg.command ≠ A_OKAY then Res.fatal w else k p3 rp w) s'
      ∧ FlowPost Q
          ((send_packet p2 w).bind fun p3 w =>
            (recv_packet be rp w).bind fun rp w =>
              if rp.msg.command ≠ A_OKAY then Res.fatal w else k p3 rp w) s' := by
  have hns : s ≠ Flow.stopped := by
    rcases hs with h | h <;> rw [h] <;> decide
  rcases send_packet_flow be s hs p2 w with ⟨t1, w1, hsp⟩ | ⟨t1, ⟨w1, hsp⟩ | ⟨p3, w1, hsp⟩⟩
  · rw [hsp] at t1 ⊢
    exact ⟨s, t1, FlowPost.of_not_ok Q _ _ (fun _ _ h => Res.noConfusion h)
      (fun h => absurd h hns)⟩
  · rw [hsp] at t1 ⊢
    exact ⟨Flow.sent, t1, FlowPost.of_not_ok Q _ _ (fun _ _ h => Res.noConfusion h)
      (fun h => Flow.noConfusion h)⟩
  · obtain ⟨s2, t2, hok2, hstop2, _⟩ := recv_packet_flow be rp w1 hrp
    cases hr : recv_packet be rp w1 with
    | ok rp' w2 =>
      obtain ⟨hl, hcase⟩ := hok2 rp' w2 hr
      rcases hcase with ⟨e, hc⟩ | ⟨e, hc⟩
      · obtain ⟨s3, t3, post3⟩ := hk p3 rp' w2 hl
        rw [e] at t2
        refine ⟨s3, ?_, ?_⟩
        · refine Tracks.bind_ok t1 hsp (Tracks.bind_ok t2 hr ?_)
          rw [if_neg (not_not.mpr hc)]
          exact t3
        · simp only [hsp, Res.bind, hr, hc, ne_eq, not_true_eq_false, if_false]
          exact post3
      · rw [e] at t2
        refine ⟨Flow.stopped, ?_, ?_⟩
        · refine Tracks.bind_ok t1 hsp (Tracks.bind_ok t2 hr ?_)
          rw [if_pos hc]
          exact Tracks.nil be _ _ _ rfl
        · simp only [hsp, Res.bind, hr, ne_eq, hc, not_false_eq_true, if_true]
          exact FlowPost.of_not_ok Q _ _ (fun _ _ h => Res.noConfusion h) (fun _ => trivial)
    | fatal w2 =>
      refine ⟨s2, Tracks.bind_ok t1 hsp ?_, ?_⟩
      · rw [hr] at t2 ⊢
        exact t2
      · simp only [hsp, Res.bind, hr]
        exact FlowPost.of_not_ok Q _ _ (fun _ _ h => Res.noConfusion h) (fun _ => trivial)
    | blocked w2 =>
      refine ⟨s2, Tracks.bind_ok t1 hsp ?_, ?_⟩
      · rw [hr] at t2 ⊢
        exact t2
      · simp only [hsp, Res.bind, hr]
        refine FlowPost.of_not_ok Q _ _ (fun _ _ h => Res.noConfusion h) ?_
        intro h
        rcases hstop2 h with h3 | ⟨a, w', h3⟩
        · rw [hr] at h3; exact h3
        · rw [hr] at h3; exact Res.noConfusion h3
    | undef w2 =>
      refine ⟨s2, Tracks.bind_ok t1 hsp ?_, ?_⟩
      · rw [hr] at t2 ⊢
        exact t2
      · simp only [hsp, Res.bind, hr]
        refine FlowPost.of_not_ok Q _ _ (fun _ _ h => Res.noConfusion h) ?_
        intro h
        rcases hstop2 h with h3 | ⟨a, w', h3⟩
        · rw [hr] at h3; exact h3
        · rw [hr] at h3; exact Res.noConfusion h3

theorem Flow.step_credit (be : Bool) (s s' : Flow) (e : Event)
    (h : Flow.step be s e = some s') :
    (if e.isSendHdr then 1 else 0) + s'.credit
      ≤ s.credit + (if e.isOkayHdr be then 1 else 0) := by
  cases s <;> cases e <;> simp only [Flow.step, Option.some.injEq] at h <;>
    first
    | (subst h; simp [Event.isSendHdr, Event.isOkayHdr, Flow.credit])
    | (exact absurd h (by simp))
    | skip
  rename_i r
  cases ho : okay_header be r <;> rw [ho] at h <;>
    simp only [Bool.false_eq_true, if_false, if_true, Option.some.injEq] at h <;>
    subst h <;> simp [Event.isSendHdr, Event.isOkayHdr, Flow.credit, ho]

theorem Flow.run_credit (be : Bool) (evs : List Event) :
    ∀ s s' : Flow, Flow.run be s evs = some s' →
      (evs.filter Event.isSendHdr).length + s'.credit
        ≤ s.credit + (evs.filter (Event.isOkayHdr be)).length := by
  induction evs with
  | nil =>
    intro s s' h
    simp only [Flow.run, Option.some.injEq] at h
    rw [h]
    simp
  | cons e es ih =>
    intro s s' h
    simp only [Flow.run] at h
    cases hs : Flow.step be s e with
    | none => rw [hs] at h; simp [Option.bind] at h
    | some s1 =>
      rw [hs] at h
      simp only [Option.bind] at h
      have h1 := Flow.step_credit be s s1 e hs
      have h2 := ih s1 s' h
      simp only [List.filter_cons]
      split_ifs at h1 ⊢ <;> (try simp only [List.length_cons]) <;> omega

theorem send_file_loop_flow (be : Bool) (left : Nat) :
    ∀ (fp : List Nat) (p rp : apacket) (w : World) (s : Flow),
      s = Flow.idle ∨ s = Flow.acked → rp.data.length = 4096 →
      ∃ s', Tracks be s w (send_file_loop be left fp p rp w) s'
        ∧ FlowPost (fun a => a.2.data.length = 4096) (send_file_loop be left fp p rp w) s' := by
  induction left with
  | zero =>
    intro fp p rp w s hs hrp
    exact ⟨s, Tracks.nil be s w _ rfl,
      fun b w' h => by injection h with h1 _; rw [← h1]; exact ⟨hs, hrp⟩,
      fun h => by rcases hs with e | e <;> rw [e] at h <;> exact Flow.noConfusion h⟩
  | succ left ih =>
    intro fp p rp w s hs hrp
    have hns : s ≠ Flow.stopped := by
      rcases hs with h | h <;> rw [h] <;> decide
    rw [send_file_loop]
    simp only
    split_ifs
    · exact ⟨s, Tracks.nil be s w _ rfl, FlowPost.of_not_ok _ _ _
        (fun _ _ h => Res.noConfusion h) (fun h => absurd h hns)⟩
    · split
      · exact ⟨s, Tracks.nil be s w _ rfl, FlowPost.of_not_ok _ _ _
          (fun _ _ h => Res.noConfusion h) (fun h => absurd h hns)⟩
      · rename_i p2 _
        exact exchange_flow be _ s hs p2 rp w hrp
          (fun p3 rp' w' => send_file_loop be left _
            { p3 with msg := { p3.msg with data_length := 0 } } rp' w')
          (fun p3 rp' w' hl => ih _ _ rp' w' Flow.acked (Or.inr rfl) hl)
    · exact ⟨s, Tracks.nil be s w _ rfl,
        fun b w' h => by injection h with h1 _; rw [← h1]; exact ⟨hs, hrp⟩,
        fun h => absurd h hns⟩

theorem send_file_eq (be : Bool) (p : apacket) (lpath : List Nat) (w : World)
    (fp : List Nat) (hf : w.fs lpath = some fp) :
    send_file be p lpath w
      = (send_file_loop be fp.length fp p get_apacket w).bind fun s w =>
          match memcpy s.1.data 0 (syncmsg_data be (ID_DONE be) 0) with
          | none => Res.undef w
          | some d =>
            (send_packet { s.1 with data := d, msg := { s.1.msg with data_length := 8 } }
                w).bind fun p w =>
              (recv_packet be s.2 w).bind fun rp w =>
                if rp.msg.command ≠ A_OKAY then Res.fatal w else Res.ok p w := by
  unfold send_file
  simp only [hf]

theorem send_file_flow (be : Bool) (p : apacket) (lpath : List Nat) (w : World) :
    ∃ s', Tracks be Flow.idle w (send_file be p lpath w) s'
      ∧ FlowPost (fun _ => True) (send_file be p lpath w) s' := by
  cases hf : w.fs lpath with
  | none =>
    have : send_file be p lpath w = Res.fatal w := by
      unfold send_file
      simp only [hf]
    rw [this]
    exact ⟨Flow.idle, Tracks.nil be _ w _ rfl, FlowPost.of_not_ok _ _ _
      (fun _ _ h => Res.noConfusion h) (fun h => Flow.noConfusion h)⟩
  | some fp =>
    rw [send_file_eq be p lpath w fp hf]
    obtain ⟨s1, t1, post1⟩ := send_file_loop_flow be fp.length fp p get_apacket w Flow.idle
      (Or.inl rfl) get_apacket_length
    cases hl : send_file_loop be fp.length fp p get_apacket w with
    | ok a w1 =>
      obtain ⟨hs1, hrp⟩ := post1.1 a w1 hl
      have hns : s1 ≠ Flow.stopped := by
        rcases hs1 with h | h <;> rw [h] <;> decide
      rw [hl] at t1
      cases hm : memcpy a.1.data 0 (syncmsg_data be (ID_DONE be) 0) with
      | none =>
        refine ⟨s1, Tracks.bind_ok t1 rfl ?_, ?_⟩
        · simp only [hm]
          exact Tracks.nil be _ _ _ rfl
        · simp only [Res.bind, hm]
          exact FlowPost.of_not_ok _ _ _ (fun _ _ h => Res.noConfusion h)
            (fun h => absurd h hns)
      | some d =>
        obtain ⟨s2, t2, post2⟩ := exchange_flow be (fun _ : apacket => True) s1 hs1
          { a.1 with data := d, msg := { a.1.msg with data_length := 8 } } a.2 w1 hrp
          (fun p3 _ w' => Res.ok p3 w')
          (fun p3 rp' w' _ => ⟨Flow.acked, Tracks.nil be _ _ _ rfl,
            fun _ _ _ => ⟨Or.inr rfl, trivial⟩, fun h => Flow.noConfusion h⟩)
        refine ⟨s2, Tracks.bind_ok t1 rfl ?_, ?_⟩
        · simp only [hm]
          exact t2
        · simp only [Res.bind, hm]
          exact post2
    | fatal w1 =>
      rw [hl] at t1 post1
      exact ⟨s1, t1, FlowPost.of_not_ok _ _ _ (fun _ _ h => Res.noConfusion h) post1.2⟩
    | blocked w1 =>
      rw [hl] at t1 post1
      exact ⟨s1, t1, FlowPost.of_not_ok _ _ _ (fun _ _ h => Res.noConfusion h) post1.2⟩
    | undef w1 =>
      rw [hl] at t1 post1
      exact ⟨s1, t1, FlowPost.of_not_ok _ _ _ (fun _ _ h => Res.noConfusion h) post1.2⟩

/-- C2: in every run of `send_file`, against any peer, the events it adds to the trace are
accepted by the flow control monitor: a frame is sent at the start or after exactly one
response whose header is complete and has the command OKAY, and after a response that is not
one no `send` call follows. When the last response was not an OKAY, `send_file` has
terminated fatally, unless the rest of that response never arrives. So the frames sent are
at most one more than the OKAY responses read. -/
theorem send_file_flow_control (be : Bool) (p : apacket) (lpath : List Nat) (w : World) :
    ∃ s, Flow.run be Flow.idle ((send_file be p lpath w).world.trace.drop w.trace.length)
        = some s
      ∧ (s = Flow.stopped → (send_file be p lpath w).fatal_or_starved)
      ∧ (((send_file be p lpath w).world.trace.drop w.trace.length).filter
            Event.isSendHdr).length
          ≤ 1 + (((send_file be p lpath w).world.trace.drop w.trace.length).filter
            (Event.isOkayHdr be)).length := by
  obtain ⟨s, ⟨evs, he, hrun⟩, post⟩ := send_file_flow be p lpath w
  have hd : (send_file be p lpath w).world.trace.drop w.trace.length = evs := by
    rw [he, List.drop_left]
  rw [hd]
  refine ⟨s, hrun, post.2, ?_⟩
  have := Flow.run_credit be evs Flow.idle s hrun
  simp only [Flow.credit] at this
  omega

/-! ## Partial reads -/

theorem memcpy_fits (dst : List Nat) (off : Nat) (src : List Nat)
    (h : off + src.length ≤ dst.length) :
    memcpy dst off src = some (dst.take off ++ src ++ dst.drop (off + src.length)) := by
  unfold memcpy
  rw [if_pos h]

theorem World.eta_rx_trace (w : World) (rest : List RecvResult) (h : w.rx = rest) :
    { w with rx := rest, trace := w.trace ++ [] } = w := by
  cases w
  simp only [List.append_nil] at h ⊢
  simp only [h]

theorem recv_loop_chunks (len : Nat) (hlen : len ≤ 4096) (rest : List RecvResult) :
    ∀ (chunks : List (List Nat)) (k : Nat) (p : apacket) (w : World),
      (∀ c ∈ chunks, c ≠ []) → k + chunks.flatten.length = len → len ≤ p.data.length →
      w.rx = chunks.map RecvResult.data ++ rest →
      recv_loop len (chunks.map RecvResult.data ++ rest) (k : Int) p w
        = Res.ok { p with data := p.data.take k ++ chunks.flatten ++ p.data.drop len }
            { w with rx := rest, trace := w.trace ++ payload_reads (len - k) chunks } := by
  intro chunks
  induction chunks with
  | nil =>
    intro k p w _ hk hfit hrx
    simp only [List.flatten_nil, List.length_nil, Nat.add_zero] at hk
    simp only [List.map_nil, List.nil_append] at hrx ⊢
    have hc : ¬ toU32 (k : Int) < len := by
      unfold toU32
      omega
    have hp : ({ p with data := p.data.take k ++ [] ++ p.data.drop len } : apacket) = p := by
      cases p
      simp only [List.append_nil, hk, List.take_append_drop]
    simp only [List.flatten_nil, payload_reads]
    rw [hp, World.eta_rx_trace w rest hrx]
    cases rest with
    | nil => rw [recv_loop, if_neg hc]
    | cons r rest => rw [recv_loop, if_neg hc]
  | cons c cs ih =>
    intro k p w hne hk hfit hrx
    have hc0 : c ≠ [] := hne c (List.mem_cons_self _ _)
    have hcl : 0 < c.length := List.length_pos.mpr hc0
    simp only [List.flatten_cons, List.length_append] at hk
    simp only [List.map_cons, List.cons_append]
    have hc : toU32 (k : Int) < len := by
      unfold toU32
      omega
    obtain ⟨_, _, hn⟩ := remaining_eq len (k : Int) (by omega) (by omega) hlen hc
    rw [Int.toNat_ofNat] at hn
    rw [recv_loop, if_pos hc]
    simp only [hn, Int.toNat_ofNat]
    have htake : List.take (len - k) c = c := List.take_of_length_le (by omega)
    simp only [recv_bytes, recv_ret, htake]
    rw [memcpy_fits _ _ _ (by omega)]
    simp only
    have hcast : (k : Int) + (c.length : Int) = ((k + c.length : Nat) : Int) := by
      push_cast
      rfl
    rw [hcast, ih (k + c.length) _ _ (fun c' hc' => hne c' (List.mem_cons_of_mem _ hc'))
      (by omega) (by simp only [List.length_append, List.length_take, List.length_drop]; omega)
      rfl]
    have hd1 : List.take (k + c.length)
        (List.take k p.data ++ c ++ List.drop (k + c.length) p.data)
        = List.take k p.data ++ c := by
      rw [List.take_append_of_le_length
        (by simp only [List.length_append, List.length_take]; omega)]
      exact List.take_of_length_le
        (by simp only [List.length_append, List.length_take]; omega)
    have hd2 : List.drop len
        (List.take k p.data ++ c ++ List.drop (k + c.length) p.data)
        = List.drop len p.data := by
      rw [List.drop_append_eq_append_drop, List.drop_of_length_le
        (by simp only [List.length_append, List.length_take]; omega)]
      simp only [List.length_append, List.length_take, List.nil_append, List.drop_drop]
      congr 1
      omega
    have : len - (k + c.length) = len - k - c.length := by omega
    rw [hd1, hd2, this]
    simp only [payload_reads, List.flatten_cons, List.append_assoc, List.singleton_append]

theorem header_of_length_ret (n : Nat) : recv_ret 24 (header_of_length n) = 24 := by
  unfold header_of_length recv_ret
  simp only [List.length_take, amessage_bytes_length]
  rfl

theorem header_of_length_load (n : Nat) (h : n < U32) :
    amessage.load false (recv_bytes 24 (header_of_length n)) = ⟨A_OKAY, 0, 0, n, 0, 0⟩ := by
  unfold header_of_length recv_bytes
  simp only
  rw [List.take_of_length_le (by rw [amessage_bytes_length])]
  exact amessage_load_bytes false _ (by show A_OKAY < U32; decide)
    (by show 0 < U32; decide) (by show 0 < U32; decide) h (by show 0 < U32; decide)
    (by show 0 < U32; decide)

theorem recv_packet_chunks (be : Bool) (p : apacket) (w : World) (r : RecvResult)
    (chunks : List (List Nat)) (rest : List RecvResult)
    (hr : recv_ret 24 r = 24)
    (hlen : (amessage.load be (recv_bytes 24 r)).data_length ≤ 4096)
    (hbuf : (amessage.load be (recv_bytes 24 r)).data_length ≤ p.data.length)
    (hne : ∀ c ∈ chunks, c ≠ [])
    (hsum : chunks.flatten.length = (amessage.load be (recv_bytes 24 r)).data_length)
    (hrx : w.rx = r :: (chunks.map RecvResult.data ++ rest)) :
    recv_packet be p w
      = Res.ok ⟨amessage.load be (recv_bytes 24 r),
          chunks.flatten ++ p.data.drop chunks.flatten.length⟩
        { w with rx := rest,
                 trace := w.trace ++ Event.recvHdr r
                   :: payload_reads chunks.flatten.length chunks } := by
  have hrun := recv_loop_chunks (amessage.load be (recv_bytes 24 r)).data_length hlen rest
    chunks 0 { p with msg := amessage.load be (recv_bytes 24 r) }
    { w with rx := chunks.map RecvResult.data ++ rest, trace := w.trace ++ [Event.recvHdr r] }
    hne (by omega) hbuf rfl
  unfold recv_packet
  rw [hrx]
  simp only
  rw [if_neg (by simp only [MAX_PAYLOAD]; rintro (h | h); exact h hr; omega)]
  refine Eq.trans hrun ?_
  simp only [List.take_zero, List.nil_append, Nat.sub_zero, List.append_assoc,
    List.singleton_append, hsum]

/-- C11: when the header announces `L ≤ 4096` payload bytes and the payload reads find the
payload cut into chunks of at least one byte each (so each read returns at least 1 and at
most the number of bytes still missing), `recv_packet` returns: it has made one read per
chunk, each asking for the bytes still missing, has taken the `L` bytes of the chunks and
nothing more from the stream, and the first `L` bytes of the payload buffer are the chunks
in order; the rest of the buffer is as before. -/
theorem recv_packet_partial_reads (be : Bool) (p : apacket) (w : World) (r : RecvResult)
    (chunks : List (List Nat)) (rest : List RecvResult)
    (hr : recv_ret 24 r = 24)
    (hlen : (amessage.load be (recv_bytes 24 r)).data_length ≤ 4096)
    (hbuf : (amessage.load be (recv_bytes 24 r)).data_length ≤ p.data.length)
    (hne : ∀ c ∈ chunks, c ≠ [])
    (hsum : chunks.flatten.length = (amessage.load be (recv_bytes 24 r)).data_length)
    (hrx : w.rx = r :: (chunks.map RecvResult.data ++ rest)) :
    ∃ p' w', recv_packet be p w = Res.ok p' w'
      ∧ p'.msg = amessage.load be (recv_bytes 24 r)
      ∧ p'.data.take p'.msg.data_length = chunks.flatten
      ∧ p'.data.drop p'.msg.data_length = p.data.drop p'.msg.data_length
      ∧ p'.data.length = p.data.length
      ∧ w'.rx = rest
      ∧ w'.trace = w.trace ++ Event.recvHdr r :: payload_reads p'.msg.data_length chunks
      ∧ (chunks.map List.length).sum = p'.msg.data_length := by
  refine ⟨_, _, recv_packet_chunks be p w r chunks rest hr hlen hbuf hne hsum hrx, rfl, ?_, ?_,
    ?_, rfl, ?_, ?_⟩
  · show List.take _ (chunks.flatten ++ _) = _
    rw [← hsum]
    exact List.take_left' rfl
  · show List.drop _ (chunks.flatten ++ _) = _
    rw [← hsum]
    exact List.drop_left' rfl
  · show (chunks.flatten ++ _).length = _
    rw [List.length_append, List.length_drop]
    omega
  · show _ = w.trace ++ Event.recvHdr r :: payload_reads _ chunks
    rw [← hsum]
  · rw [← hsum, List.length_flatten]

theorem recv_packet_partial_reads_witness :
    ∃ p' w', recv_packet false get_apacket
        (World.init [header_of_length 3, RecvResult.data [1], RecvResult.data [2, 3]]
          fun _ => none) = Res.ok p' w'
      ∧ p'.msg = amessage.load false (recv_bytes 24 (header_of_length 3))
      ∧ p'.data.take p'.msg.data_length = ([[1], [2, 3]] : List (List Nat)).flatten
      ∧ p'.data.drop p'.msg.data_length = get_apacket.data.drop p'.msg.data_length
      ∧ p'.data.length = get_apacket.data.length
      ∧ w'.rx = []
      ∧ w'.trace = (World.init [header_of_length 3, RecvResult.data [1],
            RecvResult.data [2, 3]] fun _ => none).trace
          ++ Event.recvHdr (header_of_length 3)
            :: payload_reads p'.msg.data_length [[1], [2, 3]]
      ∧ (([[1], [2, 3]] : List (List Nat)).map List.length).sum = p'.msg.data_length :=
  recv_packet_partial_reads false get_apacket _ (header_of_length 3) [[1], [2, 3]] []
    (header_of_length_ret 3)
    (by rw [header_of_length_load 3 (by decide)]; decide)
    (by rw [header_of_length_load 3 (by decide), get_apacket_length]; decide)
    (by decide)
    (by rw [header_of_length_load 3 (by decide)]; rfl)
    rfl

/-! ## A payload read that fails -/

/-- C15: `recv_packet` does not look at the result of a payload read. When the header is read
in full and announces between 1 and 4096 payload bytes and the first payload `recv` fails
(returns -1), `recv_packet` does not terminate fatally: the byte count becomes -1, which
compared as an `unsigned` is not below the length, the loop ends and `recv_packet` returns
to its caller a packet with the new header over a payload buffer it has not written. -/
theorem recv_packet_payload_error_returns (be : Bool) (p : apacket) (w : World)
    (r : RecvResult) (rest : List RecvResult)
    (hr : recv_ret 24 r = 24)
    (h1 : 1 ≤ (amessage.load be (recv_bytes 24 r)).data_length)
    (hlen : (amessage.load be (recv_bytes 24 r)).data_length ≤ 4096)
    (hrx : w.rx = r :: RecvResult.error :: rest) :
    recv_packet be p w
      = Res.ok { p with msg := amessage.load be (recv_bytes 24 r) }
          { w with rx := rest,
                   trace := w.trace ++ [Event.recvHdr r,
                     Event.recvData (amessage.load be (recv_bytes 24 r)).data_length
                       RecvResult.error] } := by
  unfold recv_packet
  rw [hrx]
  simp only
  rw [if_neg (by simp only [MAX_PAYLOAD]; rintro (h | h); exact h hr; omega)]
  generalize amessage.load be (recv_bytes 24 r) = m at *
  have hc : toU32 0 < m.data_length := by
    unfold toU32
    omega
  obtain ⟨_, _, hn⟩ := remaining_eq m.data_length 0 (by omega) (by omega) hlen hc
  rw [recv_loop, if_pos hc]
  simp only [hn, recv_bytes, recv_ret, Int.toNat_zero, Nat.sub_zero]
  rw [memcpy_fits _ _ _ (by simp only [List.length_nil]; omega)]
  simp only [List.take_zero, List.nil_append, List.length_nil, Nat.add_zero, List.drop_zero,
    List.append_assoc, List.singleton_append]
  have hc2 : ¬ toU32 (0 + -1) < m.data_length := by
    unfold toU32
    omega
  cases rest with
  | nil => rw [recv_loop, if_neg hc2]
  | cons r2 rest2 => rw [recv_loop, if_neg hc2]

theorem recv_packet_payload_error_returns_witness :
    recv_packet false get_apacket
        (World.init [header_of_length 3, RecvResult.error] fun _ => none)
      = Res.ok { get_apacket with
            msg := amessage.load false (recv_bytes 24 (header_of_length 3)) }
          { (World.init [header_of_length 3, RecvResult.error] fun _ => none) with
            rx := [],
            trace := (World.init [header_of_length 3, RecvResult.error] fun _ => none).trace
              ++ [Event.recvHdr (header_of_length 3),
                Event.recvData (amessage.load false (recv_bytes 24 (header_of_length 3))).data_length
                  RecvResult.error] } :=
  recv_packet_payload_error_returns false get_apacket _ (header_of_length 3) []
    (header_of_length_ret 3)
    (by rw [header_of_length_load 3 (by decide)]; decide)
    (by rw [header_of_length_load 3 (by decide)]; decide)
    rfl

/-! ## send_open -/

theorem open_packet_fits (destination : List Nat) (local_id : Int) :
    (open_packet destination local_id).msg.data_length
      ≤ (open_packet destination local_id).data.length := by
  simp only [open_packet, List.length_append, List.length_drop, get_apacket_length,
    List.length_singleton]
  omega

theorem open_packet_take (destination : List Nat) (local_id : Int) :
    List.take (destination.length + 1) (open_packet destination local_id).data
      = destination ++ [0] := by
  show List.take (destination.length + 1)
      (destination ++ [0] ++ List.drop (destination.length + 1) get_apacket.data) = _
  exact List.take_left' (by simp)

theorem send_open_unfold (destination : List Nat) (local_id : Int) (w : World)
    (hlen : destination.length + 1 ≤ 4095) :
    send_open destination local_id w
      = (send_packet (open_packet destination local_id) w).bind fun _ w => Res.ok () w := by
  have hm : memcpy get_apacket.data 0 (destination ++ [0])
      = some (open_packet destination local_id).data := by
    unfold memcpy
    rw [if_pos (by rw [get_apacket_length]; simp; omega)]
    simp [open_packet]
  unfold send_open
  rw [if_neg (by simp only [MAX_PAYLOAD]; omega)]
  simp only [hm]
  rfl

/-- C14: `send_open` terminates fatally without a `send` call exactly when the length of the
destination with its terminating zero, `len(d) + 1`, exceeds 4095. Otherwise it sends one
frame: a header with the command OPEN, `arg0 = local_id`, `arg1 = 0` and
`data_length = len(d) + 1`, followed, when the socket has taken the 24 header bytes, by the
payload `d` and one zero byte; it returns when the socket has taken the payload too and
terminates fatally when one of the two writes is refused. -/
theorem send_open_length_check (destination : List Nat) (local_id : Int) (w : World) :
    ((∃ w', send_open destination local_id w = Res.fatal w' ∧ w'.trace = w.trace)
      ↔ destination.length + 1 > 4095)
    ∧ (destination.length + 1 > 4095 → send_open destination local_id w = Res.fatal w)
    ∧ (destination.length + 1 ≤ 4095 →
        ∃ m, m.command = A_OPEN ∧ m.arg0 = toU32 local_id ∧ m.arg1 = 0
          ∧ m.data_length = destination.length + 1
          ∧ m.magic = A_OPEN ^^^ 0xffffffff
          ∧ m.data_check = sum_loop (destination ++ [0]) 0
          ∧ ∃ w', w'.rx = w.rx
            ∧ (if w.sendRet w.nsend 24 ≠ 24 then
                send_open destination local_id w = Res.fatal w'
                ∧ w'.trace = w.trace ++ [Event.sendHdr m (w.sendRet w.nsend 24)]
              else
                w'.trace = w.trace ++ [Event.sendHdr m 24,
                  Event.sendData (destination ++ [0])
                    (w.sendRet (w.nsend + 1) (destination.length + 1))]
                ∧ (if w.sendRet (w.nsend + 1) (destination.length + 1)
                      ≠ ((destination.length + 1 : Nat) : Int) then
                    send_open destination local_id w = Res.fatal w'
                  else send_open destination local_id w = Res.ok () w'))) := by
  have hbig : destination.length + 1 > 4095 → send_open destination local_id w = Res.fatal w := by
    intro h
    unfold send_open
    rw [if_pos (by simp only [MAX_PAYLOAD]; omega)]
  have hsmall : destination.length + 1 ≤ 4095 →
      send_open destination local_id w
        = if w.sendRet w.nsend 24 ≠ 24 then
            Res.fatal (after_hdr (open_packet destination local_id) w)
          else if w.sendRet (w.nsend + 1) (destination.length + 1)
              ≠ ((destination.length + 1 : Nat) : Int) then
            Res.fatal (after_packet (open_packet destination local_id) w)
          else Res.ok () (after_packet (open_packet destination local_id) w) := by
    intro h
    rw [send_open_unfold destination local_id w h,
      send_packet_eq _ w (open_packet_fits destination local_id),
      show (open_packet destination local_id).msg.data_length = destination.length + 1
        from rfl]
    split_ifs <;> rfl
  have hdata : (sent_header (open_packet destination local_id)).data_check
      = sum_loop (destination ++ [0]) 0 := by
    show sum_loop (List.take (destination.length + 1)
      (open_packet destination local_id).data) 0 = _
    rw [open_packet_take]
  refine ⟨⟨?_, fun h => ⟨w, hbig h, rfl⟩⟩, hbig, ?_⟩
  · rintro ⟨w', h1, h2⟩
    by_contra hle
    rw [hsmall (by omega)] at h1
    split_ifs at h1 with g1 g2
    · injection h1 with h1
      rw [← h1] at h2
      simp [after_hdr] at h2
    · injection h1 with h1
      rw [← h1] at h2
      simp [after_packet] at h2
  · intro hle
    refine ⟨sent_header (open_packet destination local_id), rfl, rfl, rfl, rfl, rfl, hdata, ?_⟩
    by_cases g1 : w.sendRet w.nsend 24 ≠ 24
    · refine ⟨after_hdr (open_packet destination local_id) w, rfl, ?_⟩
      rw [if_pos g1, hsmall hle, if_pos g1]
      exact ⟨rfl, rfl⟩
    · refine ⟨after_packet (open_packet destination local_id) w, rfl, ?_⟩
      rw [if_neg g1, hsmall hle, if_neg g1]
      refine ⟨?_, ?_⟩
      · simp only [after_packet]
        rw [show (open_packet destination local_id).msg.data_length = destination.length + 1
          from rfl, open_packet_take, not_not.mp g1]
      · split_ifs <;> rfl

/-! ## do_connect -/

theorem connect_packet_fits (device_name : List Nat) :
    (connect_packet device_name).msg.data_length ≤ (connect_packet device_name).data.length := by
  simp only [connect_packet, List.length_append, List.length_drop, get_apacket_length,
    List.length_singleton]
  omega

theorem connect_packet_take (device_name : List Nat) :
    List.take (device_name.length + 1) (connect_packet device_name).data
      = device_name ++ [0] := by
  show List.take (device_name.length + 1)
      (device_name ++ [0] ++ List.drop (device_name.length + 1) get_apacket.data) = _
  exact List.take_left' (by simp)

theorem connect_packet_header (device_name : List Nat) :
    sent_header (connect_packet device_name)
      = ⟨0x4e584e43, 0x02000000, 4096, device_name.length + 1,
          sum_loop (device_name ++ [0]) 0, 0x4e584e43 ^^^ 0xffffffff⟩ := by
  unfold sent_header
  rw [show (connect_packet device_name).msg.data_length = device_name.length + 1 from rfl,
    connect_packet_take]
  rfl

theorem do_connect_unfold (be : Bool) (device_name : List Nat) (w : World)
    (hlen : device_name.length < 4096) :
    do_connect be device_name w
      = (send_packet (connect_packet device_name) w).bind fun _ w =>
          (recv_packet be get_apacket w).bind fun p w =>
            if p.data.all (fun c => c % 256 != 0) then Res.undef w
            else
              Res.ok () (print (Event.printConnect p.msg.command p.msg.arg0 p.msg.arg1
                (p.data.takeWhile (fun c => c % 256 != 0))) w) := by
  have hm : memcpy get_apacket.data 0 (device_name ++ [0])
      = some (connect_packet device_name).data := by
    unfold memcpy
    rw [if_pos (by rw [get_apacket_length]; simp; omega)]
    simp [connect_packet]
  unfold do_connect
  simp only [hm]
  rfl

theorem takeWhile_append_stop (f : Nat → Bool) (t : List Nat) :
    ∀ l : List Nat, ((∃ c ∈ l, f c = false) ∨ (∃ x t', t = x :: t' ∧ f x = false)) →
      (l ++ t).takeWhile f = l.takeWhile f ∧ (l ++ t).all f = false := by
  intro l
  induction l with
  | nil =>
    rintro (⟨c, hc, _⟩ | ⟨x, t', ht, hx⟩)
    · exact absurd hc (List.not_mem_nil c)
    · rw [ht]
      simp [List.takeWhile, hx]
  | cons a l ih =>
    intro h
    by_cases ha : f a = true
    · have h' : (∃ c ∈ l, f c = false) ∨ (∃ x t', t = x :: t' ∧ f x = false) := by
        rcases h with ⟨c, hc, hf⟩ | h
        · rcases List.mem_cons.mp hc with rfl | hc
          · rw [ha] at hf
            exact absurd hf (by decide)
          · exact Or.inl ⟨c, hc, hf⟩
        · exact Or.inr h
      obtain ⟨h1, h2⟩ := ih h'
      simp only [List.cons_append, List.takeWhile_cons, ha, if_true, h1, List.all_cons, h2,
        Bool.and_false, and_self]
    · simp only [Bool.not_eq_true] at ha
      simp [List.takeWhile_cons, ha]

theorem do_connect_string_reply (be : Bool) (s : List Nat) (w : World) (r : RecvResult)
    (chunks : List (List Nat)) (rest : List RecvResult)
    (hs : s.length < 4096) (hacc : ∀ i n, w.sendRet i n = (n : Int))
    (hr : recv_ret 24 r = 24)
    (hlen : (amessage.load be (recv_bytes 24 r)).data_length ≤ 4096)
    (hne : ∀ c ∈ chunks, c ≠ [])
    (hsum : chunks.flatten.length = (amessage.load be (recv_bytes 24 r)).data_length)
    (hstr : chunks.flatten.length < 4096 ∨ ∃ c ∈ chunks.flatten, c % 256 = 0)
    (hrx : w.rx = r :: (chunks.map RecvResult.data ++ rest)) :
    ∃ w', do_connect be s w = Res.ok () w'
      ∧ w'.rx = rest
      ∧ w'.trace = w.trace
          ++ [Event.sendHdr ⟨0x4e584e43, 0x02000000, 4096, s.length + 1,
                sum_loop (s ++ [0]) 0, 0x4e584e43 ^^^ 0xffffffff⟩ 24,
              Event.sendData (s ++ [0]) (s.length + 1),
              Event.recvHdr r]
          ++ payload_reads chunks.flatten.length chunks
          ++ [Event.printConnect (amessage.load be (recv_bytes 24 r)).command
                (amessage.load be (recv_bytes 24 r)).arg0
                (amessage.load be (recv_bytes 24 r)).arg1 (c_string chunks.flatten)] := by
  obtain ⟨pX, wX, h1, hpX, hwX⟩ : ∃ pX wX,
      recv_packet be get_apacket (after_packet (connect_packet s) w) = Res.ok pX wX
      ∧ pX = ⟨amessage.load be (recv_bytes 24 r),
          chunks.flatten ++ get_apacket.data.drop chunks.flatten.length⟩
      ∧ wX = { (after_packet (connect_packet s) w) with
          rx := rest,
          trace := (after_packet (connect_packet s) w).trace ++ Event.recvHdr r
            :: payload_reads chunks.flatten.length chunks } :=
    ⟨_, _, recv_packet_chunks be get_apacket (after_packet (connect_packet s) w) r chunks
      rest hr hlen (by rw [get_apacket_length]; exact hlen) hne hsum hrx, rfl, rfl⟩
  have hdata : chunks.flatten ++ get_apacket.data.drop chunks.flatten.length
      = chunks.flatten ++ List.replicate (4096 - chunks.flatten.length) 0 := by
    show _ ++ List.drop _ (List.replicate 4096 0) = _
    rw [List.drop_replicate]
  have hstop := takeWhile_append_stop (fun c => c % 256 != 0)
    (List.replicate (4096 - chunks.flatten.length) 0) chunks.flatten (by
      rcases hstr with h | ⟨c, hc, h0⟩
      · right
        refine ⟨0, List.replicate (4095 - chunks.flatten.length) 0, ?_, rfl⟩
        rw [show 4096 - chunks.flatten.length = (4095 - chunks.flatten.length) + 1 by omega,
          List.replicate_succ]
      · left
        exact ⟨c, hc, by simp [h0]⟩)
  rw [← hdata] at hstop
  have hd : pX.data = chunks.flatten ++ get_apacket.data.drop chunks.flatten.length := by
    rw [hpX]
  rw [← hd] at hstop
  refine ⟨print (Event.printConnect pX.msg.command pX.msg.arg0 pX.msg.arg1
    (pX.data.takeWhile (fun c => c % 256 != 0))) wX, ?_, ?_, ?_⟩
  · rw [do_connect_unfold be s w hs,
      send_packet_accepted _ w (connect_packet_fits s) hacc]
    simp only [Res.bind, h1, hstop.2]
    rfl
  · rw [hwX]
    rfl
  · rw [hstop.1, hwX, hpX]
    simp only [print, after_packet, hacc, List.append_assoc, List.cons_append,
      List.nil_append, c_string]
    rw [show (connect_packet s).msg.data_length = s.length + 1 from rfl, connect_packet_take,
      connect_packet_header]
    push_cast
    rfl

theorem do_connect_overread (be : Bool) (s : List Nat) (w : World) (r : RecvResult)
    (chunks : List (List Nat)) (rest : List RecvResult)
    (hs : s.length < 4096) (hacc : ∀ i n, w.sendRet i n = (n : Int))
    (hr : recv_ret 24 r = 24)
    (hlen : (amessage.load be (recv_bytes 24 r)).data_length ≤ 4096)
    (hne : ∀ c ∈ chunks, c ≠ [])
    (hsum : chunks.flatten.length = (amessage.load be (recv_bytes 24 r)).data_length)
    (hfull : chunks.flatten.length = 4096) (hnz : ∀ c ∈ chunks.flatten, c % 256 ≠ 0)
    (hrx : w.rx = r :: (chunks.map RecvResult.data ++ rest)) :
    ∃ w', do_connect be s w = Res.undef w'
      ∧ w'.rx = rest
      ∧ w'.trace = w.trace
          ++ [Event.sendHdr ⟨0x4e584e43, 0x02000000, 4096, s.length + 1,
                sum_loop (s ++ [0]) 0, 0x4e584e43 ^^^ 0xffffffff⟩ 24,
              Event.sendData (s ++ [0]) (s.length + 1),
              Event.recvHdr r]
          ++ payload_reads chunks.flatten.length chunks := by
  obtain ⟨pX, wX, h1, hpX, hwX⟩ : ∃ pX wX,
      recv_packet be get_apacket (after_packet (connect_packet s) w) = Res.ok pX wX
      ∧ pX = ⟨amessage.load be (recv_bytes 24 r),
          chunks.flatten ++ get_apacket.data.drop chunks.flatten.length⟩
      ∧ wX = { (after_packet (connect_packet s) w) with
          rx := rest,
          trace := (after_packet (connect_packet s) w).trace ++ Event.recvHdr r
            :: payload_reads chunks.flatten.length chunks } :=
    ⟨_, _, recv_packet_chunks be get_apacket (after_packet (connect_packet s) w) r chunks
      rest hr hlen (by rw [get_apacket_length]; exact hlen) hne hsum hrx, rfl, rfl⟩
  have hd : pX.data = chunks.flatten := by
    rw [hpX]
    show chunks.flatten ++ List.drop chunks.flatten.length get_apacket.data = chunks.flatten
    rw [List.drop_of_length_le (by rw [get_apacket_length, hfull]), List.append_nil]
  have hall : pX.data.all (fun c => c % 256 != 0) = true := by
    rw [hd, List.all_eq_true]
    intro c hc
    simpa using hnz c hc
  refine ⟨wX, ?_, ?_, ?_⟩
  · rw [do_connect_unfold be s w hs,
      send_packet_accepted _ w (connect_packet_fits s) hacc]
    simp only [Res.bind, h1, hall]
    rfl
  · rw [hwX]
  · rw [hwX]
    simp only [after_packet, hacc, List.append_assoc, List.cons_append, List.nil_append]
    rw [show (connect_packet s).msg.data_length = s.length + 1 from rfl, connect_packet_take,
      connect_packet_header]
    push_cast
    rfl

/-- C13: for an identity string `s` of fewer than 4096 bytes and a socket that accepts every
write, `do_connect` sends one frame, with the command CNXN, `arg0 = 0x02000000`,
`arg1 = 4096`, `data_length = len(s) + 1` and the payload `s` followed by one zero byte, and
receives one frame, whatever its command, in one header read and one read for each part the
payload arrives in. What follows depends on the payload received. When it is shorter than
the 4096 bytes of the buffer or holds a zero byte, `do_connect` prints the command, `arg0`,
`arg1` and the payload up to its first zero byte, and returns. When it has 4096 bytes and
none of them is zero, `printf("%s")` reads past the end of the buffer: the behaviour is
undefined and nothing is known to be printed. -/
theorem do_connect_exchange (be : Bool) (s : List Nat) (w : World) (r : RecvResult)
    (chunks : List (List Nat)) (rest : List RecvResult)
    (hs : s.length < 4096) (hacc : ∀ i n, w.sendRet i n = (n : Int))
    (hr : recv_ret 24 r = 24)
    (hlen : (amessage.load be (recv_bytes 24 r)).data_length ≤ 4096)
    (hne : ∀ c ∈ chunks, c ≠ [])
    (hsum : chunks.flatten.length = (amessage.load be (recv_bytes 24 r)).data_length)
    (hrx : w.rx = r :: (chunks.map RecvResult.data ++ rest)) :
    ((chunks.flatten.length < 4096 ∨ ∃ c ∈ chunks.flatten, c % 256 = 0) →
      ∃ w', do_connect be s w = Res.ok () w'
        ∧ w'.rx = rest
        ∧ w'.trace = w.trace
            ++ [Event.sendHdr ⟨0x4e584e43, 0x02000000, 4096, s.length + 1,
                  sum_loop (s ++ [0]) 0, 0x4e584e43 ^^^ 0xffffffff⟩ 24,
                Event.sendData (s ++ [0]) (s.length + 1),
                Event.recvHdr r]
            ++ payload_reads chunks.flatten.length chunks
            ++ [Event.printConnect (amessage.load be (recv_bytes 24 r)).command
                  (amessage.load be (recv_bytes 24 r)).arg0
                  (amessage.load be (recv_bytes 24 r)).arg1
                  (chunks.flatten.takeWhile (fun c => c % 256 != 0))])
    ∧ (chunks.flatten.length = 4096 → (∀ c ∈ chunks.flatten, c % 256 ≠ 0) →
      ∃ w', do_connect be s w = Res.undef w'
        ∧ w'.rx = rest
        ∧ w'.trace = w.trace
            ++ [Event.sendHdr ⟨0x4e584e43, 0x02000000, 4096, s.length + 1,
                  sum_loop (s ++ [0]) 0, 0x4e584e43 ^^^ 0xffffffff⟩ 24,
                Event.sendData (s ++ [0]) (s.length + 1),
                Event.recvHdr r]
            ++ payload_reads chunks.flatten.length chunks) :=
  ⟨fun hstr => do_connect_string_reply be s w r chunks rest hs hacc hr hlen hne hsum hstr hrx,
   fun hfull hnz => do_connect_overread be s w r chunks rest hs hacc hr hlen hne hsum hfull
     hnz hrx⟩

theorem overread_reply_length :
    ([List.replicate 4096 65] : List (List Nat)).flatten.length = 4096 := by
  simp only [List.flatten_cons, List.flatten_nil, List.append_nil, List.length_replicate]

theorem do_connect_exchange_witness :
    ∃ w', do_connect false host_identity overread_world = Res.undef w'
      ∧ w'.rx = []
      ∧ w'.trace = overread_world.trace
          ++ [Event.sendHdr ⟨0x4e584e43, 0x02000000, 4096, host_identity.length + 1,
                sum_loop (host_identity ++ [0]) 0, 0x4e584e43 ^^^ 0xffffffff⟩ 24,
              Event.sendData (host_identity ++ [0]) (host_identity.length + 1),
              Event.recvHdr (header_of_length 4096)]
          ++ payload_reads ([List.replicate 4096 65] : List (List Nat)).flatten.length
              [List.replicate 4096 65] :=
  (do_connect_exchange false host_identity overread_world (header_of_length 4096)
    [List.replicate 4096 65] []
    (by decide) (fun _ _ => rfl) (header_of_length_ret 4096)
    (by rw [header_of_length_load 4096 (by decide)])
    (by
      intro c hc
      rw [List.mem_singleton.mp hc]
      intro h
      have := congrArg List.length h
      rw [List.length_replicate] at this
      exact absurd this (by decide))
    (by rw [header_of_length_load 4096 (by decide)]; exact overread_reply_length)
    rfl).2 overread_reply_length
    (by
      intro c hc
      simp only [List.flatten_cons, List.flatten_nil, List.append_nil] at hc
      rw [List.eq_of_mem_replicate hc]
      decide)

theorem do_connect_string_reply_sample :
    ∃ w', do_connect false host_identity connect_world = Res.ok () w'
      ∧ w'.rx = []
      ∧ w'.trace = connect_world.trace
          ++ [Event.sendHdr ⟨0x4e584e43, 0x02000000, 4096, host_identity.length + 1,
                sum_loop (host_identity ++ [0]) 0, 0x4e584e43 ^^^ 0xffffffff⟩ 24,
              Event.sendData (host_identity ++ [0]) (host_identity.length + 1),
              Event.recvHdr (header_of_length 3)]
          ++ payload_reads ([[100], [101, 0]] : List (List Nat)).flatten.length
              [[100], [101, 0]]
          ++ [Event.printConnect
                (amessage.load false (recv_bytes 24 (header_of_length 3))).command
                (amessage.load false (recv_bytes 24 (header_of_length 3))).arg0
                (amessage.load false (recv_bytes 24 (header_of_length 3))).arg1
                (c_string ([[100], [101, 0]] : List (List Nat)).flatten)] :=
  do_connect_string_reply false host_identity connect_world (header_of_length 3)
    [[100], [101, 0]] []
    (by decide) (fun _ _ => rfl) (header_of_length_ret 3)
    (by rw [header_of_length_load 3 (by decide)]; decide)
    (by decide)
    (by rw [header_of_length_load 3 (by decide)]; rfl)
    (Or.inl (by decide)) rfl

/-! ## The command loop -/

theorem recv_loop_rx_le (len : Nat) (rx : List RecvResult) :
    ∀ (br : Int) (p p' : apacket) (w w' : World), w.rx = rx →
      recv_loop len rx br p w = Res.ok p' w' → w'.rx.length ≤ rx.length := by
  induction rx with
  | nil =>
    intro br p p' w w' hrx h
    unfold recv_loop at h
    split_ifs at h
    injection h with _ h
    rw [← h, hrx]
  | cons r rest ih =>
    intro br p p' w w' hrx h
    rw [recv_loop] at h
    split_ifs at h with hc
    · simp only at h
      split at h
      · exact Res.noConfusion h
      · have := ih _ _ _ _ _ rfl h
        simp only [List.length_cons]
        omega
    · injection h with _ h
      rw [← h, hrx]

theorem recv_packet_rx_lt (be : Bool) (p p' : apacket) (w w' : World)
    (h : recv_packet be p w = Res.ok p' w') : w'.rx.length < w.rx.length := by
  unfold recv_packet at h
  cases hrx : w.rx with
  | nil =>
    rw [hrx] at h
    exact Res.noConfusion h
  | cons r rest =>
    rw [hrx] at h
    simp only at h
    split_ifs at h
    have := recv_loop_rx_le _ rest _ _ _ _ _ rfl h
    simp only [List.length_cons]
    omega

theorem send_cmd_accepted (cmd : Nat) (local_id remote_id : Int) (w : World)
    (hacc : ∀ i n, w.sendRet i n = (n : Int)) :
    ∃ w', send_cmd cmd local_id remote_id w = Res.ok () w'
      ∧ w'.rx = w.rx ∧ w'.sendRet = w.sendRet ∧ w'.fs = w.fs
      ∧ w'.trace = w.trace ++ frame_events cmd (toU32 local_id) (toU32 remote_id) [] := by
  refine ⟨after_packet { get_apacket with msg := { get_apacket.msg with
      command := cmd, arg0 := toU32 local_id, arg1 := toU32 remote_id } } w, ?_, rfl, rfl, rfl,
    ?_⟩
  · unfold send_cmd
    simp only
    rw [send_packet_accepted _ w (Nat.zero_le _) hacc]
    rfl
  · simp only [after_packet, hacc, frame_events, sent_header]
    rfl

theorem do_appcmd_loop_done (be : Bool) (local_id remote_id : Int) (n : Nat) (p : apacket)
    (w : World) (h : p.msg.command = A_CLSE) :
    do_appcmd_loop be local_id remote_id n p w = Res.ok () w := by
  cases n with
  | zero => rw [do_appcmd_loop, if_neg (not_not.mpr h)]
  | succ n => rw [do_appcmd_loop, if_neg (not_not.mpr h)]

theorem do_appcmd_loop_recv (be : Bool) (local_id remote_id : Int) (n : Nat) (p f : apacket)
    (w w1 : World) (hn : w.rx.length ≤ n) (hp : p.msg.command ≠ A_CLSE)
    (h : recv_packet be p (World.init w.rx fun _ => none) = Res.ok f w1) :
    ∃ m, n = m + 1 ∧ w1.rx.length ≤ m
      ∧ do_appcmd_loop be local_id remote_id n p w
        = if f.msg.command = A_WRTE then
            (send_cmd A_OKAY local_id remote_id
              (print (Event.printData (printf_chars f.msg.data_length f.data))
                (rebase w w1))).bind fun _ w =>
              do_appcmd_loop be local_id remote_id m f w
          else do_appcmd_loop be local_id remote_id m f (rebase w w1) := by
  have hlt := recv_packet_rx_lt be p f _ w1 h
  simp only [World.init] at hlt
  cases n with
  | zero => omega
  | succ m =>
    refine ⟨m, rfl, by omega, ?_⟩
    rw [do_appcmd_loop, if_pos hp, recv_packet_of_init be p f w w1 h]
    rfl

theorem do_appcmd_loop_frames (be : Bool) (local_id remote_id : Int) :
    ∀ (frames : List (apacket × List Event)) (fc : apacket × List Event) (n : Nat)
      (p : apacket) (w : World) (rx' : List RecvResult),
      w.rx.length ≤ n → (∀ i k, w.sendRet i k = (k : Int)) → p.msg.command ≠ A_CLSE →
      receives be (frames ++ [fc]) p w.rx rx' →
      (∀ f ∈ frames, f.1.msg.command ≠ A_CLSE) → fc.1.msg.command = A_CLSE →
      ∃ w', do_appcmd_loop be local_id remote_id n p w = Res.ok () w'
        ∧ w'.rx = rx'
        ∧ w'.trace = w.trace
            ++ frames.flatMap (fun f =>
                f.2 ++ appcmd_reaction (toU32 local_id) (toU32 remote_id) f.1)
            ++ fc.2 := by
  intro frames
  induction frames with
  | nil =>
    intro fc n p w rx' hn hacc hp hrecv _ hfc
    simp only [List.nil_append, receives] at hrecv
    obtain ⟨w1, h1, h2, h3⟩ := hrecv
    obtain ⟨m, _, _, hloop⟩ := do_appcmd_loop_recv be local_id remote_id n p fc.1 w w1 hn hp h1
    have hnw : fc.1.msg.command ≠ A_WRTE := by
      rw [hfc]
      decide
    rw [if_neg hnw, do_appcmd_loop_done be local_id remote_id m fc.1 _ hfc] at hloop
    refine ⟨rebase w w1, hloop, h3.symm, ?_⟩
    simp only [rebase, List.flatMap_nil, List.append_nil, h2]
  | cons f frames ih =>
    intro fc n p w rx' hn hacc hp hrecv hall hfc
    simp only [List.cons_append, receives] at hrecv
    obtain ⟨w1, h1, h2, h3⟩ := hrecv
    obtain ⟨m, _, hm, hloop⟩ := do_appcmd_loop_recv be local_id remote_id n p f.1 w w1 hn hp h1
    have hf : f.1.msg.command ≠ A_CLSE := hall f (List.mem_cons_self _ _)
    have hall' : ∀ g ∈ frames, g.1.msg.command ≠ A_CLSE :=
      fun g hg => hall g (List.mem_cons_of_mem _ hg)
    by_cases hw : f.1.msg.command = A_WRTE
    · rw [if_pos hw] at hloop
      obtain ⟨w3, g1, g2, g3, _, g5⟩ := send_cmd_accepted A_OKAY local_id remote_id
        (print (Event.printData (printf_chars f.1.msg.data_length f.1.data)) (rebase w w1))
        hacc
      obtain ⟨w', e1, e2, e3⟩ := ih fc m f.1 w3 rx' (by rw [g2]; exact hm)
        (by rw [g3]; exact hacc) hf (by rw [g2]; exact h3) hall' hfc
      rw [g1] at hloop
      refine ⟨w', hloop.trans e1, e2, ?_⟩
      rw [e3, g5]
      simp only [print, rebase, h2, List.flatMap_cons, appcmd_reaction, if_pos hw,
        List.append_assoc, List.singleton_append, List.cons_append, List.nil_append]
    · rw [if_neg hw] at hloop
      obtain ⟨w', e1, e2, e3⟩ := ih fc m f.1 (rebase w w1) rx' hm hacc hf h3 hall' hfc
      refine ⟨w', hloop.trans e1, e2, ?_⟩
      rw [e3]
      simp only [rebase, h2, List.flatMap_cons, appcmd_reaction, if_neg hw,
        List.append_assoc, List.append_nil]

theorem after_packet_trace (p : apacket) (w : World) (payload : List Nat)
    (hs : ∀ i n, w.sendRet i n = (n : Int)) (hp : p.data.take p.msg.data_length = payload)
    (hl : payload.length = p.msg.data_length) :
    (after_packet p w).trace
      = w.trace ++ frame_events p.msg.command p.msg.arg0 p.msg.arg1 payload := by
  simp only [after_packet, hs, hp, frame_events, sent_header, hl]
  rfl

theorem do_appcmd_trace (be : Bool) (cmd : List Nat) (local_id : Int) (w : World)
    (f0 : apacket × List Event) (frames : List (apacket × List Event))
    (fc : apacket × List Event) (rx' : List RecvResult)
    (hlen : cmd.length + 1 ≤ 4095) (hacc : ∀ i n, w.sendRet i n = (n : Int))
    (hrecv : receives be (f0 :: (frames ++ [fc])) get_apacket w.rx rx')
    (h0 : f0.1.msg.command = A_OKAY)
    (hall : ∀ f ∈ frames, f.1.msg.command ≠ A_CLSE) (hfc : fc.1.msg.command = A_CLSE) :
    ∃ w', do_appcmd be cmd local_id w = Res.ok () w'
      ∧ w'.rx = rx'
      ∧ w'.trace = w.trace ++ [Event.printCmd cmd]
          ++ frame_events A_OPEN (toU32 local_id) 0 (cmd ++ [0]) ++ f0.2
          ++ frames.flatMap (fun f =>
              f.2 ++ (if f.1.msg.command = A_WRTE then
                  [Event.printData (printf_chars f.1.msg.data_length f.1.data),
                   Event.sendHdr ⟨A_OKAY, toU32 local_id, f0.1.msg.arg0, 0, 0,
                     A_OKAY ^^^ 0xffffffff⟩ 24,
                   Event.sendData [] 0]
                else []))
          ++ fc.2 := by
  simp only [receives] at hrecv
  obtain ⟨w1, h1, h2, h3⟩ := hrecv
  have hopen := send_open_eq cmd local_id (print (Event.printCmd cmd) w) hlen hacc
  have hr : recv_packet be get_apacket
      (after_packet (open_packet cmd local_id) (print (Event.printCmd cmd) w))
      = Res.ok f0.1 (rebase
          (after_packet (open_packet cmd local_id) (print (Event.printCmd cmd) w)) w1) :=
    recv_packet_of_init be get_apacket f0.1 _ w1 h1
  have harg : toU32 (toInt32 f0.1.msg.arg0) = f0.1.msg.arg0 :=
    toU32_toInt32 _ ((recv_packet_emits (fun _ => True) (fun _ => trivial)
      (fun _ _ => trivial) be get_apacket _).2 f0.1 _ hr).2
  have hne : f0.1.msg.command ≠ A_CLSE := by
    rw [h0]
    decide
  obtain ⟨w', e1, e2, e3⟩ := do_appcmd_loop_frames be local_id (toInt32 f0.1.msg.arg0)
    frames fc w1.rx.length f0.1
    (rebase (after_packet (open_packet cmd local_id) (print (Event.printCmd cmd) w)) w1)
    rx' (Nat.le_refl _) hacc hne h3 hall hfc
  refine ⟨w', ?_, e2, ?_⟩
  · rw [do_appcmd_open be cmd local_id w _ _ f0.1 hopen hr, if_neg (not_not.mpr h0)]
    exact e1
  · rw [e3, harg]
    have ht := after_packet_trace (open_packet cmd local_id) (print (Event.printCmd cmd) w)
      (cmd ++ [0]) hacc (open_packet_take cmd local_id) (by simp [open_packet])
    simp only [rebase]
    rw [ht, h2]
    simp only [print, appcmd_reaction, frame_events, List.append_assoc]
    rfl

/-- C12, amended: `do_appcmd` opens the stream; the peer accepts with an OKAY frame whose
`arg0` is the remote identifier and then sends frames, none of them a CLSE, followed by a
CLSE frame. With a socket that accepts every write, `do_appcmd` returns, and after the
reception of the OKAY its calls are, frame by frame in the order received: the reads of the
frame, and for a WRTE frame one print and the two `send` calls of one OKAY frame with no
payload, `arg0 = local_id` and `arg1 = remote_id`; for another frame, nothing. The reads of
the CLSE frame are the last calls, and the results that follow it stay pending. What is
printed for a WRTE frame is its payload as text: the first `data_length` bytes of the
buffer up to the first zero byte among them, which is the whole payload when it holds no
zero byte. -/
theorem do_appcmd_dispatch (be : Bool) (cmd : List Nat) (local_id : Int) (w : World)
    (f0 : apacket × List Event) (frames : List (apacket × List Event))
    (fc : apacket × List Event) (rx' : List RecvResult)
    (hlen : cmd.length + 1 ≤ 4095) (hacc : ∀ i n, w.sendRet i n = (n : Int))
    (hrecv : receives be (f0 :: (frames ++ [fc])) get_apacket w.rx rx')
    (h0 : f0.1.msg.command = A_OKAY)
    (hall : ∀ f ∈ frames, f.1.msg.command ≠ A_CLSE) (hfc : fc.1.msg.command = A_CLSE) :
    (∃ w', do_appcmd be cmd local_id w = Res.ok () w'
      ∧ w'.rx = rx'
      ∧ w'.trace = w.trace ++ [Event.printCmd cmd]
          ++ frame_events A_OPEN (toU32 local_id) 0 (cmd ++ [0]) ++ f0.2
          ++ frames.flatMap (fun f =>
              f.2 ++ (if f.1.msg.command = A_WRTE then
                  [Event.printData
                     ((f.1.data.take f.1.msg.data_length).takeWhile (fun c => c % 256 != 0)),
                   Event.sendHdr ⟨A_OKAY, toU32 local_id, f0.1.msg.arg0, 0, 0,
                     A_OKAY ^^^ 0xffffffff⟩ 24,
                   Event.sendData [] 0]
                else []))
          ++ fc.2)
    ∧ (∀ f ∈ frames, (∀ c ∈ f.1.data.take f.1.msg.data_length, c % 256 ≠ 0) →
        (f.1.data.take f.1.msg.data_length).takeWhile (fun c => c % 256 != 0)
          = f.1.data.take f.1.msg.data_length) := by
  refine ⟨do_appcmd_trace be cmd local_id w f0 frames fc rx' hlen hacc hrecv h0 hall hfc, ?_⟩
  intro f _ hnz
  rw [List.takeWhile_eq_self_iff]
  intro c hc
  simpa using hnz c hc

theorem recv_packet_frame (be : Bool) (p : apacket) (w : World) (m : amessage)
    (payload : List Nat) (rest : List RecvResult)
    (h0 : m.command < U32) (h1 : m.arg0 < U32) (h2 : m.arg1 < U32) (h3 : m.data_length < U32)
    (h4 : m.data_check < U32) (h5 : m.magic < U32)
    (hl : payload.length = m.data_length) (hp : payload ≠ []) (hmax : payload.length ≤ 4096)
    (hbuf : payload.length ≤ p.data.length)
    (hrx : w.rx = RecvResult.data (m.bytes be) :: RecvResult.data payload :: rest) :
    recv_packet be p w
      = Res.ok ⟨m, payload ++ p.data.drop payload.length⟩
          { w with rx := rest,
                   trace := w.trace ++ [Event.recvHdr (RecvResult.data (m.bytes be)),
                     Event.recvData payload.length (RecvResult.data payload)] } := by
  have hb : recv_bytes 24 (RecvResult.data (m.bytes be)) = m.bytes be :=
    List.take_of_length_le (by rw [amessage_bytes_length])
  have hload : amessage.load be (recv_bytes 24 (RecvResult.data (m.bytes be))) = m := by
    rw [hb]
    exact amessage_load_bytes be m h0 h1 h2 h3 h4 h5
  have hret : recv_ret 24 (RecvResult.data (m.bytes be)) = 24 := by
    show (((m.bytes be).take 24).length : Int) = 24
    rw [List.take_of_length_le (by rw [amessage_bytes_length]), amessage_bytes_length]
    rfl
  have := recv_packet_chunks be p w (RecvResult.data (m.bytes be)) [payload] rest hret
    (by rw [hload, ← hl]; exact hmax) (by rw [hload, ← hl]; exact hbuf)
    (fun c hc => by rw [List.mem_singleton.mp hc]; exact hp)
    (by rw [hload, ← hl]; simp) hrx
  rw [this, hload]
  simp only [List.flatten_cons, List.flatten_nil, List.append_nil, payload_reads]

theorem receives_bare (p : apacket) (command arg0 : Nat) (rest : List RecvResult)
    (hc : command < U32) (ha : arg0 < U32) :
    recv_packet false p (World.init (bare_header false command arg0 :: rest) fun _ => none)
      = Res.ok { p with msg := ⟨command, arg0, 0, 0, 0, 0⟩ }
          (after_recv_hdr (World.init (bare_header false command arg0 :: rest)
            fun _ => none)) :=
  recv_packet_bare false p _ command arg0 rest rfl hc ha

theorem appcmd_world_receives :
    receives false (appcmd_accept :: ([appcmd_wrte, appcmd_other] ++ [appcmd_close]))
      get_apacket appcmd_world.rx [RecvResult.data [7]] := by
  refine ⟨_, receives_bare get_apacket A_OKAY 99 _ (by decide) (by decide), rfl, ?_⟩
  refine ⟨_, recv_packet_frame false appcmd_accept.1 _ wrte_header_hi [104, 105] _
    (by decide) (by decide) (by decide) (by decide) (by decide) (by decide) rfl (by decide)
    (by decide) (by show 2 ≤ get_apacket.data.length; rw [get_apacket_length]; decide) rfl,
    rfl, ?_⟩
  refine ⟨_, receives_bare appcmd_wrte.1 A_OKAY 0 _ (by decide) (by decide), rfl, ?_⟩
  exact ⟨_, receives_bare appcmd_other.1 A_CLSE 0 _ (by decide) (by decide), rfl, rfl⟩

theorem do_appcmd_dispatch_witness :
    (∃ w', do_appcmd false [97] 2 appcmd_world = Res.ok () w'
      ∧ w'.rx = [RecvResult.data [7]]
      ∧ w'.trace = appcmd_world.trace ++ [Event.printCmd [97]]
          ++ frame_events A_OPEN (toU32 2) 0 ([97] ++ [0]) ++ appcmd_accept.2
          ++ [appcmd_wrte, appcmd_other].flatMap (fun f =>
              f.2 ++ (if f.1.msg.command = A_WRTE then
                  [Event.printData
                     ((f.1.data.take f.1.msg.data_length).takeWhile (fun c => c % 256 != 0)),
                   Event.sendHdr ⟨A_OKAY, toU32 2, appcmd_accept.1.msg.arg0, 0, 0,
                     A_OKAY ^^^ 0xffffffff⟩ 24,
                   Event.sendData [] 0]
                else []))
          ++ appcmd_close.2)
    ∧ (∀ f ∈ [appcmd_wrte, appcmd_other],
        (∀ c ∈ f.1.data.take f.1.msg.data_length, c % 256 ≠ 0) →
        (f.1.data.take f.1.msg.data_length).takeWhile (fun c => c % 256 != 0)
          = f.1.data.take f.1.msg.data_length) :=
  do_appcmd_dispatch false [97] 2 appcmd_world appcmd_accept [appcmd_wrte, appcmd_other]
    appcmd_close [RecvResult.data [7]] (by decide) (fun _ _ => rfl) appcmd_world_receives rfl
    (by
      intro f hf
      simp only [List.mem_cons, List.mem_singleton, List.not_mem_nil, or_false] at hf
      rcases hf with rfl | rfl <;> decide)
    rfl

theorem appcmd_nul_world_receives :
    receives false (appcmd_accept :: ([appcmd_nul_wrte] ++ [appcmd_nul_close]))
      get_apacket appcmd_nul_world.rx [] := by
  refine ⟨_, receives_bare get_apacket A_OKAY 99 _ (by decide) (by decide), rfl, ?_⟩
  refine ⟨_, recv_packet_frame false appcmd_accept.1 _ wrte_header_nul [104, 0, 105] _
    (by decide) (by decide) (by decide) (by decide) (by decide) (by decide) rfl (by decide)
    (by decide) (by show 3 ≤ get_apacket.data.length; rw [get_apacket_length]; decide) rfl,
    rfl, ?_⟩
  exact ⟨_, receives_bare appcmd_nul_wrte.1 A_CLSE 0 _ (by decide) (by decide), rfl, rfl⟩

/-- C12, as stated, fails: the peer accepts the OPEN and writes the three payload bytes
`h`, zero, `i`; `do_appcmd` receives the three bytes and prints `h` alone. -/
theorem do_appcmd_print_stops_at_zero :
    ∃ w', do_appcmd false [97] 2 appcmd_nul_world = Res.ok () w'
      ∧ w'.trace = [Event.printCmd [97],
          Event.sendHdr ⟨A_OPEN, 2, 0, 2, 97, A_OPEN ^^^ 0xffffffff⟩ 24,
          Event.sendData [97, 0] 2,
          Event.recvHdr (bare_header false A_OKAY 99),
          Event.recvHdr (RecvResult.data (amessage.bytes false wrte_header_nul)),
          Event.recvData 3 (RecvResult.data [104, 0, 105]),
          Event.printData [104],
          Event.sendHdr ⟨A_OKAY, 2, 99, 0, 0, A_OKAY ^^^ 0xffffffff⟩ 24,
          Event.sendData [] 0,
          Event.recvHdr (bare_header false A_CLSE 0)] := by
  obtain ⟨w', h1, _, h3⟩ := do_appcmd_trace false [97] 2 appcmd_nul_world appcmd_accept
    [appcmd_nul_wrte] appcmd_nul_close [] (by decide) (fun _ _ => rfl)
    appcmd_nul_world_receives rfl
    (by
      intro f hf
      rw [List.mem_singleton.mp hf]
      decide)
    rfl
  refine ⟨w', h1, ?_⟩
  have hp : printf_chars appcmd_nul_wrte.1.msg.data_length appcmd_nul_wrte.1.data = [104] := by
    show List.takeWhile _ (List.take 3 ([104, 0, 105] ++ get_apacket.data.drop 3)) = [104]
    rw [List.take_left' (show ([104, 0, 105] : List Nat).length = 3 from rfl)]
    decide
  rw [h3]
  simp only [List.flatMap_cons, List.flatMap_nil, List.append_nil,
    if_pos (show appcmd_nul_wrte.1.msg.command = A_WRTE from rfl), hp]
  rfl

/-! ## Byte order -/

theorem and_shiftLeft_mask (x m k : Nat) : x &&& (m <<< k) = ((x >>> k) &&& m) <<< k := by
  apply Nat.eq_of_testBit_eq
  intro i
  simp only [Nat.testBit_and, Nat.testBit_shiftLeft, Nat.testBit_shiftRight]
  by_cases h : k ≤ i
  · simp only [h, decide_True, Bool.true_and, ge_iff_le]
    rw [Nat.add_sub_cancel' h]
  · simp [h]

theorem and_byte (x k : Nat) : x &&& (0xFF <<< k) = (x / 2 ^ k % 256) * 2 ^ k := by
  rw [and_shiftLeft_mask, Nat.shiftLeft_eq, Nat.shiftRight_eq_div_pow,
    show (0xFF : Nat) = 2 ^ 8 - 1 from rfl, Nat.and_pow_two_sub_one_eq_mod]

theorem swap_uint32_eq (x : Nat) :
    swap_uint32 x
      = 16777216 * (x % 256) + (65536 * (x / 256 % 256)
          + (256 * (x / 65536 % 256) + x / 16777216 % 256)) := by
  unfold swap_uint32
  have e3 : x &&& 0xFF000000 = (x / 16777216 % 256) * 16777216 := and_byte x 24
  have e2 : x &&& 0x00FF0000 = (x / 65536 % 256) * 65536 := and_byte x 16
  have e1 : x &&& 0x0000FF00 = (x / 256 % 256) * 256 := and_byte x 8
  have e0 : x &&& 0x000000FF = x % 256 := by
    have := and_byte x 0
    simpa using this
  rw [e3, e2, e1, e0]
  simp only [Nat.shiftLeft_eq, Nat.shiftRight_eq_div_pow]
  have h3 : x / 16777216 % 256 * 16777216 / 2 ^ 24 = x / 16777216 % 256 := by omega
  have h2 : x / 65536 % 256 * 65536 / 2 ^ 8 = 2 ^ 8 * (x / 65536 % 256) := by omega
  have h1 : x / 256 % 256 * 256 * 2 ^ 8 = 2 ^ 16 * (x / 256 % 256) := by omega
  have h0 : x % 256 * 2 ^ 24 = 2 ^ 24 * (x % 256) := by omega
  rw [h3, h2, h1, h0]
  rw [Nat.lor_comm (x / 16777216 % 256),
    ← Nat.mul_add_lt_is_or (show x / 16777216 % 256 < 2 ^ 8 by omega),
    Nat.lor_comm _ (2 ^ 16 * (x / 256 % 256)),
    ← Nat.mul_add_lt_is_or (show 2 ^ 8 * (x / 65536 % 256) + x / 16777216 % 256 < 2 ^ 16
      by omega),
    Nat.lor_comm _ (2 ^ 24 * (x % 256)),
    ← Nat.mul_add_lt_is_or (show 2 ^ 16 * (x / 256 % 256)
      + (2 ^ 8 * (x / 65536 % 256) + x / 16777216 % 256) < 2 ^ 24 by omega)]
  norm_num

theorem storeU32_htoll (be : Bool) (x : Nat) : storeU32 be (htoll be x) = le32 x := by
  cases be
  · rfl
  · have key : ∀ b0 b1 b2 b3 : Nat, b0 < 256 → b1 < 256 → b2 < 256 → b3 < 256 →
        (16777216 * b0 + (65536 * b1 + (256 * b2 + b3))) / 16777216 % 256 = b0
        ∧ (16777216 * b0 + (65536 * b1 + (256 * b2 + b3))) / 65536 % 256 = b1
        ∧ (16777216 * b0 + (65536 * b1 + (256 * b2 + b3))) / 256 % 256 = b2
        ∧ (16777216 * b0 + (65536 * b1 + (256 * b2 + b3))) % 256 = b3 := by
      intro b0 b1 b2 b3 h0 h1 h2 h3
      omega
    obtain ⟨k0, k1, k2, k3⟩ := key (x % 256) (x / 256 % 256) (x / 65536 % 256)
      (x / 16777216 % 256) (Nat.mod_lt _ (by decide)) (Nat.mod_lt _ (by decide))
      (Nat.mod_lt _ (by decide)) (Nat.mod_lt _ (by decide))
    simp only [storeU32, htoll, if_true, le32, swap_uint32_eq, k0, k1, k2, k3]

theorem storeU32_ids (be : Bool) :
    storeU32 be (ID_SEND be) = ['S'.toNat, 'E'.toNat, 'N'.toNat, 'D'.toNat]
    ∧ storeU32 be (ID_DATA be) = ['D'.toNat, 'A'.toNat, 'T'.toNat, 'A'.toNat]
    ∧ storeU32 be (ID_DONE be) = ['D'.toNat, 'O'.toNat, 'N'.toNat, 'E'.toNat]
    ∧ storeU32 be (ID_QUIT be) = ['Q'.toNat, 'U'.toNat, 'I'.toNat, 'T'.toNat] := by
  cases be <;> decide

theorem amessage_bytes_le (m : amessage) : amessage.bytes false m = wire_header m := rfl

theorem amessage_bytes_be (m : amessage) :
    amessage.bytes true m
      = be32 m.command ++ be32 m.arg0 ++ be32 m.arg1 ++ be32 m.data_length
          ++ be32 m.data_check ++ be32 m.magic := rfl

/-- C16: `send_packet` passes the header to `send` as it lies in memory, so the 24 bytes
written are the six fields in order, each in the byte order of the host. Built without
`HAVE_BIG_ENDIAN` they are the six fields as 32-bit little-endian integers. Built with
`HAVE_BIG_ENDIAN` each field goes out big-endian, and for a frame whose command is one of
CNXN, OPEN, OKAY, CLSE and WRTE the bytes written are not the little-endian header. -/
theorem send_packet_header_byte_order (p : apacket) (w : World)
    (h : p.msg.data_length ≤ p.data.length) :
    ∃ m ret rest, (send_packet p w).world.trace = w.trace ++ Event.sendHdr m ret :: rest
      ∧ m.command = p.msg.command
      ∧ amessage.bytes false m = wire_header m
      ∧ amessage.bytes true m
          = be32 m.command ++ be32 m.arg0 ++ be32 m.arg1 ++ be32 m.data_length
              ++ be32 m.data_check ++ be32 m.magic
      ∧ (p.msg.command ∈ [A_CNXN, A_OPEN, A_OKAY, A_CLSE, A_WRTE] →
          amessage.bytes true m ≠ wire_header m) := by
  obtain ⟨rest, hr⟩ := send_packet_first_event p w h
  refine ⟨sent_header p, _, rest, hr, rfl, rfl, rfl, ?_⟩
  intro hc heq
  have h4 : (amessage.bytes true (sent_header p)).take 4
      = (wire_header (sent_header p)).take 4 := by rw [heq]
  have e1 : (amessage.bytes true (sent_header p)).take 4 = be32 p.msg.command := rfl
  have e2 : (wire_header (sent_header p)).take 4 = le32 p.msg.command := rfl
  rw [e1, e2] at h4
  simp only [List.mem_cons, List.mem_singleton, List.not_mem_nil, or_false] at hc
  rcases hc with hc | hc | hc | hc | hc <;> rw [hc] at h4 <;> revert h4 <;> decide

theorem send_packet_header_byte_order_witness :
    ∃ m ret rest, (send_packet frame3 (World.init [] fun _ => none)).world.trace
        = (World.init [] fun _ => none).trace ++ Event.sendHdr m ret :: rest
      ∧ m.command = frame3.msg.command
      ∧ amessage.bytes false m = wire_header m
      ∧ amessage.bytes true m
          = be32 m.command ++ be32 m.arg0 ++ be32 m.arg1 ++ be32 m.data_length
              ++ be32 m.data_check ++ be32 m.magic
      ∧ (frame3.msg.command ∈ [A_CNXN, A_OPEN, A_OKAY, A_CLSE, A_WRTE] →
          amessage.bytes true m ≠ wire_header m) :=
  send_packet_header_byte_order frame3 _ (by decide)

/-! ## The push on the wire -/

theorem le32_mod (x : Nat) : le32 (x % U32) = le32 x := by
  simp only [le32, U32]
  refine congrArg₂ _ (by omega) (congrArg₂ _ (by omega) (congrArg₂ _ (by omega)
    (congrArg₂ _ (by omega) rfl)))

theorem data_chunk_wire (be : Bool) (c : List Nat) : data_chunk be c = wire_chunk c := by
  unfold data_chunk syncmsg_data wire_chunk
  rw [(storeU32_ids be).2.1, storeU32_htoll]

theorem request_wire (be : Bool) (rpath : List Nat) :
    syncmsg_req be (ID_SEND be) (htoll be (rpath.length % U32)) ++ rpath
      = wire_request rpath := by
  unfold syncmsg_req wire_request
  rw [(storeU32_ids be).1, storeU32_htoll, le32_mod]

theorem data_frames_wire (be : Bool) (command arg0 arg1 : Nat) (cs : List (List Nat)) :
    ∀ pre : List Nat,
      data_frames be command arg0 arg1 pre cs = chunk_frames command arg0 arg1 pre cs := by
  induction cs with
  | nil => intro pre; rfl
  | cons c cs ih =>
    intro pre
    rw [data_frames, chunk_frames, ih, data_chunk_wire]

theorem sync_send_wire (be : Bool) (lpath rpath : List Nat) (local_id remote_id : Int)
    (w : World) (file : List Nat) (rp' : apacket) (rx' : List RecvResult)
    (hf : w.fs lpath = some file) (hlen : rpath.length ≤ 4080)
    (hs : ∀ i n, w.sendRet i n = (n : Int))
    (hok : okay_replies be
      ((file_chunks file.length (4080 - rpath.length) file).length + 1) get_apacket w.rx
      rp' rx') :
    ∃ tail, (sync_send be lpath rpath local_id remote_id w).world.trace.filter Event.isSend
        = w.trace.filter Event.isSend
          ++ chunk_frames A_WRTE (toU32 local_id) (toU32 remote_id) (wire_request rpath)
              (file_chunks file.length (4080 - rpath.length) file)
          ++ frame_events A_WRTE (toU32 local_id) (toU32 remote_id) done_marker
          ++ tail
      ∧ (∀ m ret, Event.sendHdr m ret ∈ tail → m.command = A_OKAY) := by
  obtain ⟨tail, h1, h2, _⟩ := sync_send_acked be lpath rpath local_id remote_id w file rp' rx'
    hf hlen hs hok
  rw [data_frames_wire, request_wire] at h1
  exact ⟨tail, h1, h2⟩

theorem file_chunks_flatten (n : Nat) :
    ∀ (first : Nat) (file : List Nat), 0 < first → file.length ≤ n →
      (file_chunks n first file).flatten = file := by
  induction n with
  | zero =>
    intro first file _ h
    have : file = [] := List.eq_nil_of_length_eq_zero (by omega)
    rw [this]
    rfl
  | succ n ih =>
    intro first file hfirst h
    by_cases hnil : file = []
    · rw [hnil, file_chunks_nil _ _ _ (by simp)]
      rfl
    · rw [file_chunks_cons n first file (by omega) hnil, List.flatten_cons,
        ih 4088 (file.drop first) (by decide) (by
          have := List.length_pos.mpr hnil
          rw [List.length_drop]
          omega),
        List.take_append_drop]

theorem file_chunks_nonfinal (n : Nat) :
    ∀ (first : Nat) (file c0 : List Nat) (mid : List (List Nat)) (last : List Nat),
      file_chunks n first file = c0 :: (mid ++ [last]) →
      c0.length = first ∧ ∀ c ∈ mid, c.length = 4088 := by
  induction n with
  | zero =>
    intro first file c0 mid last h
    exact absurd h (by simp [file_chunks])
  | succ n ih =>
    intro first file c0 mid last h
    by_cases hstop : first = 0 ∨ file = []
    · rw [file_chunks, if_pos hstop] at h
      exact absurd h (by simp)
    · rw [file_chunks, if_neg hstop] at h
      injection h with h1 h2
      have hrest : ¬ (List.take 4088 (file.drop first)).length = 0 := by
        intro h0
        rw [file_chunks_nil n 4088 _ h0] at h2
        exact absurd h2 (by simp)
      have hlong : first < file.length := by
        rw [List.length_take, List.length_drop] at hrest
        omega
      refine ⟨by rw [← h1, List.length_take]; omega, ?_⟩
      cases mid with
      | nil => exact fun c hc => absurd hc (List.not_mem_nil c)
      | cons m mid' =>
        obtain ⟨g1, g2⟩ := ih 4088 (file.drop first) m mid' last h2
        intro c hc
        rcases List.mem_cons.mp hc with rfl | hc
        · exact g1
        · exact g2 c hc

theorem wire_chunk_size (c : List Nat) (h : c.length < U32) :
    loadU32 false (wire_chunk c) 4 = c.length ∧ (wire_chunk c).drop 8 = c :=
  ⟨loadU32_storeU32 false c.length h ['D'.toNat, 'A'.toNat, 'T'.toNat, 'A'.toNat] c, rfl⟩

theorem wire_lengths (rpath c : List Nat) :
    (wire_chunk c).length = 8 + c.length
    ∧ (wire_request rpath ++ wire_chunk c).length = 16 + rpath.length + c.length := by
  simp only [wire_chunk, wire_request, le32, List.length_append, List.length_cons,
    List.length_nil]
  constructor
  · trivial
  · omega

/-- C17: for a remote path of at most 4079 bytes, a peer that answers every frame with OKAY
and a socket that accepts every write, the WRITE frames of a push carry the chunks of the
file one to a frame, the first one after the SEND request, and a frame with the DONE marker
follows; only OKAY frames are sent after it. In each frame the chunk is the last part of
the payload: the characters `DATA`, a size field that read as a 32-bit little-endian
integer is the number of content bytes, and the content bytes up to the end of the payload.
The chunks are not empty and put together in the order sent they are the file. -/
theorem push_transmits_file (be : Bool) (lpath rpath : List Nat) (local_id remote_id : Int)
    (w : World) (file : List Nat) (rp' : apacket) (rx' : List RecvResult)
    (hf : w.fs lpath = some file) (hlen : rpath.length ≤ 4079)
    (hs : ∀ i n, w.sendRet i n = (n : Int))
    (hok : okay_replies be
      ((file_chunks file.length (4080 - rpath.length) file).length + 1) get_apacket w.rx
      rp' rx') :
    (∃ tail, (sync_send be lpath rpath local_id remote_id w).world.trace.filter Event.isSend
        = w.trace.filter Event.isSend
          ++ chunk_frames A_WRTE (toU32 local_id) (toU32 remote_id) (wire_request rpath)
              (file_chunks file.length (4080 - rpath.length) file)
          ++ frame_events A_WRTE (toU32 local_id) (toU32 remote_id) done_marker
          ++ tail
      ∧ ∀ m ret, Event.sendHdr m ret ∈ tail → m.command = A_OKAY)
    ∧ (file_chunks file.length (4080 - rpath.length) file).flatten = file
    ∧ (∀ c ∈ file_chunks file.length (4080 - rpath.length) file,
        c ≠ [] ∧ loadU32 false (wire_chunk c) 4 = c.length ∧ (wire_chunk c).drop 8 = c) := by
  refine ⟨sync_send_wire be lpath rpath local_id remote_id w file rp' rx' hf (by omega) hs hok,
    file_chunks_flatten _ _ _ (by omega) (le_refl _), ?_⟩
  intro c hc
  obtain ⟨h1, h2⟩ := file_chunks_sizes _ _ _ (by omega) c hc
  exact ⟨List.length_pos.mp h1, wire_chunk_size c (by unfold U32; omega)⟩

theorem push_transmits_file_witness :
    (∃ tail, (sync_send false [108] [97] 2 99 small_push_world).world.trace.filter Event.isSend
        = small_push_world.trace.filter Event.isSend
          ++ chunk_frames A_WRTE (toU32 2) (toU32 99) (wire_request [97])
              (file_chunks ([1, 2, 3] : List Nat).length (4080 - ([97] : List Nat).length)
                [1, 2, 3])
          ++ frame_events A_WRTE (toU32 2) (toU32 99) done_marker
          ++ tail
      ∧ ∀ m ret, Event.sendHdr m ret ∈ tail → m.command = A_OKAY)
    ∧ (file_chunks ([1, 2, 3] : List Nat).length (4080 - ([97] : List Nat).length)
        [1, 2, 3]).flatten = [1, 2, 3]
    ∧ (∀ c ∈ file_chunks ([1, 2, 3] : List Nat).length (4080 - ([97] : List Nat).length)
          [1, 2, 3],
        c ≠ [] ∧ loadU32 false (wire_chunk c) 4 = c.length ∧ (wire_chunk c).drop 8 = c) :=
  push_transmits_file false [108] [97] 2 99 small_push_world [1, 2, 3]
    { get_apacket with msg := ⟨A_OKAY, 0, 0, 0, 0, 0⟩ } [] rfl (by decide) (fun _ _ => rfl)
    (by rw [file_chunks_small]; exact bare_okay_replies_2 [])

/-- C19: for a remote path of at most 4079 bytes, a peer that answers every frame with OKAY
and a socket that accepts every write, the WRITE frames of a push carry the chunks of the
file one to a frame, and every chunk but the last fills its frame: when a chunk follows the
first one, the first frame holds the SEND request, the characters `DATA`, the size and
`4096 - 16 - len(path)` file bytes, 4096 bytes in all; every later chunk that is not the
last one has 4088 bytes and its frame, again, 4096. The header of a frame carries the
length of its payload in `data_length`. -/
theorem push_full_frames (be : Bool) (lpath rpath : List Nat) (local_id remote_id : Int)
    (w : World) (file : List Nat) (rp' : apacket) (rx' : List RecvResult)
    (hf : w.fs lpath = some file) (hlen : rpath.length ≤ 4079)
    (hs : ∀ i n, w.sendRet i n = (n : Int))
    (hok : okay_replies be
      ((file_chunks file.length (4080 - rpath.length) file).length + 1) get_apacket w.rx
      rp' rx') :
    (∃ tail, (sync_send be lpath rpath local_id remote_id w).world.trace.filter Event.isSend
        = w.trace.filter Event.isSend
          ++ chunk_frames A_WRTE (toU32 local_id) (toU32 remote_id) (wire_request rpath)
              (file_chunks file.length (4080 - rpath.length) file)
          ++ frame_events A_WRTE (toU32 local_id) (toU32 remote_id) done_marker
          ++ tail
      ∧ ∀ m ret, Event.sendHdr m ret ∈ tail → m.command = A_OKAY)
    ∧ (∀ (c0 : List Nat) (mid : List (List Nat)) (last : List Nat),
        file_chunks file.length (4080 - rpath.length) file = c0 :: (mid ++ [last]) →
        c0.length = 4096 - 16 - rpath.length
        ∧ (wire_request rpath ++ wire_chunk c0).length = 4096
        ∧ ∀ c ∈ mid, c.length = 4088 ∧ (wire_chunk c).length = 4096) := by
  refine ⟨sync_send_wire be lpath rpath local_id remote_id w file rp' rx' hf (by omega) hs hok,
    ?_⟩
  intro c0 mid last h
  obtain ⟨h1, h2⟩ := file_chunks_nonfinal _ _ _ c0 mid last h
  refine ⟨by omega, by rw [(wire_lengths rpath c0).2]; omega, ?_⟩
  intro c hc
  exact ⟨h2 c hc, by rw [(wire_lengths rpath c).1, h2 c hc]⟩

theorem push_full_frames_witness :
    ((∃ tail,
        (sync_send false [108] [97] 2 99 push_4088_world).world.trace.filter Event.isSend
          = push_4088_world.trace.filter Event.isSend
            ++ chunk_frames A_WRTE (toU32 2) (toU32 99) (wire_request [97])
                (file_chunks (List.replicate 4088 0).length (4080 - ([97] : List Nat).length)
                  (List.replicate 4088 0))
            ++ frame_events A_WRTE (toU32 2) (toU32 99) done_marker
            ++ tail
        ∧ ∀ m ret, Event.sendHdr m ret ∈ tail → m.command = A_OKAY)
      ∧ (∀ (c0 : List Nat) (mid : List (List Nat)) (last : List Nat),
          file_chunks (List.replicate 4088 0).length (4080 - ([97] : List Nat).length)
            (List.replicate 4088 0) = c0 :: (mid ++ [last]) →
          c0.length = 4096 - 16 - ([97] : List Nat).length
          ∧ (wire_request [97] ++ wire_chunk c0).length = 4096
          ∧ ∀ c ∈ mid, c.length = 4088 ∧ (wire_chunk c).length = 4096))
    ∧ (List.replicate 4079 (0 : Nat)).length = 4096 - 16 - ([97] : List Nat).length
    ∧ (wire_request [97] ++ wire_chunk (List.replicate 4079 0)).length = 4096 :=
  have h := push_full_frames false [108] [97] 2 99 push_4088_world (List.replicate 4088 0)
    { get_apacket with msg := ⟨A_OKAY, 0, 0, 0, 0, 0⟩ } [] rfl (by decide) (fun _ _ => rfl)
    (by rw [file_chunks_4088]; exact bare_okay_replies_3 [])
  have h2 := h.2 (List.replicate 4079 0) [] (List.replicate 9 0) file_chunks_4088
  ⟨h, h2.1, h2.2.1⟩

/-! ## A path that does not fit -/

theorem fread_count_wraps (d : Nat) (h1 : 4088 < d) (h2 : d ≤ 4096) :
    fread_count d = 18446744073709551616 - (d - 4088) := by
  simp only [fread_count, MAX_PAYLOAD, U32, SIZE_T]
  omega

theorem append_payload_none (p : apacket) (src : List Nat)
    (h : p.data.length < p.msg.data_length + src.length) : append_payload p src = none := by
  unfold append_payload memcpy
  rw [if_neg (by omega)]

theorem send_file_loop_overflow (be : Bool) (left : Nat) (fp : List Nat) (p rp : apacket)
    (w : World) (hfp : fp ≠ []) (h1 : 4088 < p.msg.data_length)
    (h2 : p.msg.data_length ≤ 4096) (hbuf : p.data.length = 4096) :
    send_file_loop be (left + 1) fp p rp w = Res.undef w := by
  have hpos : 0 < (fp.take (fread_count p.msg.data_length)).length := by
    have := List.length_pos.mpr hfp
    rw [List.length_take, fread_count_wraps _ h1 h2]
    omega
  have hnone : (append_payload p (syncmsg_data be (ID_DATA be)
        (htoll be (fp.take (fread_count p.msg.data_length)).length))).bind
      (fun p1 => append_payload p1 (fp.take (fread_count p.msg.data_length))) = none := by
    rw [append_payload_none p _ (by rw [syncmsg_data_length, hbuf]; omega)]
    rfl
  rw [send_file_loop]
  simp only
  by_cases hbig : (fp.take (fread_count p.msg.data_length)).length > MAX_PAYLOAD
  · rw [if_pos hbig]
  · rw [if_neg hbig, if_pos hpos]
    simp only [hnone]

theorem sync_request_none (be : Bool) (id : Nat) (rpath : List Nat) (local_id remote_id : Int)
    (h : 4088 < rpath.length) : sync_request be id rpath local_id remote_id = none := by
  obtain ⟨p1, hp1, _, _, _, l1, n1, _⟩ := append_payload_ok
    { get_apacket with
      msg := { get_apacket.msg with
        command := A_WRTE, arg0 := toU32 local_id, arg1 := toU32 remote_id } }
    (syncmsg_req be id (htoll be (rpath.length % U32)))
    (by rw [syncmsg_req_length]
        show 0 + 8 ≤ get_apacket.data.length
        rw [get_apacket_length]; omega)
  have l1' : p1.msg.data_length = 8 := by
    rw [l1, syncmsg_req_length]; exact Nat.zero_add 8
  have n1' : p1.data.length = 4096 := n1.trans get_apacket_length
  unfold sync_request
  simp only [hp1, Option.bind]
  exact append_payload_none p1 rpath (by rw [l1', n1']; omega)

/-- C18: `sync_send` and `sync_quit` make no check of the length of the remote path, and
with a path of more than 4080 bytes and a file that is not empty a push leaves the 4096 bytes
of the payload buffer, which is undefined behaviour, before a frame is sent. For a path of
4081 to 4088 bytes the packet holds `8 + len > 4088` payload bytes when `send_file` starts,
so the count `4096 - data_length - 8` it asks `fread` for wraps around below zero to
`2^64 - (len - 4080)`, and the copy of the DATA sub-header leaves the buffer. For a path of
more than 4088 bytes the copy of the path itself leaves the buffer, in `sync_send` and in
`sync_quit`. -/
theorem push_long_path_overflows (be : Bool) (lpath rpath : List Nat)
    (local_id remote_id : Int) (w : World) (file : List Nat) (hf : w.fs lpath = some file)
    (hne : file ≠ []) (hlong : 4080 < rpath.length) :
    sync_send be lpath rpath local_id remote_id w = Res.undef w
    ∧ (rpath.length ≤ 4088 →
        fread_count (8 + rpath.length) = 18446744073709551616 - (rpath.length - 4080))
    ∧ (4088 < rpath.length → sync_quit be rpath local_id remote_id w = Res.undef w) := by
  refine ⟨?_, ?_, ?_⟩
  · by_cases h2 : rpath.length ≤ 4088
    · obtain ⟨p, hp, _, _, _, hl, hn, _⟩ :=
        sync_request_ok be (ID_SEND be) rpath local_id remote_id h2
      obtain ⟨n, hfl⟩ : ∃ n, file.length = n + 1 :=
        ⟨file.length - 1, by have := List.length_pos.mpr hne; omega⟩
      unfold sync_send
      simp only [hp]
      rw [send_file_eq be p lpath w file hf, hfl,
        send_file_loop_overflow be n file p get_apacket w hne (by omega) (by omega) hn]
      rfl
    · unfold sync_send
      simp only [sync_request_none be _ rpath local_id remote_id (by omega)]
  · intro h2
    rw [fread_count_wraps _ (by omega) (by omega)]
    omega
  · intro h
    unfold sync_quit
    simp only [sync_request_none be _ rpath local_id remote_id h]

theorem long_path_length : long_path.length = 4081 := by
  unfold long_path
  rw [List.length_replicate]

theorem push_long_path_overflows_witness :
    sync_send false [108] long_path 2 99 one_byte_world = Res.undef one_byte_world
    ∧ (long_path.length ≤ 4088 →
        fread_count (8 + long_path.length)
          = 18446744073709551616 - (long_path.length - 4080))
    ∧ (4088 < long_path.length →
        sync_quit false long_path 2 99 one_byte_world = Res.undef one_byte_world) :=
  push_long_path_overflows false [108] long_path 2 99 one_byte_world [1] rfl (by decide)
    (by rw [long_path_length]; decide)

end TinySdb
